import Mathlib

set_option maxRecDepth 16000

/-!
# Verification of the phantasmal-world quest binary subsystem

Shallow embedding of `src/core/data_formats/parsing/quest/index.ts` (quest
assembly layer, NPC identity tables) and its bundled QST container codec
(`parseQst`/`writeQst` and helpers), together with spec-modelled stand-ins
for the collaborator modules that are not part of the reviewed source
(`dat.ts`, `bin.ts`, PRS compression, the object-type table).

Bytes are modelled as `Nat`, byte buffers as `List Nat`, 32-bit float fields
(positions, rotations, scales) as their IEEE-754 binary32 bit patterns
(`Nat` below `2^32`), and JavaScript exceptions as `Except`/`Option`
failures.
-/

namespace PW

/-! ## Basic byte helpers -/

/-- Little-endian 16-bit read at `off` (missing bytes read as 0, matching a
zero-initialized buffer). -/
def u16le (bytes : List Nat) (off : Nat) : Nat :=
  bytes.getD off 0 % 256 + 256 * (bytes.getD (off + 1) 0 % 256)

/-- Little-endian 32-bit read at `off`. -/
def u32le (bytes : List Nat) (off : Nat) : Nat :=
  bytes.getD off 0 % 256 + 256 * (bytes.getD (off + 1) 0 % 256) +
    65536 * (bytes.getD (off + 2) 0 % 256) + 16777216 * (bytes.getD (off + 3) 0 % 256)

/-- Little-endian 16-bit write (`BufferCursor.write_u16`). -/
def u16leBytes (n : Nat) : List Nat := [n % 256, n / 256 % 256]

/-- Little-endian 32-bit write (`BufferCursor.write_u32`). -/
def u32leBytes (n : Nat) : List Nat :=
  [n % 256, n / 256 % 256, n / 65536 % 256, n / 16777216 % 256]

/-- `BufferCursor.write_string_ascii(str, n)`: the first `n` bytes of the
string, zero-padded to exactly `n` bytes. -/
def padAscii (n : Nat) (s : List Nat) : List Nat :=
  (s.take n) ++ List.replicate (n - s.length) 0

/-- Null-terminated read used by `string_ascii(n, true, true)`: take `n`
bytes, stop at the first NUL. -/
def takeUntilNul (s : List Nat) : List Nat := s.takeWhile (fun b => b ≠ 0)

/-- Whitespace trim used by `string_ascii(_, _, true)` and `String.trim`:
drop leading and trailing bytes `≤ 32` (space and control characters). -/
def trimBytes (s : List Nat) : List Nat :=
  ((s.dropWhile (fun b => b ≤ 32)).reverse.dropWhile (fun b => b ≤ 32)).reverse

/-- `string_ascii(n, true, true)`: `n` bytes at `off`, null-terminated,
trimmed. -/
def stringAscii (bytes : List Nat) (off n : Nat) : List Nat :=
  trimBytes (takeUntilNul ((bytes.drop off).take n))

/-- `String.toLowerCase` on ASCII byte lists. -/
def lowerBytes (s : List Nat) : List Nat :=
  s.map (fun b => if 65 ≤ b ∧ b ≤ 90 then b + 32 else b)

/-! ## IEEE-754 binary32 scale test

`get_npc_type` computes `Math.abs(scale.y - 1) > 0.00001` on the NPC's
vertical scale.  We model the scale as its binary32 bit pattern and decide
the comparison exactly over the integers: a finite binary32 value is
`±(frac)·2^-149` (subnormal) or `±(2^23+frac)·2^(exp-150)` (normal), i.e.
`f32_val149 · 2^-149`, so `|x - 1| > 10^-5` iff
`100000·|f32_val149 - 2^149| > 2^149`.  For every binary32 input this agrees
with the JavaScript double comparison: near 1 the difference `x - 1` is
exact in binary64 and a multiple of `2^-24`, and no such multiple separates
`10^-5` from its binary64 rounding; `NaN` compares false, `±∞` true. -/

def f32_sign (b : Nat) : Bool := b / 2 ^ 31 % 2 = 1

def f32_exp (b : Nat) : Nat := b / 2 ^ 23 % 2 ^ 8

def f32_frac (b : Nat) : Nat := b % 2 ^ 23

/-- Value of a finite binary32 bit pattern in units of `2^-149`. -/
def f32_val149 (b : Nat) : Int :=
  (if f32_sign b then -1 else 1) *
    (if f32_exp b = 0 then (f32_frac b : Int)
     else (2 ^ 23 + f32_frac b : Int) * 2 ^ (f32_exp b - 1))

/-- `Math.abs(scale.y - 1) > 0.00001` on the bit pattern `b` of `scale.y`.
In the source this is the (confusingly named) local variable `regular` of
`get_npc_type`. -/
def scale_deviates_one (b : Nat) : Bool :=
  if f32_exp b = 255 then f32_frac b = 0
  else decide ((2 ^ 149 : Nat) < 100000 * (f32_val149 b - 2 ^ 149).natAbs)

/-! ## Entity record types

`DatNpc`/`DatObject` mirror the raw DAT-level records used by `index.ts`
(the numeric fields are `Nat`; 3-D floats are binary32 bit patterns).
`script_label` is stored already rounded (the DAT codec is out of src, so
the `Math.round` in `parse_npc_data`/`extract_script_entry_points` is the
identity here). -/

structure Vec3 where
  x : Nat
  y : Nat
  z : Nat
deriving DecidableEq, Repr

structure DatNpc where
  type_id : Nat
  section_id : Nat
  position : Vec3
  rotation : Vec3
  scale : Vec3
  npc_id : Nat
  script_label : Nat
  roaming : Nat
  area_id : Nat
  unknown : List Nat
deriving DecidableEq, Repr

structure DatObject where
  type_id : Nat
  id : Nat
  group_id : Nat
  section_id : Nat
  position : Vec3
  rotation : Vec3
  properties : List Nat
  area_id : Nat
  unknown : List Nat
deriving DecidableEq, Repr

/-- Raw DAT data that can't be parsed yet; `data` is the opaque byte span
that round-trips byte-for-byte. -/
structure DatUnknown where
  entity_type : Nat
  data : List Nat
deriving DecidableEq, Repr

/-! ## NPC semantic identities

All constructors that occur in `get_npc_type` / `npc_type_to_dat_data`,
plus the identities the source names but does not yet produce (the
`TODO: detect Mothmant, St. Rappy, ...` comment and the commented-out
`VolOptPart1` case); the latter exist in the full `NpcType` enumeration
(`npc_types.ts`, not under review) and exercise the `default: throw`
branch of `npc_type_to_dat_data`. -/
inductive NpcType where
  | Booma | Gobooma | Gigobooma
  | EvilShark | PalShark | GuilShark
  | Dimenian | Dimenian2 | LaDimenian | LaDimenian2 | SoDimenian | SoDimenian2
  | Mericarol | Mericus | Merikle
  | Boota | ZeBoota | BaBoota
  | Goran | PyroGoran | GoranDetonator
  | Hildebear | Hildebear2 | Hildeblue | Hildeblue2
  | RagRappy | RagRappy2 | SandRappy | AlRappy | LoveRappy | DelRappy
  | Dubchic | Dubchic2 | Gilchic | Gilchic2
  | SinowBerill | SinowSpigell
  | Merillia | Meriltas
  | UlGibbon | ZolGibbon
  | Dolmolm | Dolmdarl
  | Epsilon | SinowZoa | SinowZele
  | MerissaA | MerissaAA
  | Zu | Pazuzu
  | Dorphon | DorphonEclair
  | SaintMilion | Shambertin | Kondrieu
  | Monest | Monest2
  | SavageWolf | BarbarousWolf | SavageWolf2 | BarbarousWolf2
  | GrassAssassin | GrassAssassin2
  | DelLily | PoisonLily | NarLily | PoisonLily2 | NarLily2
  | NanoDragon
  | PofuillySlime | PouillySlime
  | PanArms | PanArms2
  | Garanz | Garanz2
  | SinowBeat | SinowGold
  | Canadine | Canane
  | Dubswitch | Dubswitch2
  | Delsaber | Delsaber2
  | ChaosSorcerer | ChaosSorcerer2
  | DarkGunner | ChaosBringer
  | DarkBelra | DarkBelra2
  | Bulclaw | Claw
  | Dragon | GalGryphon | DeRolLe | VolOpt | DarkFalz | OlgaFlow | BarbaRay | GolDragon
  | Gibbles | Gee | GiGue
  | Deldepth | Delbiter | Morfos | Recobox | IllGill
  | Astark | SatelliteLizard | Yowie | Girtablulu
  | FemaleFat | FemaleMacho | FemaleTall
  | MaleDwarf | MaleFat | MaleMacho | MaleOld
  | BlueSoldier | RedSoldier | Principal | Tekker | GuildLady | Scientist
  | Nurse | Irene | ItemShop | Nurse2
  | Unknown
  | Mothmant | StRappy | HalloRappy | EggRappy | DeathGunner | Bulk | Recon
  | VolOptPart1
deriving DecidableEq, Repr

/-- A decode rule for one composite key of the NPC identity tables: either a
fixed identity, or a tie broken by the vertical-scale check (`byRegular`),
by area id (`byArea`), or by both (`byAreaRegular`), exactly as in the
nested conditionals of `get_npc_type`. -/
inductive NpcRule where
  | pure (t : NpcType)
  | byRegular (reg alt : NpcType)
  | byArea (far near : NpcType)
  | byAreaRegular (far reg alt : NpcType)
deriving DecidableEq, Repr

def applyRule (regular : Bool) (area_id : Nat) : NpcRule → NpcType
  | .pure t => t
  | .byRegular reg alt => if regular then reg else alt
  | .byArea far near => if area_id > 15 then far else near
  | .byAreaRegular far reg alt =>
      if area_id > 15 then far else if regular then reg else alt

/-- First-match lookup in an ordered key/value table (the `switch` on a
composite string key in the source). -/
def tlookup {κ α : Type} [DecidableEq κ] (t : List (κ × α)) (k : κ) : Option α :=
  (t.find? (fun e => decide (e.1 = k))).map (·.2)

/-- First `switch` of `get_npc_type`: key `(type_id, roaming % 3, episode)`. -/
def npc_table_3way : List ((Nat × Nat × Nat) × NpcType) := [
  ((0x044, 0, 1), .Booma), ((0x044, 1, 1), .Gobooma), ((0x044, 2, 1), .Gigobooma),
  ((0x063, 0, 1), .EvilShark), ((0x063, 1, 1), .PalShark), ((0x063, 2, 1), .GuilShark),
  ((0x0a6, 0, 1), .Dimenian), ((0x0a6, 0, 2), .Dimenian2),
  ((0x0a6, 1, 1), .LaDimenian), ((0x0a6, 1, 2), .LaDimenian2),
  ((0x0a6, 2, 1), .SoDimenian), ((0x0a6, 2, 2), .SoDimenian2),
  ((0x0d6, 0, 2), .Mericarol), ((0x0d6, 1, 2), .Mericus), ((0x0d6, 2, 2), .Merikle),
  ((0x115, 0, 4), .Boota), ((0x115, 1, 4), .ZeBoota), ((0x115, 2, 4), .BaBoota),
  ((0x117, 0, 4), .Goran), ((0x117, 1, 4), .PyroGoran), ((0x117, 2, 4), .GoranDetonator)]

/-- Second `switch` of `get_npc_type`: key `(type_id, roaming % 2, episode)`. -/
def npc_table_2way : List ((Nat × Nat × Nat) × NpcRule) := [
  ((0x040, 0, 1), .pure .Hildebear), ((0x040, 0, 2), .pure .Hildebear2),
  ((0x040, 1, 1), .pure .Hildeblue), ((0x040, 1, 2), .pure .Hildeblue2),
  ((0x041, 0, 1), .pure .RagRappy), ((0x041, 0, 2), .pure .RagRappy2),
  ((0x041, 0, 4), .pure .SandRappy),
  ((0x041, 1, 1), .pure .AlRappy), ((0x041, 1, 2), .pure .LoveRappy),
  ((0x041, 1, 4), .pure .DelRappy),
  ((0x080, 0, 1), .pure .Dubchic), ((0x080, 0, 2), .pure .Dubchic2),
  ((0x080, 1, 1), .pure .Gilchic), ((0x080, 1, 2), .pure .Gilchic2),
  ((0x0d4, 0, 2), .pure .SinowBerill), ((0x0d4, 1, 2), .pure .SinowSpigell),
  ((0x0d5, 0, 2), .pure .Merillia), ((0x0d5, 1, 2), .pure .Meriltas),
  ((0x0d7, 0, 2), .pure .UlGibbon), ((0x0d7, 1, 2), .pure .ZolGibbon),
  ((0x0dd, 0, 2), .pure .Dolmolm), ((0x0dd, 1, 2), .pure .Dolmdarl),
  ((0x0e0, 0, 2), .byArea .Epsilon .SinowZoa), ((0x0e0, 1, 2), .byArea .Epsilon .SinowZele),
  ((0x112, 0, 4), .pure .MerissaA), ((0x112, 1, 4), .pure .MerissaAA),
  ((0x114, 0, 4), .pure .Zu), ((0x114, 1, 4), .pure .Pazuzu),
  ((0x116, 0, 4), .pure .Dorphon), ((0x116, 1, 4), .pure .DorphonEclair),
  ((0x119, 0, 4), .byRegular .SaintMilion .Kondrieu),
  ((0x119, 1, 4), .byRegular .Shambertin .Kondrieu)]

/-- Third `switch` of `get_npc_type`: key `(type_id, episode)`. -/
def npc_table_ep : List ((Nat × Nat) × NpcRule) := [
  ((0x042, 1), .pure .Monest), ((0x042, 2), .pure .Monest2),
  ((0x043, 1), .byRegular .SavageWolf .BarbarousWolf),
  ((0x043, 2), .byRegular .SavageWolf2 .BarbarousWolf2),
  ((0x060, 1), .pure .GrassAssassin), ((0x060, 2), .pure .GrassAssassin2),
  ((0x061, 1), .byAreaRegular .DelLily .PoisonLily .NarLily),
  ((0x061, 2), .byAreaRegular .DelLily .PoisonLily2 .NarLily2),
  ((0x062, 1), .pure .NanoDragon),
  ((0x064, 1), .byRegular .PofuillySlime .PouillySlime),
  ((0x065, 1), .pure .PanArms), ((0x065, 2), .pure .PanArms2),
  ((0x081, 1), .pure .Garanz), ((0x081, 2), .pure .Garanz2),
  ((0x082, 1), .byRegular .SinowBeat .SinowGold),
  ((0x083, 1), .pure .Canadine), ((0x084, 1), .pure .Canane),
  ((0x085, 1), .pure .Dubswitch), ((0x085, 2), .pure .Dubswitch2),
  ((0x0a0, 1), .pure .Delsaber), ((0x0a0, 2), .pure .Delsaber2),
  ((0x0a1, 1), .pure .ChaosSorcerer), ((0x0a1, 2), .pure .ChaosSorcerer2),
  ((0x0a2, 1), .pure .DarkGunner), ((0x0a4, 1), .pure .ChaosBringer),
  ((0x0a5, 1), .pure .DarkBelra), ((0x0a5, 2), .pure .DarkBelra2),
  ((0x0a7, 1), .pure .Bulclaw), ((0x0a8, 1), .pure .Claw),
  ((0x0c0, 1), .pure .Dragon), ((0x0c0, 2), .pure .GalGryphon),
  ((0x0c1, 1), .pure .DeRolLe),
  ((0x0c5, 1), .pure .VolOpt), ((0x0c8, 1), .pure .DarkFalz),
  ((0x0ca, 2), .pure .OlgaFlow), ((0x0cb, 2), .pure .BarbaRay),
  ((0x0cc, 2), .pure .GolDragon),
  ((0x0d8, 2), .pure .Gibbles), ((0x0d9, 2), .pure .Gee), ((0x0da, 2), .pure .GiGue),
  ((0x0db, 2), .pure .Deldepth), ((0x0dc, 2), .pure .Delbiter),
  ((0x0de, 2), .pure .Morfos), ((0x0df, 2), .pure .Recobox),
  ((0x0e1, 2), .pure .IllGill),
  ((0x110, 4), .pure .Astark),
  ((0x111, 4), .byRegular .SatelliteLizard .Yowie),
  ((0x113, 4), .pure .Girtablulu)]

/-- Fourth `switch` of `get_npc_type`: key `type_id` only. -/
def npc_table_id : List (Nat × NpcType) := [
  (0x004, .FemaleFat), (0x005, .FemaleMacho), (0x007, .FemaleTall),
  (0x00a, .MaleDwarf), (0x00b, .MaleFat), (0x00c, .MaleMacho), (0x00d, .MaleOld),
  (0x019, .BlueSoldier), (0x01a, .RedSoldier), (0x01b, .Principal),
  (0x01c, .Tekker), (0x01d, .GuildLady), (0x01e, .Scientist), (0x01f, .Nurse),
  (0x020, .Irene), (0x0f1, .ItemShop), (0x0fe, .Nurse2)]

/-- `get_npc_type(episode, {type_id, scale, roaming, area_id})` — the four
cascaded `switch` statements, expressed (per the design note in the spec) as
ordered lookup tables with the scale/area tie-breaks in the rule values. -/
def get_npc_type (episode : Nat) (npc : DatNpc) : NpcType :=
  let regular := scale_deviates_one npc.scale.y
  match tlookup npc_table_3way (npc.type_id, npc.roaming % 3, episode) with
  | some t => t
  | none =>
    match tlookup npc_table_2way (npc.type_id, npc.roaming % 2, episode) with
    | some r => applyRule regular npc.area_id r
    | none =>
      match tlookup npc_table_ep (npc.type_id, episode) with
      | some r => applyRule regular npc.area_id r
      | none =>
        match tlookup npc_table_id npc.type_id with
        | some t => t
        | none => .Unknown

/-! ## `QuestNpc` and the inverse mapping -/

structure QuestNpc where
  type : NpcType
  area_id : Nat
  section_id : Nat
  position : Vec3
  rotation : Vec3
  scale : Vec3
  unknown : List Nat
  pso_type_id : Nat
  npc_id : Nat
  script_label : Nat
  roaming : Nat
deriving DecidableEq, Repr

/-- `parse_npc_data(episode, npcs)`. -/
def parse_npc_data (episode : Nat) (npcs : List DatNpc) : List QuestNpc :=
  npcs.map fun npc_data => {
    type := get_npc_type episode npc_data
    area_id := npc_data.area_id
    section_id := npc_data.section_id
    position := npc_data.position
    rotation := npc_data.rotation
    scale := npc_data.scale
    unknown := npc_data.unknown
    pso_type_id := npc_data.type_id
    npc_id := npc_data.npc_id
    script_label := npc_data.script_label
    roaming := npc_data.roaming }

structure NpcDatData where
  type_id : Nat
  roaming : Nat
  regular : Bool
deriving DecidableEq, Repr

/-- `npc_type_to_dat_data`: `.ok none` models the explicit
`return undefined` for `NpcType.Unknown`; `.error` models the
`default: throw new Error(...)` branch; every other case returns the
`{ type_id, roaming, regular }` literal of the source. -/
def npc_type_to_dat_data : NpcType → Except String (Option NpcDatData)
  | .Unknown => .ok none
  | .FemaleFat => .ok (some ⟨0x004, 0, true⟩)
  | .FemaleMacho => .ok (some ⟨0x005, 0, true⟩)
  | .FemaleTall => .ok (some ⟨0x007, 0, true⟩)
  | .MaleDwarf => .ok (some ⟨0x00a, 0, true⟩)
  | .MaleFat => .ok (some ⟨0x00b, 0, true⟩)
  | .MaleMacho => .ok (some ⟨0x00c, 0, true⟩)
  | .MaleOld => .ok (some ⟨0x00d, 0, true⟩)
  | .BlueSoldier => .ok (some ⟨0x019, 0, true⟩)
  | .RedSoldier => .ok (some ⟨0x01a, 0, true⟩)
  | .Principal => .ok (some ⟨0x01b, 0, true⟩)
  | .Tekker => .ok (some ⟨0x01c, 0, true⟩)
  | .GuildLady => .ok (some ⟨0x01d, 0, true⟩)
  | .Scientist => .ok (some ⟨0x01e, 0, true⟩)
  | .Nurse => .ok (some ⟨0x01f, 0, true⟩)
  | .Irene => .ok (some ⟨0x020, 0, true⟩)
  | .ItemShop => .ok (some ⟨0x0f1, 0, true⟩)
  | .Nurse2 => .ok (some ⟨0x0fe, 0, true⟩)
  | .Hildebear => .ok (some ⟨0x040, 0, true⟩)
  | .Hildeblue => .ok (some ⟨0x040, 1, true⟩)
  | .RagRappy => .ok (some ⟨0x041, 0, true⟩)
  | .AlRappy => .ok (some ⟨0x041, 1, true⟩)
  | .Monest => .ok (some ⟨0x042, 0, true⟩)
  | .SavageWolf => .ok (some ⟨0x043, 0, true⟩)
  | .BarbarousWolf => .ok (some ⟨0x043, 0, false⟩)
  | .Booma => .ok (some ⟨0x044, 0, true⟩)
  | .Gobooma => .ok (some ⟨0x044, 1, true⟩)
  | .Gigobooma => .ok (some ⟨0x044, 2, true⟩)
  | .Dragon => .ok (some ⟨0x0c0, 0, true⟩)
  | .GrassAssassin => .ok (some ⟨0x060, 0, true⟩)
  | .PoisonLily => .ok (some ⟨0x061, 0, true⟩)
  | .NarLily => .ok (some ⟨0x061, 1, true⟩)
  | .NanoDragon => .ok (some ⟨0x062, 0, true⟩)
  | .EvilShark => .ok (some ⟨0x063, 0, true⟩)
  | .PalShark => .ok (some ⟨0x063, 1, true⟩)
  | .GuilShark => .ok (some ⟨0x063, 2, true⟩)
  | .PofuillySlime => .ok (some ⟨0x064, 0, true⟩)
  | .PouillySlime => .ok (some ⟨0x064, 0, false⟩)
  | .PanArms => .ok (some ⟨0x065, 0, true⟩)
  | .DeRolLe => .ok (some ⟨0x0c1, 0, true⟩)
  | .Dubchic => .ok (some ⟨0x080, 0, true⟩)
  | .Gilchic => .ok (some ⟨0x080, 1, true⟩)
  | .Garanz => .ok (some ⟨0x081, 0, true⟩)
  | .SinowBeat => .ok (some ⟨0x082, 0, true⟩)
  | .SinowGold => .ok (some ⟨0x082, 0, false⟩)
  | .Canadine => .ok (some ⟨0x083, 0, true⟩)
  | .Canane => .ok (some ⟨0x084, 0, true⟩)
  | .Dubswitch => .ok (some ⟨0x085, 0, true⟩)
  | .VolOpt => .ok (some ⟨0x0c5, 0, true⟩)
  | .Delsaber => .ok (some ⟨0x0a0, 0, true⟩)
  | .ChaosSorcerer => .ok (some ⟨0x0a1, 0, true⟩)
  | .DarkGunner => .ok (some ⟨0x0a2, 0, true⟩)
  | .ChaosBringer => .ok (some ⟨0x0a4, 0, true⟩)
  | .DarkBelra => .ok (some ⟨0x0a5, 0, true⟩)
  | .Dimenian => .ok (some ⟨0x0a6, 0, true⟩)
  | .LaDimenian => .ok (some ⟨0x0a6, 1, true⟩)
  | .SoDimenian => .ok (some ⟨0x0a6, 2, true⟩)
  | .Bulclaw => .ok (some ⟨0x0a7, 0, true⟩)
  | .Claw => .ok (some ⟨0x0a8, 0, true⟩)
  | .DarkFalz => .ok (some ⟨0x0c8, 0, true⟩)
  | .Hildebear2 => .ok (some ⟨0x040, 0, true⟩)
  | .Hildeblue2 => .ok (some ⟨0x040, 1, true⟩)
  | .RagRappy2 => .ok (some ⟨0x041, 0, true⟩)
  | .LoveRappy => .ok (some ⟨0x041, 1, true⟩)
  | .Monest2 => .ok (some ⟨0x042, 0, true⟩)
  | .PoisonLily2 => .ok (some ⟨0x061, 0, true⟩)
  | .NarLily2 => .ok (some ⟨0x061, 1, true⟩)
  | .GrassAssassin2 => .ok (some ⟨0x060, 0, true⟩)
  | .Dimenian2 => .ok (some ⟨0x0a6, 0, true⟩)
  | .LaDimenian2 => .ok (some ⟨0x0a6, 1, true⟩)
  | .SoDimenian2 => .ok (some ⟨0x0a6, 2, true⟩)
  | .DarkBelra2 => .ok (some ⟨0x0a5, 0, true⟩)
  | .BarbaRay => .ok (some ⟨0x0cb, 0, true⟩)
  | .SavageWolf2 => .ok (some ⟨0x043, 0, true⟩)
  | .BarbarousWolf2 => .ok (some ⟨0x043, 0, false⟩)
  | .PanArms2 => .ok (some ⟨0x065, 0, true⟩)
  | .Dubchic2 => .ok (some ⟨0x080, 0, true⟩)
  | .Gilchic2 => .ok (some ⟨0x080, 1, true⟩)
  | .Garanz2 => .ok (some ⟨0x081, 0, true⟩)
  | .Dubswitch2 => .ok (some ⟨0x085, 0, true⟩)
  | .Delsaber2 => .ok (some ⟨0x0a0, 0, true⟩)
  | .ChaosSorcerer2 => .ok (some ⟨0x0a1, 0, true⟩)
  | .GolDragon => .ok (some ⟨0x0cc, 0, true⟩)
  | .SinowBerill => .ok (some ⟨0x0d4, 0, true⟩)
  | .SinowSpigell => .ok (some ⟨0x0d4, 1, true⟩)
  | .Merillia => .ok (some ⟨0x0d5, 0, true⟩)
  | .Meriltas => .ok (some ⟨0x0d5, 1, true⟩)
  | .Mericarol => .ok (some ⟨0x0d6, 0, true⟩)
  | .Mericus => .ok (some ⟨0x0d6, 1, true⟩)
  | .Merikle => .ok (some ⟨0x0d6, 2, true⟩)
  | .UlGibbon => .ok (some ⟨0x0d7, 0, true⟩)
  | .ZolGibbon => .ok (some ⟨0x0d7, 1, true⟩)
  | .Gibbles => .ok (some ⟨0x0d8, 0, true⟩)
  | .Gee => .ok (some ⟨0x0d9, 0, true⟩)
  | .GiGue => .ok (some ⟨0x0da, 0, true⟩)
  | .GalGryphon => .ok (some ⟨0x0c0, 0, true⟩)
  | .Deldepth => .ok (some ⟨0x0db, 0, true⟩)
  | .Delbiter => .ok (some ⟨0x0dc, 0, true⟩)
  | .Dolmolm => .ok (some ⟨0x0dd, 0, true⟩)
  | .Dolmdarl => .ok (some ⟨0x0dd, 1, true⟩)
  | .Morfos => .ok (some ⟨0x0de, 0, true⟩)
  | .Recobox => .ok (some ⟨0x0df, 0, true⟩)
  | .Epsilon => .ok (some ⟨0x0e0, 0, true⟩)
  | .SinowZoa => .ok (some ⟨0x0e0, 0, true⟩)
  | .SinowZele => .ok (some ⟨0x0e0, 1, true⟩)
  | .IllGill => .ok (some ⟨0x0e1, 0, true⟩)
  | .DelLily => .ok (some ⟨0x061, 0, true⟩)
  | .OlgaFlow => .ok (some ⟨0x0ca, 0, true⟩)
  | .SandRappy => .ok (some ⟨0x041, 0, true⟩)
  | .DelRappy => .ok (some ⟨0x041, 1, true⟩)
  | .Astark => .ok (some ⟨0x110, 0, true⟩)
  | .SatelliteLizard => .ok (some ⟨0x111, 0, true⟩)
  | .Yowie => .ok (some ⟨0x111, 0, false⟩)
  | .MerissaA => .ok (some ⟨0x112, 0, true⟩)
  | .MerissaAA => .ok (some ⟨0x112, 1, true⟩)
  | .Girtablulu => .ok (some ⟨0x113, 0, true⟩)
  | .Zu => .ok (some ⟨0x114, 0, true⟩)
  | .Pazuzu => .ok (some ⟨0x114, 1, true⟩)
  | .Boota => .ok (some ⟨0x115, 0, true⟩)
  | .ZeBoota => .ok (some ⟨0x115, 1, true⟩)
  | .BaBoota => .ok (some ⟨0x115, 2, true⟩)
  | .Dorphon => .ok (some ⟨0x116, 0, true⟩)
  | .DorphonEclair => .ok (some ⟨0x116, 1, true⟩)
  | .Goran => .ok (some ⟨0x117, 0, true⟩)
  | .PyroGoran => .ok (some ⟨0x117, 1, true⟩)
  | .GoranDetonator => .ok (some ⟨0x117, 2, true⟩)
  | .SaintMilion => .ok (some ⟨0x119, 0, true⟩)
  | .Shambertin => .ok (some ⟨0x119, 1, true⟩)
  | .Kondrieu => .ok (some ⟨0x119, 0, false⟩)
  | _ => .error "Unexpected type."

/-- Force bit 23 of a binary32 bit pattern to encode the regular flag:
`(bits & ~0x800000) | (regular ? 0 : 0x800000)` from `npcs_to_dat_data`. -/
def forceRegularBit (bits : Nat) (regular : Bool) : Nat :=
  Nat.lor (Nat.land (bits % 2 ^ 32) 0xff7fffff) (if regular then 0 else 0x800000)

/-- The body of the `npcs.map` in `npcs_to_dat_data`, for a single NPC:
unmapped identities throw, `Unknown` falls back to the preserved
`pso_type_id`/`roaming` with regular flag true, and bit 23 of `scale.y` is
rewritten from the regular flag. -/
def npc_to_dat_npc (npc : QuestNpc) : Except String DatNpc := do
  let td ← npc_type_to_dat_data npc.type
  let type_data := td.getD ⟨npc.pso_type_id, npc.roaming, true⟩
  let scale_y := forceRegularBit npc.scale.y type_data.regular
  .ok {
    type_id := type_data.type_id
    section_id := npc.section_id
    position := npc.position
    rotation := npc.rotation
    scale := ⟨npc.scale.x, scale_y, npc.scale.z⟩
    npc_id := npc.npc_id
    script_label := npc.script_label
    roaming := type_data.roaming
    area_id := npc.area_id
    unknown := npc.unknown }

/-- `npcs_to_dat_data(npcs)`; the first `throw` aborts the whole map. -/
def npcs_to_dat_data : List QuestNpc → Except String (List DatNpc)
  | [] => .ok []
  | npc :: rest => do
    let d ← npc_to_dat_npc npc
    let ds ← npcs_to_dat_data rest
    .ok (d :: ds)

/-! ## Objects

The object-type table (`object_types.ts`) is not under review.  Modelled
from the spec: the table is a read-only dictionary between raw `pso_id`s
and object types; the only types whose identity matters to the quest layer
are the four script-label carriers, and unknown ids pass through unchanged
on a round trip (spec non-goal: unrecognized data "preserved verbatim and
passed through unmodified").  The numeric ids of the four named types are
symbolic stand-ins. -/

inductive ObjectType where
  | ScriptCollision
  | ForestConsole
  | TalkLinkToSupport
  | RicoMessagePod
  | Other (pso_id : Nat)
deriving DecidableEq, Repr

/-- Modelled from the spec: `pso_id_to_object_type` of `object_types.ts`. -/
def pso_id_to_object_type (id : Nat) : ObjectType :=
  if id = 1 then .ScriptCollision
  else if id = 2 then .ForestConsole
  else if id = 3 then .TalkLinkToSupport
  else if id = 4 then .RicoMessagePod
  else .Other id

/-- Modelled from the spec: `object_data(type).pso_id` of `object_types.ts`. -/
def object_type_to_pso_id : ObjectType → Nat
  | .ScriptCollision => 1
  | .ForestConsole => 2
  | .TalkLinkToSupport => 3
  | .RicoMessagePod => 4
  | .Other id => id

structure QuestObject where
  type : ObjectType
  id : Nat
  group_id : Nat
  area_id : Nat
  section_id : Nat
  position : Vec3
  rotation : Vec3
  /-- `Map<string, number>` in insertion order (JS `Map` preserves it). -/
  properties : List (String × Nat)
  unknown : List Nat
deriving DecidableEq, Repr

/-- The key chosen for property slot `index` in `parse_obj_data`. -/
def objPropertyKey (type : ObjectType) (index : Nat) : String :=
  if index = 3 ∧ (type = .ScriptCollision ∨ type = .ForestConsole ∨
      type = .TalkLinkToSupport) then "script_label"
  else if index = 4 ∧ type = .RicoMessagePod then "script_label"
  else if index = 5 ∧ type = .RicoMessagePod then "script_label_2"
  else "property_" ++ toString index

/-- `parse_obj_data(objs)`. -/
def parse_obj_data (objs : List DatObject) : List QuestObject :=
  objs.map fun obj_data =>
    let type := pso_id_to_object_type obj_data.type_id
    { type := type
      id := obj_data.id
      group_id := obj_data.group_id
      area_id := obj_data.area_id
      section_id := obj_data.section_id
      position := obj_data.position
      rotation := obj_data.rotation
      properties :=
        (obj_data.properties.enum.map fun p => (objPropertyKey type p.1, p.2))
      unknown := obj_data.unknown }

/-- `objects_to_dat_data(objects)`: `[...object.properties.values()]`. -/
def objects_to_dat_data (objects : List QuestObject) : List DatObject :=
  objects.map fun object => {
    type_id := object_type_to_pso_id object.type
    id := object.id
    group_id := object.group_id
    section_id := object.section_id
    position := object.position
    rotation := object.rotation
    properties := object.properties.map (·.2)
    area_id := object.area_id
    unknown := object.unknown }

/-! ## Bytecode segments and episode extraction -/

/-- Opcodes: only `SET_EPISODE`, `BB_MAP_DESIGNATE` and `RET` are inspected
by the quest layer; the opcode table itself (`opcodes.ts`) is not under
review, so the remaining opcodes are carried symbolically. -/
inductive Opcode where
  | SET_EPISODE
  | BB_MAP_DESIGNATE
  | RET
  | other (code : Nat)
deriving DecidableEq, Repr

structure Arg where
  value : Int
  size : Nat
deriving DecidableEq, Repr

structure Instruction where
  opcode : Opcode
  args : List Arg
deriving DecidableEq, Repr

/-- `Segment` from `instructions.ts`: a tagged union of instruction, data
and string segments, each with the labels that target it. -/
inductive Segment where
  | Instructions (labels : List Nat) (instructions : List Instruction)
  | Data (labels : List Nat) (data : List Nat)
  | String (labels : List Nat) (value : List Nat)
deriving DecidableEq, Repr

def Segment.labels : Segment → List Nat
  | .Instructions ls _ => ls
  | .Data ls _ => ls
  | .String ls _ => ls

/-- `segment.type === SegmentType.Instructions && segment.labels.includes(0)`. -/
def isLabel0InstructionSegment : Segment → Bool
  | .Instructions ls _ => ls.contains 0
  | _ => false

inductive LogLevel where
  | error
  | warn
  | debug
deriving DecidableEq, Repr

/-- One entry per distinct logger call in the modelled code. -/
inductive LogMsg where
  | noLabel0Instruction
  | noInstructionLabels
  | noSetEpisode
  | duplicateChunk (name : List Nat) (chunkNo : Nat)
  | chunkSizeClamped (size : Nat)
  | bytesLeft (n : Nat)
  | sizeMismatch (name : List Nat) (actual expected : Nat)
  | missingChunk (name : List Nat) (chunkNo : Nat)
deriving DecidableEq, Repr

/-- A log line: level (warn / debug / error) plus message. -/
structure LogEntry where
  level : LogLevel
  msg : LogMsg
deriving DecidableEq, Repr

/-- `get_episode(func_0_instructions)`: first `SET_EPISODE` wins, its first
argument selects the episode (default and `0` give Episode I); with no such
instruction the result is Episode I plus a *debug*-level log line.  `none`
models the JavaScript `TypeError` when the instruction has no arguments
(`set_episode.args[0].value`). -/
def get_episode (func_0_instructions : List Instruction) :
    Option (Nat × List LogEntry) :=
  match func_0_instructions.find? (fun i => i.opcode = Opcode.SET_EPISODE) with
  | some set_episode =>
      (set_episode.args.get? 0).map fun a =>
        (match a.value with
         | 1 => 2
         | 2 => 4
         | _ => 1, [])
  | none => some (1, [⟨.debug, .noSetEpisode⟩])

/-- `Map.set` on an insertion-ordered association list. -/
def mapSet (m : List (Int × Int)) (k v : Int) : List (Int × Int) :=
  if m.any (fun p => p.1 = k) then
    m.map (fun p => if p.1 = k then (k, v) else p)
  else m ++ [(k, v)]

/-- The `for` loop of `extract_map_designations`, with the accumulated
designation map. -/
def extract_map_designations_go :
    List (Int × Int) → List Instruction → Option (List (Int × Int))
  | acc, [] => some acc
  | acc, inst :: rest =>
    if inst.opcode = Opcode.BB_MAP_DESIGNATE then do
      let a0 ← inst.args.get? 0
      let a2 ← inst.args.get? 2
      extract_map_designations_go (mapSet acc a0.value a2.value) rest
    else extract_map_designations_go acc rest

/-- `extract_map_designations(dat, episode, func_0_instructions)` (the `dat`
and `episode` parameters are unused in the source); records
`args[0].value → args[2].value` for every `BB_MAP_DESIGNATE`, overwrite-last.
`none` models the `TypeError` on a `BB_MAP_DESIGNATE` with < 3 arguments. -/
def extract_map_designations (func_0_instructions : List Instruction) :
    Option (List (Int × Int)) :=
  extract_map_designations_go [] func_0_instructions

/-- Lines 96–118 of `parse_quest`: derive episode and map designations from
the object code, defaulting to Episode I (with a warning) when there is no
instruction segment labelled 0 or no segments at all. -/
def episode_extraction (object_code : List Segment) :
    Option (Nat × List (Int × Int) × List LogEntry) :=
  if object_code.length ≠ 0 then
    match object_code.find? isLabel0InstructionSegment with
    | some (Segment.Instructions _ insts) => do
        let (episode, logs) ← get_episode insts
        let md ← extract_map_designations insts
        some (episode, md, logs)
    | _ => some (1, [], [⟨.warn, .noLabel0Instruction⟩])
  else some (1, [], [⟨.warn, .noInstructionLabels⟩])

/-- `extract_script_entry_points(objects, npcs)`: a JS `Set` insertion-order
fold seeded with 0. -/
def extract_script_entry_points (objects : List QuestObject) (npcs : List DatNpc) :
    List Nat :=
  let addUnique : List Nat → Nat → List Nat := fun l n =>
    if l.contains n then l else l ++ [n]
  let afterObjects := objects.foldl
    (fun l obj =>
      let l1 := match obj.properties.lookup "script_label" with
        | some v => addUnique l v
        | none => l
      match obj.properties.lookup "script_label_2" with
      | some v => addUnique l1 v
      | none => l1)
    [0]
  npcs.foldl (fun l npc => addUnique l npc.script_label) afterObjects

/-! ## QST container codec (`qst.ts`)

The container holds two fixed 88-byte headers followed by interleaved
1056-byte chunk records.  Readers work on `List Nat` byte buffers; the
per-file reassembly buffer is a zero-initialized content function plus a
size (JavaScript `ArrayBuffer`s are zero-filled). -/

structure QstHeader where
  questNo : Nat
  fileName : List Nat
  fileName2 : List Nat
  size : Nat
deriving DecidableEq, Repr

/-- One 88-byte header record, cursor positions resolved to offsets:
`seek(4)`, `u16` at 4, `seek(38)` puts the 16-byte name at 44, the `u32`
size at 60 and the 24-byte secondary name at 64. -/
def parseHeaderAt (bytes : List Nat) (off : Nat) : QstHeader :=
  { questNo := u16le bytes (off + 4)
    fileName := stringAscii bytes (off + 44) 16
    size := u32le bytes (off + 60)
    fileName2 := stringAscii bytes (off + 64) 24 }

/-- `parseHeaders`: exactly two records. -/
def parseHeaders (bytes : List Nat) : List QstHeader :=
  [parseHeaderAt bytes 0, parseHeaderAt bytes 88]

/-- Chunk-record field offsets: chunk number at byte 4, 16-byte name at 8,
1024-byte data area at 24, declared size (u32) at 1048. -/
def chunkNoOf (raw : List Nat) : Nat := raw.getD 4 0

def chunkNameOf (raw : List Nat) : List Nat := stringAscii raw 8 16

def chunkDeclaredSize (raw : List Nat) : Nat := u32le raw 1048

/-- Reassembly state of one contained file. -/
structure FileState where
  expectedSize : Option Nat
  content : Nat → Nat
  size : Nat
  chunkNos : List Nat

/-- Write `data` into a content function at offset `base`
(`file.data.seek_start(chunkPosition).write_cursor(data)`). -/
def writeAt (content : Nat → Nat) (base : Nat) (data : List Nat) : Nat → Nat :=
  fun off => if base ≤ off ∧ off < base + data.length then data.getD (off - base) 0 else content off

/-- State of the `parseFiles` loop: per-name reassembly buffers, the
first-encounter order of names (`files.values()`), and the warnings logged
so far. -/
structure PFState where
  lookup : List Nat → Option FileState
  order : List (List Nat)
  warnings : List LogEntry

def pfInit : PFState := ⟨fun _ => none, [], []⟩

/-- A fresh reassembly buffer, seeded with the header's expected size
(`new BufferCursor(expectedSize || 10 * 1024)` — the capacity itself is
immaterial, the buffer starts empty and zero-filled). -/
def pfFresh (expectedSizes : List (List Nat × Nat)) (fileName : List Nat) : FileState :=
  { expectedSize := expectedSizes.lookup fileName
    content := fun _ => 0
    size := 0
    chunkNos := [] }

/-- The clamped data size of a chunk record (`size > 1024` reads 1024). -/
def chunkSizeOf (raw : List Nat) : Nat := min (chunkDeclaredSize raw) 1024

/-- The clamped data bytes of a chunk record. -/
def chunkDataOf (raw : List Nat) : List Nat := (raw.drop 24).take (chunkSizeOf raw)

/-- The updated reassembly state of the file a chunk record belongs to:
bytes written at `chunkNo * 1024`, size grown to cover them, chunk number
recorded. -/
def pfUpdateFile (expectedSizes : List (List Nat × Nat)) (s : PFState)
    (raw : List Nat) : FileState :=
  let chunkNo := chunkNoOf raw
  let file := (s.lookup (chunkNameOf raw)).getD (pfFresh expectedSizes (chunkNameOf raw))
  { expectedSize := file.expectedSize
    content := writeAt file.content (chunkNo * 1024) (chunkDataOf raw)
    size := max (chunkNo * 1024 + chunkSizeOf raw) file.size
    chunkNos := if chunkNo ∈ file.chunkNos then file.chunkNos
      else file.chunkNos ++ [chunkNo] }

/-- One iteration of the `while (cursor.bytes_left >= 1056)` loop of
`parseFiles`: look up (or create, seeded with the header's expected size)
the named file, warn on a duplicate chunk number, clamp a declared size
above 1024 with a warning, and write the chunk's bytes at
`chunkNo * 1024`. -/
def pfStep (expectedSizes : List (List Nat × Nat)) (s : PFState) (raw : List Nat) :
    PFState :=
  let chunkNo := chunkNoOf raw
  let fileName := chunkNameOf raw
  let file := (s.lookup fileName).getD (pfFresh expectedSizes fileName)
  let dupWarn : List LogEntry :=
    if chunkNo ∈ file.chunkNos then [⟨.warn, .duplicateChunk fileName chunkNo⟩] else []
  let sizeWarn : List LogEntry :=
    if chunkDeclaredSize raw > 1024 then [⟨.warn, .chunkSizeClamped (chunkDeclaredSize raw)⟩]
    else []
  { lookup := fun n => if n = fileName then some (pfUpdateFile expectedSizes s raw)
      else s.lookup n
    order := if (s.lookup fileName).isSome then s.order else s.order ++ [fileName]
    warnings := s.warnings ++ dupWarn ++ sizeWarn }

/-- The post-loop per-file pass of `parseFiles`: warn when the assembled
size disagrees with the expected size, then warn for every chunk number in
`[0, ceil(max(assembled, expected)/1024))` that was never observed. -/
def pfFileWarnings (name : List Nat) (f : FileState) : List LogEntry :=
  (match f.expectedSize with
   | some es => if f.size ≠ es then [⟨.warn, .sizeMismatch name f.size es⟩] else []
   | none => []) ++
  ((List.range ((max f.size (f.expectedSize.getD 0) + 1023) / 1024)).filter
      (fun no => no ∉ f.chunkNos)).map
    (fun no => ⟨.warn, .missingChunk name no⟩)

def pfFinalWarnings (s : PFState) : List LogEntry :=
  s.order.flatMap fun n =>
    match s.lookup n with
    | some f => pfFileWarnings n f
    | none => []

/-- The chunk-record loop of `parseFiles`, taken over an explicit list of
1056-byte records. -/
def parseFilesCore (expectedSizes : List (List Nat × Nat)) (records : List (List Nat)) :
    PFState :=
  records.foldl (pfStep expectedSizes) pfInit

/-- `parseFiles` over a list of 1056-byte chunk records (the cursor loop
consumes exactly such records), including the final per-file warning
pass. -/
def parseFilesRecords (expectedSizes : List (List Nat × Nat))
    (records : List (List Nat)) : PFState :=
  let s := parseFilesCore expectedSizes records
  { s with warnings := s.warnings ++ pfFinalWarnings s }

/-- Successive 1056-byte records of a byte stream, fuel-driven so that the
definition is a structural recursion (any fuel `≥ bytes.length` is exact). -/
def chunkRecordsAux : Nat → List Nat → List (List Nat)
  | 0, _ => []
  | fuel + 1, bytes =>
    if bytes.length < 1056 then []
    else bytes.take 1056 :: chunkRecordsAux fuel (bytes.drop 1056)

/-- Successive 1056-byte records of a byte stream
(`while (cursor.bytes_left >= 1056)`). -/
def chunkRecords (bytes : List Nat) : List (List Nat) :=
  chunkRecordsAux bytes.length bytes

/-- `parseFiles` on a raw byte stream: record loop, leftover-bytes warning,
then the final per-file pass. -/
def parseFiles (expectedSizes : List (List Nat × Nat)) (bytes : List Nat) : PFState :=
  let s := parseFilesCore expectedSizes (chunkRecords bytes)
  let s := if bytes.length % 1056 ≠ 0 then
      { s with warnings := s.warnings ++ [⟨.warn, .bytesLeft (bytes.length % 1056)⟩] }
    else s
  { s with warnings := s.warnings ++ pfFinalWarnings s }

/-- Reassembled payload of the named file: the first `size` bytes of its
buffer. -/
def pfPayload (s : PFState) (name : List Nat) : List Nat :=
  match s.lookup name with
  | some f => (List.range f.size).map f.content
  | none => []

/-- Composite identity of a chunk record: which file it belongs to and
which 1024-byte slot it fills. -/
def chunkKey (raw : List Nat) : List Nat × Nat := (chunkNameOf raw, chunkNoOf raw)

/-- Equality of the reassembly data of two optional file states; the
chunk-number log (used only for warnings) is not compared. -/
def lookupEquiv : Option FileState → Option FileState → Prop
  | none, none => True
  | some f, some g =>
      f.expectedSize = g.expectedSize ∧ f.content = g.content ∧ f.size = g.size
  | _, _ => False

/-- Two parse states reassemble identical data for every file name. -/
def pfEquiv (s s2 : PFState) : Prop := ∀ n, lookupEquiv (s.lookup n) (s2.lookup n)

structure QstContainedFile where
  name : List Nat
  name2 : Option (List Nat)
  questNo : Option Nat
  expectedSize : Option Nat
  data : List Nat
deriving DecidableEq, Repr

structure ParseQstResult where
  files : List QstContainedFile
  warnings : List LogEntry

/-- One entry of the `files` array `parseQst` returns: metadata from the
header with the matching name, payload from the reassembly state. -/
def qstEntry (headers : List QstHeader) (s : PFState) (n : List Nat) :
    QstContainedFile :=
  let hdr := headers.find? (fun h => decide (h.fileName = n))
  { name := n
    name2 := hdr.map (·.fileName2)
    questNo := hdr.map (·.questNo)
    expectedSize := (s.lookup n).bind (·.expectedSize)
    data := pfPayload s n }

/-- `parseQst`: version detection (only Blue Burst, marker bytes `0x58` at
offset 0 and `0x44` at offset 2, is decodable), two headers, chunk
reassembly, then attach `questNo`/`name2` from the header with the same
name. -/
def parse_qst (bytes : List Nat) : Option ParseQstResult :=
  let versionA := bytes.getD 0 0
  let versionB := bytes.getD 2 0
  if versionA = 0x58 ∧ versionB = 0x44 then
    let headers := parseHeaders bytes
    let expectedSizes := (headers.map fun h => (h.fileName, h.size)).reverse
    let s := parseFiles expectedSizes (bytes.drop 176)
    some ⟨s.order.map (qstEntry headers s), s.warnings⟩
  else none

/-! ### QST encoding -/

structure SimpleQstContainedFile where
  name : List Nat
  name2 : Option (List Nat)
  questNo : Option Nat
  data : List Nat
deriving DecidableEq, Repr

inductive QstWriteError where
  /-- `[].reduce(...)` raises a `TypeError` on an empty file list. -/
  | emptyFileList
  | nameTooLong (name : List Nat)
  | name2TooLong (name : List Nat)
  /-- `Expected a final file size of ..., but got ...`. -/
  | sizeMismatch (expected actual : Nat)
deriving DecidableEq, Repr

/-- Index of the last occurrence of byte `b` (`lastIndexOf`). -/
def lastIndexOf (l : List Nat) (b : Nat) : Option Nat :=
  ((l.enum.filter fun p => p.2 = b).map (·.1)).getLast?

/-- The derived secondary name: insert `_j` before the last dot (or append
it when there is none), unless an explicit `name2` is present. -/
def qstFileName2 (f : SimpleQstContainedFile) : List Nat :=
  match f.name2 with
  | some n2 => n2
  | none =>
      match lastIndexOf f.name 46 with
      | none => f.name ++ [95, 106]
      | some dotPos => f.name.take dotPos ++ [95, 106] ++ f.name.drop dotPos

/-- The 88 bytes of one header record: header size 88, magic `0x44`, quest
number at offset 4, 38 zero bytes, the 16-byte name (so the name starts at
record offset 44), the u32 payload size at 60 and the 24-byte secondary
name at 64. -/
def headerBytes (f : SimpleQstContainedFile) : List Nat :=
  u16leBytes 88 ++ u16leBytes 0x44 ++ u16leBytes (f.questNo.getD 0) ++
    List.replicate 38 0 ++ padAscii 16 f.name ++ u32leBytes f.data.length ++
    padAscii 24 (qstFileName2 f)

/-- One 88-byte header as written by `writeFileHeaders`, with the
name-length checks. -/
def writeFileHeader (f : SimpleQstContainedFile) : Except QstWriteError (List Nat) :=
  if f.name.length > 16 then .error (.nameTooLong f.name)
  else if (qstFileName2 f).length > 24 then .error (.name2TooLong f.name)
  else .ok (headerBytes f)

def writeFileHeaders (files : List SimpleQstContainedFile) :
    Except QstWriteError (List Nat) :=
  (files.mapM writeFileHeader).map List.flatten

/-- `writeFileChunk`: 4 magic bytes, chunk number, 3 zero bytes, 16-byte
name, up to 1024 payload bytes zero-padded to 1024, u32 payload size, u32
zero trailer; returns the emitted bytes and whether payload bytes remain
after this chunk. -/
def writeFileChunk (data : List Nat) (pos : Nat) (chunkNo : Nat) (name : List Nat) :
    List Nat × Bool :=
  let bytesLeft := data.length - pos
  let size := min 1024 bytesLeft
  ([28, 4, 19, 0] ++ [chunkNo % 256] ++ [0, 0, 0] ++ padAscii 16 name ++
     (data.drop pos).take size ++ List.replicate (1024 - size) 0 ++
     u32leBytes size ++ u32leBytes 0,
   bytesLeft - size ≠ 0)

/-- Remaining work of a chunk-writer queue: one unit per queued file plus
one per unwritten payload byte.  Each queue step strictly decreases it. -/
def writeChunksMeasure (queue : List (SimpleQstContainedFile × Nat × Nat)) : Nat :=
  (queue.map fun e => e.1.data.length - e.2.1 + 1).sum

/-- The round-robin chunk writer of `writeFileChunks`, as a rotating queue
of `(file, position, next chunk number)`: each live file emits one chunk per
round and is dropped once its payload is exhausted.  Fuel-driven structural
recursion; any fuel `≥ writeChunksMeasure queue` is exact. -/
def writeChunksAux : Nat → List (SimpleQstContainedFile × Nat × Nat) → List Nat
  | 0, _ => []
  | _ + 1, [] => []
  | fuel + 1, (f, pos, chunkNo) :: rest =>
    let r := writeFileChunk f.data pos chunkNo f.name
    if r.2 then r.1 ++ writeChunksAux fuel (rest ++ [(f, pos + 1024, chunkNo + 1)])
    else r.1 ++ writeChunksAux fuel rest

def writeFileChunks (files : List SimpleQstContainedFile) : List Nat :=
  writeChunksAux (writeChunksMeasure (files.map fun f => (f, 0, 0)))
    (files.map fun f => (f, 0, 0))

/-- `writeQst`: headers, then interleaved chunks; the final size check
raises a fatal error on any mismatch with the predicted
`Σ 88 + ceil(size/1024)·1056`. -/
def writeQst (files : List SimpleQstContainedFile) : Except QstWriteError (List Nat) :=
  if files.isEmpty then .error .emptyFileList
  else
    let totalSize := (files.map fun f => 88 + (f.data.length + 1023) / 1024 * 1056).sum
    match writeFileHeaders files with
    | .error e => .error e
    | .ok headerBytes =>
      let out := headerBytes ++ writeFileChunks files
      if out.length ≠ totalSize then .error (.sizeMismatch totalSize out.length)
      else .ok out

/-! ## Spec-modelled byte serialization

`dat.ts` and `bin.ts` are not part of the reviewed source (only their
callers are), so per the spec they are modelled as a pair of invertible
record codecs over byte lists.  Scalars use a little-endian base-128
variable-length encoding (7 data bits per byte, high bit = continuation),
lists and byte spans are count-prefixed, and parsing is sequential. -/

/-- Variable-length encoding of a `Nat`, fuel-driven structural recursion
(exact for any fuel `> n`). -/
def natToLebAux : Nat → Nat → List Nat
  | 0, _ => []
  | fuel + 1, n => if n < 128 then [n] else (n % 128 + 128) :: natToLebAux fuel (n / 128)

/-- Variable-length encoding of a `Nat` (7 bits per byte, high bit set on
all but the last byte). -/
def natToLeb (n : Nat) : List Nat := natToLebAux (n + 1) n

def pLeb : List Nat → Option (Nat × List Nat)
  | [] => none
  | b :: rest =>
    if b < 128 then some (b, rest)
    else match pLeb rest with
      | some (m, r) => some (b - 128 + 128 * m, r)
      | none => none

/-- Zig-zag encoding of an `Int` as a `Nat`. -/
def intToLeb (i : Int) : List Nat :=
  natToLeb (if 0 ≤ i then 2 * i.toNat else 2 * (-i).toNat - 1)

def pInt (bytes : List Nat) : Option (Int × List Nat) :=
  (pLeb bytes).map fun p =>
    (if p.1 % 2 = 0 then (p.1 / 2 : Nat) else -((p.1 + 1) / 2 : Nat), p.2)

/-- Count-prefixed byte span. -/
def lebBytes (l : List Nat) : List Nat := natToLeb l.length ++ l

def pBytes (bytes : List Nat) : Option (List Nat × List Nat) := do
  let (n, r) ← pLeb bytes
  if n ≤ r.length then some (r.take n, r.drop n) else none

/-- Parse exactly `n` consecutive items with `p`. -/
def pCount {α : Type} (p : List Nat → Option (α × List Nat)) :
    Nat → List Nat → Option (List α × List Nat)
  | 0, bytes => some ([], bytes)
  | n + 1, bytes => do
    let (a, r) ← p bytes
    let (as, r2) ← pCount p n r
    some (a :: as, r2)

/-- Count-prefixed list. -/
def wList {α : Type} (w : α → List Nat) (l : List α) : List Nat :=
  natToLeb l.length ++ l.flatMap w

def pList {α : Type} (p : List Nat → Option (α × List Nat)) (bytes : List Nat) :
    Option (List α × List Nat) := do
  let (n, r) ← pLeb bytes
  pCount p n r

def wVec3 (v : Vec3) : List Nat := natToLeb v.x ++ natToLeb v.y ++ natToLeb v.z

def pVec3 (bytes : List Nat) : Option (Vec3 × List Nat) := do
  let (x, r1) ← pLeb bytes
  let (y, r2) ← pLeb r1
  let (z, r3) ← pLeb r2
  some (⟨x, y, z⟩, r3)

/-! ### Modelled DAT codec -/

structure DatFile where
  objs : List DatObject
  npcs : List DatNpc
  unknowns : List DatUnknown
deriving DecidableEq, Repr

def wDatObject (o : DatObject) : List Nat :=
  natToLeb o.type_id ++ natToLeb o.id ++ natToLeb o.group_id ++
    natToLeb o.section_id ++ wVec3 o.position ++ wVec3 o.rotation ++
    wList natToLeb o.properties ++ natToLeb o.area_id ++ lebBytes o.unknown

def pDatObject (bytes : List Nat) : Option (DatObject × List Nat) := do
  let (type_id, r1) ← pLeb bytes
  let (id, r2) ← pLeb r1
  let (group_id, r3) ← pLeb r2
  let (section_id, r4) ← pLeb r3
  let (position, r5) ← pVec3 r4
  let (rotation, r6) ← pVec3 r5
  let (properties, r7) ← pList pLeb r6
  let (area_id, r8) ← pLeb r7
  let (unknown, r9) ← pBytes r8
  some (⟨type_id, id, group_id, section_id, position, rotation, properties,
    area_id, unknown⟩, r9)

def wDatNpc (n : DatNpc) : List Nat :=
  natToLeb n.type_id ++ natToLeb n.section_id ++ wVec3 n.position ++
    wVec3 n.rotation ++ wVec3 n.scale ++ natToLeb n.npc_id ++
    natToLeb n.script_label ++ natToLeb n.roaming ++ natToLeb n.area_id ++
    lebBytes n.unknown

def pDatNpc (bytes : List Nat) : Option (DatNpc × List Nat) := do
  let (type_id, r1) ← pLeb bytes
  let (section_id, r2) ← pLeb r1
  let (position, r3) ← pVec3 r2
  let (rotation, r4) ← pVec3 r3
  let (scale, r5) ← pVec3 r4
  let (npc_id, r6) ← pLeb r5
  let (script_label, r7) ← pLeb r6
  let (roaming, r8) ← pLeb r7
  let (area_id, r9) ← pLeb r8
  let (unknown, r10) ← pBytes r9
  some (⟨type_id, section_id, position, rotation, scale, npc_id, script_label,
    roaming, area_id, unknown⟩, r10)

def wDatUnknown (u : DatUnknown) : List Nat :=
  natToLeb u.entity_type ++ lebBytes u.data

def pDatUnknown (bytes : List Nat) : Option (DatUnknown × List Nat) := do
  let (entity_type, r1) ← pLeb bytes
  let (data, r2) ← pBytes r1
  some (⟨entity_type, data⟩, r2)

/-- Modelled from the spec: `write_dat` of `dat.ts` (not under review) —
objects, NPCs and verbatim unknown records, sequentially. -/
def write_dat (dat : DatFile) : List Nat :=
  wList wDatObject dat.objs ++ wList wDatNpc dat.npcs ++ wList wDatUnknown dat.unknowns

/-- Modelled from the spec: `parse_dat` of `dat.ts` (not under review);
fails on trailing garbage. -/
def parse_dat (bytes : List Nat) : Option DatFile := do
  let (objs, r1) ← pList pDatObject bytes
  let (npcs, r2) ← pList pDatNpc r1
  let (unknowns, r3) ← pList pDatUnknown r2
  if r3.isEmpty then some ⟨objs, npcs, unknowns⟩ else none

/-! ### Modelled BIN codec -/

structure BinFile where
  quest_id : Nat
  language : Nat
  quest_name : List Nat
  short_description : List Nat
  long_description : List Nat
  object_code : List Segment
  shop_items : List Nat
deriving DecidableEq, Repr

def wOpcode : Opcode → List Nat
  | .SET_EPISODE => natToLeb 0
  | .BB_MAP_DESIGNATE => natToLeb 1
  | .RET => natToLeb 2
  | .other code => natToLeb (3 + code)

def pOpcode (bytes : List Nat) : Option (Opcode × List Nat) :=
  (pLeb bytes).map fun p =>
    (match p.1 with
     | 0 => .SET_EPISODE
     | 1 => .BB_MAP_DESIGNATE
     | 2 => .RET
     | code + 3 => .other code, p.2)

def wArg (a : Arg) : List Nat := intToLeb a.value ++ natToLeb a.size

def pArg (bytes : List Nat) : Option (Arg × List Nat) := do
  let (value, r1) ← pInt bytes
  let (size, r2) ← pLeb r1
  some (⟨value, size⟩, r2)

def wInstruction (i : Instruction) : List Nat := wOpcode i.opcode ++ wList wArg i.args

def pInstruction (bytes : List Nat) : Option (Instruction × List Nat) := do
  let (opcode, r1) ← pOpcode bytes
  let (args, r2) ← pList pArg r1
  some (⟨opcode, args⟩, r2)

def wSegment : Segment → List Nat
  | .Instructions labels instructions =>
      0 :: wList natToLeb labels ++ wList wInstruction instructions
  | .Data labels data => 1 :: wList natToLeb labels ++ lebBytes data
  | .String labels value => 2 :: wList natToLeb labels ++ lebBytes value

def pSegment (bytes : List Nat) : Option (Segment × List Nat) := do
  match bytes with
  | 0 :: r => do
      let (labels, r1) ← pList pLeb r
      let (instructions, r2) ← pList pInstruction r1
      some (.Instructions labels instructions, r2)
  | 1 :: r => do
      let (labels, r1) ← pList pLeb r
      let (data, r2) ← pBytes r1
      some (.Data labels data, r2)
  | 2 :: r => do
      let (labels, r1) ← pList pLeb r
      let (value, r2) ← pBytes r1
      some (.String labels value, r2)
  | _ => none

/-- Modelled from the spec: `write_bin` of `bin.ts` (not under review). -/
def write_bin (bin : BinFile) : List Nat :=
  natToLeb bin.quest_id ++ natToLeb bin.language ++ lebBytes bin.quest_name ++
    lebBytes bin.short_description ++ lebBytes bin.long_description ++
    wList natToLeb bin.shop_items ++ wList wSegment bin.object_code

/-- Modelled from the spec: `parse_bin` of `bin.ts` (not under review).
The caller-supplied entry points seed segment decoding in the real codec;
the modelled byte format is self-describing, so they (and the lenient
flag) do not affect the result. -/
def parse_bin (bytes : List Nat) (entry_points : List Nat) (lenient : Bool) :
    Option BinFile := do
  let (quest_id, r1) ← pLeb bytes
  let (language, r2) ← pLeb r1
  let (quest_name, r3) ← pBytes r2
  let (short_description, r4) ← pBytes r3
  let (long_description, r5) ← pBytes r4
  let (shop_items, r6) ← pList pLeb r5
  let (object_code, r7) ← pList pSegment r6
  let _ := entry_points
  let _ := lenient
  if r7.isEmpty then
    some ⟨quest_id, language, quest_name, short_description, long_description,
      object_code, shop_items⟩
  else none

/-- Modelled from the spec: the PRS compression collaborator is an opaque,
invertible byte-stream transform consumed through `compress`/`decompress`;
it is modelled as the identity transform. -/
def prs_compress (bytes : List Nat) : List Nat := bytes

/-- Modelled from the spec: inverse of `prs_compress`. -/
def prs_decompress (bytes : List Nat) : List Nat := bytes

/-! ## Quest assembly layer (`parse_quest` / `write_quest_qst`) -/

structure Quest where
  id : Nat
  language : Nat
  name : List Nat
  short_description : List Nat
  long_description : List Nat
  episode : Nat
  objects : List QuestObject
  npcs : List QuestNpc
  dat_unknowns : List DatUnknown
  object_code : List Segment
  shop_items : List Nat
  map_designations : List (Int × Int)
deriving DecidableEq, Repr

def dotDat : List Nat := [46, 100, 97, 116]

def dotBin : List Nat := [46, 98, 105, 110]

/-- One step of `parse_quest`'s `for (const file of qst.files)` search:
last `.dat` and last `.bin` member win (matched on the trimmed, lowercased
name). -/
def questFileStep (acc : Option QstContainedFile × Option QstContainedFile)
    (file : QstContainedFile) : Option QstContainedFile × Option QstContainedFile :=
  let file_name := lowerBytes (trimBytes file.name)
  if dotDat.isSuffixOf file_name then (some file, acc.2)
  else if dotBin.isSuffixOf file_name then (acc.1, some file)
  else acc

/-- `parse_quest(cursor, lenient)`: extract the contained `.dat`/`.bin`
files (last match wins; either missing aborts with `undefined`), decompress
and parse them, then derive episode and map designations from the label-0
instruction segment. -/
def parse_quest (bytes : List Nat) (lenient : Bool := false) : Option Quest := do
  let qst ← parse_qst bytes
  let found := qst.files.foldl questFileStep (none, none)
  let dat_file ← found.1
  let bin_file ← found.2
  let dat ← parse_dat (prs_decompress dat_file.data)
  let objects := parse_obj_data dat.objs
  let bin ← parse_bin (prs_decompress bin_file.data)
    (extract_script_entry_points objects dat.npcs) lenient
  let (episode, map_designations, _logs) ← episode_extraction bin.object_code
  some {
    id := bin.quest_id
    language := bin.language
    name := bin.quest_name
    short_description := bin.short_description
    long_description := bin.long_description
    episode := episode
    objects := objects
    npcs := parse_npc_data episode dat.npcs
    dat_unknowns := dat.unknowns
    object_code := bin.object_code
    shop_items := bin.shop_items
    map_designations := map_designations }

inductive WriteQuestError where
  | npcError (msg : String)
  | qst (e : QstWriteError)
deriving DecidableEq, Repr

/-- The base name `write_quest_qst` derives from the archive file name: the
first 11 characters of the part before the extension. -/
def questBaseName (file_name : List Nat) : List Nat :=
  match lastIndexOf file_name 46 with
  | none => file_name.take 11
  | some ext_start => file_name.take (min 11 ext_start)

/-- `write_quest_qst(quest, file_name)`: encode entities and bytecode,
compress both payloads, name them from the first 11 characters of
`file_name` (up to its extension) and write the QST container. -/
def write_quest_qst (quest : Quest) (file_name : List Nat) :
    Except WriteQuestError (List Nat) := do
  let npcs ← (npcs_to_dat_data quest.npcs).mapError .npcError
  let dat := write_dat {
    objs := objects_to_dat_data quest.objects
    npcs := npcs
    unknowns := quest.dat_unknowns }
  let bin := write_bin {
    quest_id := quest.id
    language := quest.language
    quest_name := quest.name
    short_description := quest.short_description
    long_description := quest.long_description
    object_code := quest.object_code
    shop_items := quest.shop_items }
  let base_file_name := questBaseName file_name
  (writeQst [
    { name := base_file_name ++ dotDat
      name2 := none
      questNo := some quest.id
      data := prs_compress dat },
    { name := base_file_name ++ dotBin
      name2 := none
      questNo := some quest.id
      data := prs_compress bin }]).mapError .qst

/-! ## Concrete example inputs for the claim witnesses and counterexamples -/

/-- Episode-I NPC record, raw type `0x043`, vertical scale 2.0
(`|2 − 1| > ε`). -/
def npcWolfDeviating : DatNpc :=
  ⟨0x043, 1, ⟨1, 2, 3⟩, ⟨4, 5, 6⟩, ⟨7, 0x40000000, 8⟩, 30, 0, 0, 2, [8]⟩

/-- Episode-I NPC record, raw type `0x043`, vertical scale 1.0
(`|1 − 1| ≤ ε`). -/
def npcWolfNear : DatNpc :=
  ⟨0x043, 1, ⟨1, 2, 3⟩, ⟨4, 5, 6⟩, ⟨7, 0x3F800000, 8⟩, 30, 0, 0, 2, [8]⟩

/-- Episode-I NPC record, raw type `0x064`, vertical scale 2.0. -/
def npcSlimeDeviating : DatNpc :=
  ⟨0x064, 1, ⟨1, 2, 3⟩, ⟨4, 5, 6⟩, ⟨7, 0x40000000, 8⟩, 31, 0, 0, 2, []⟩

/-- Episode-I NPC record decoding to Gobooma: type `0x044`, roaming 4
(`4 mod 3 = 1`). -/
def npcGoboomaDat : DatNpc :=
  ⟨0x044, 1, ⟨1, 2, 3⟩, ⟨4, 5, 6⟩, ⟨7, 0x3F800000, 8⟩, 30, 150, 4, 2, [9, 9]⟩

/-- A decoded NPC with the explicit `Unknown` identity and preserved raw
fields `pso_type_id = 0x300`, `roaming = 5`. -/
def npcUnknownEx : QuestNpc :=
  ⟨.Unknown, 3, 4, ⟨1, 2, 3⟩, ⟨4, 5, 6⟩, ⟨5, 0x3F800000, 6⟩, [1], 0x300, 9, 10, 5⟩

/-- What the encoder emits for `npcUnknownEx`: original type id and roaming,
regular flag true (bit 23 of `scale.y` cleared: `0x3F800000 ↦ 0x3F000000`). -/
def npcUnknownDatEx : DatNpc :=
  ⟨0x300, 4, ⟨1, 2, 3⟩, ⟨4, 5, 6⟩, ⟨5, 0x3F000000, 6⟩, 9, 10, 5, 3, [1]⟩

/-- A decoded NPC whose identity (Mothmant, named in the source's TODO) has
no inverse mapping. -/
def npcMothmantEx : QuestNpc :=
  ⟨.Mothmant, 3, 4, ⟨1, 2, 3⟩, ⟨4, 5, 6⟩, ⟨5, 0x3F800000, 6⟩, [1], 0x00e, 9, 10, 0⟩

/-- A Gobooma `QuestNpc` (roaming preserved from `npcGoboomaDat`). -/
def npcGoboomaQuest : QuestNpc :=
  ⟨.Gobooma, 2, 1, ⟨1, 2, 3⟩, ⟨4, 5, 6⟩, ⟨7, 0x3F800000, 8⟩, [9, 9], 0x044, 30, 150, 4⟩

/-- A label-0 instruction segment with no `SET_EPISODE` instruction. -/
def c4SegsNoSetEpisode : List Segment := [Segment.Instructions [0] [⟨.RET, []⟩]]

/-- Number of 1056-byte chunk records the writer emits for a payload of `r`
remaining bytes: `ceil(r/1024)`, except that an empty payload still emits
one chunk. -/
def chunkCount (r : Nat) : Nat := if r = 0 then 1 else (r + 1023) / 1024

/-- Printable-ASCII name bytes: no NUL terminator, nothing the whitespace
trim would strip, and no upper-case letters (so `toLowerCase` is the
identity). -/
def cleanName (s : List Nat) : Prop := ∀ b ∈ s, 32 < b ∧ ¬(65 ≤ b ∧ b ≤ 90)

/-- A single-chunk file (`"a"`, payload `[5]`) for the writer witness. -/
def c8File : SimpleQstContainedFile := ⟨[97], none, none, [5]⟩

/-- A file with an empty payload: the writer still emits one chunk for it,
breaking the predicted total. -/
def c8EmptyFile : SimpleQstContainedFile := ⟨[97], none, none, []⟩

/-- File for the header-layout counterexample: name `"a"`, quest number 5,
3-byte payload. -/
def c9File : SimpleQstContainedFile := ⟨[97], none, some 5, [1, 2, 3]⟩

/-- The two 88-byte header records `writeFileHeaders` emits for `c9File`
twice. -/
def c9HeaderBytes : List Nat := ((writeFileHeaders [c9File, c9File]).toOption).getD []

/-- Name of the five-chunk file used in the C7 witness. -/
def c7Name : List Nat := [97]

/-- One full 1024-byte chunk payload. -/
def c7Full : List Nat := List.replicate 1024 7

/-- The chunk records of a five-chunk file (chunks 0, 1, 3, 4; chunk 2
removed; chunk 4 carries a single byte, so the assembled size is
4·1024 + 1 = 4097 and the required chunk count is 5). -/
def c7Records : List (List Nat) :=
  [(writeFileChunk c7Full 0 0 c7Name).1,
   (writeFileChunk c7Full 0 1 c7Name).1,
   (writeFileChunk c7Full 0 3 c7Name).1,
   (writeFileChunk [7] 0 4 c7Name).1]

/-- Chunk records of a one-byte file, same chunk index 0, different data. -/
def c6DupA : List Nat := (writeFileChunk [1] 0 0 c7Name).1

def c6DupB : List Nat := (writeFileChunk [2] 0 0 c7Name).1

/-- Chunk records of a two-chunk file (distinct chunk indices). -/
def c6RecA : List Nat := (writeFileChunk (List.replicate 1025 3) 0 0 c7Name).1

def c6RecB : List Nat := (writeFileChunk (List.replicate 1025 3) 1024 1 c7Name).1

/-- Archive file name `q.qst` handed to `write_quest_qst` in the C1 round
trips; its base name (up to the extension) is the single byte `q`. -/
def c1QstName : List Nat := [113, 46, 113, 115, 116]

/-- Contained dat-member name `q.dat` derived from `q.qst`. -/
def qdatName : List Nat := [113, 46, 100, 97, 116]

/-- Contained bin-member name `q.bin` derived from `q.qst`. -/
def qbinName : List Nat := [113, 46, 98, 105, 110]

/-- Derived secondary name `q_j.dat`. -/
def qdatJName : List Nat := [113, 95, 106, 46, 100, 97, 116]

/-- Derived secondary name `q_j.bin`. -/
def qbinJName : List Nat := [113, 95, 106, 46, 98, 105, 110]

/-- The dat member exactly as `write_quest_qst` queues it. -/
def qstFile1 (qid : Nat) (d : List Nat) : SimpleQstContainedFile :=
  ⟨qdatName, none, some qid, d⟩

/-- The bin member exactly as `write_quest_qst` queues it. -/
def qstFile2 (qid : Nat) (d : List Nat) : SimpleQstContainedFile :=
  ⟨qbinName, none, some qid, d⟩

/-- The byte stream `writeQst` emits for two single-chunk members: two
88-byte headers, then one 1056-byte chunk per member. -/
def qstStreamOf (f1 f2 : SimpleQstContainedFile) : List Nat :=
  (headerBytes f1 ++ (headerBytes f2 ++ [])) ++
    ((writeFileChunk f1.data 0 0 f1.name).1 ++
      ((writeFileChunk f2.data 0 0 f2.name).1 ++ []))

/-- DAT content of the original C1 stream: a single Gobooma record whose
roaming value is 4 (≡ 1 mod 3). -/
def c1df0 : DatFile := ⟨[], [npcGoboomaDat], []⟩

/-- BIN content of the C1 streams: a label-0 instruction segment with no
`SET_EPISODE` (episode defaults to I). -/
def c1bf0 : BinFile := ⟨7, 0, [], [], [], [Segment.Instructions [0] [⟨.RET, []⟩]], []⟩

/-- The original QST byte stream of the C1 counterexample. -/
def c1Stream0 : List Nat :=
  qstStreamOf (qstFile1 7 (write_dat c1df0)) (qstFile2 7 (write_bin c1bf0))

/-- The quest `parse_quest` recovers from `c1Stream0`: its Gobooma NPC still
carries the raw roaming value 4. -/
def c1q0 : Quest :=
  ⟨7, 0, [], [], [], 1, [], [npcGoboomaQuest], [],
   [Segment.Instructions [0] [⟨.RET, []⟩]], [], []⟩

/-- Gobooma as re-encoded by `npc_to_dat_npc`: roaming rewritten to the
table value 1, bit 23 of `scale.y` cleared (`0x3F800000 ↦ 0x3F000000`). -/
def npcGoboomaDatNorm : DatNpc :=
  ⟨0x044, 1, ⟨1, 2, 3⟩, ⟨4, 5, 6⟩, ⟨7, 0x3F000000, 8⟩, 30, 150, 1, 2, [9, 9]⟩

/-- The DAT records `npcs_to_dat_data` emits for `c1q0.npcs`. -/
def c1NpcsDat : List DatNpc := [npcGoboomaDatNorm]

/-- The quest recovered after one more encode/decode round: roaming is now 1
and `scale.y` has bit 23 cleared. -/
def c1q1 : Quest :=
  ⟨7, 0, [], [], [], 1, [],
   [⟨.Gobooma, 2, 1, ⟨1, 2, 3⟩, ⟨4, 5, 6⟩, ⟨7, 0x3F000000, 8⟩, [9, 9], 0x044, 30, 150, 1⟩],
   [], [Segment.Instructions [0] [⟨.RET, []⟩]], [], []⟩

/-- The reassembly buffer `parseFiles` builds for a single-chunk payload
`d`: the header-declared size, `d` written at offset 0 of a zero buffer,
assembled size `d.length`, chunk 0 seen. -/
def qstFileState (d : List Nat) : FileState :=
  ⟨some d.length, writeAt (fun _ => 0) 0 d, d.length, [0]⟩

/-- The `parseFiles` state after consuming the two chunks of
`qstStreamOf`. -/
def qstPFState (d1 d2 : List Nat) : PFState :=
  ⟨fun n => if n = qbinName then some (qstFileState d2)
    else if n = qdatName then some (qstFileState d1) else none,
   [qdatName, qbinName], []⟩

/-- The reassembly buffer after the first `k` sequential chunks of payload
`d` (chunk `i` written at `1024·i`): bytes below `min (1024·k) d.length`
recovered, the rest still zero. -/
def pfsAfter (es : List (List Nat × Nat)) (name d : List Nat) (k : Nat) : FileState :=
  ⟨es.lookup name,
   fun off => if off < min (1024 * k) d.length then d.getD off 0 else 0,
   min (1024 * k) d.length,
   List.range k⟩

/-- The sequential chunk records of payload `d` under `name`: chunk `i`
covers bytes `[1024·i, 1024·i + 1024)`. -/
def seqChunks (d name : List Nat) : List (List Nat) :=
  (List.range (chunkCount d.length)).map
    fun i => (writeFileChunk d (1024 * i) i name).1

/-- The round-robin chunk writer viewed as a list of 1056-byte records
(same recursion as `writeChunksAux`, records kept separate instead of
concatenated). -/
def chunkList : Nat → List (SimpleQstContainedFile × Nat × Nat) → List (List Nat)
  | 0, _ => []
  | _ + 1, [] => []
  | fuel + 1, (f, pos, chunkNo) :: rest =>
    let r := writeFileChunk f.data pos chunkNo f.name
    if r.2 then r.1 :: chunkList fuel (rest ++ [(f, pos + 1024, chunkNo + 1)])
    else r.1 :: chunkList fuel rest

/-! # Theorems -/

/-! ## C2 — NPC identity determinism for Gobooma -/

/-- **C2**: an NPC record with raw type code `0x044` and roaming ≡ 1 (mod 3)
decodes, in an Episode I quest, to Gobooma; the inverse mapping for Gobooma
is `(0x044, roaming 1, regular true)`, and encoding a Gobooma NPC emits a
DAT record with type id `0x044` and roaming `1` (the regular flag is
realized as a cleared bit 23 of `scale.y`). -/
theorem c2_gobooma_identity (d : DatNpc) (npc : QuestNpc)
    (h1 : d.type_id = 0x044) (h2 : d.roaming % 3 = 1) (h3 : npc.type = .Gobooma) :
    get_npc_type 1 d = NpcType.Gobooma ∧
    npc_type_to_dat_data NpcType.Gobooma = .ok (some ⟨0x044, 1, true⟩) ∧
    npc_to_dat_npc npc = .ok {
      type_id := 0x044
      section_id := npc.section_id
      position := npc.position
      rotation := npc.rotation
      scale := ⟨npc.scale.x, forceRegularBit npc.scale.y true, npc.scale.z⟩
      npc_id := npc.npc_id
      script_label := npc.script_label
      roaming := 1
      area_id := npc.area_id
      unknown := npc.unknown } := by
  refine ⟨?_, rfl, ?_⟩
  · unfold get_npc_type
    rw [h1, h2]
    exact rfl
  · simp only [npc_to_dat_npc, h3]
    rfl

set_option maxHeartbeats 1000000 in
/-- Witness for C2 at the concrete record `npcGoboomaDat` (roaming 4) and
NPC `npcGoboomaQuest`. -/
theorem c2_gobooma_identity_witness :
    npcGoboomaDat.type_id = 0x044 ∧ npcGoboomaDat.roaming % 3 = 1 ∧
    get_npc_type 1 npcGoboomaDat = NpcType.Gobooma ∧
    npc_type_to_dat_data NpcType.Gobooma = .ok (some ⟨0x044, 1, true⟩) := by
  have h := c2_gobooma_identity npcGoboomaDat npcGoboomaQuest rfl rfl rfl
  exact ⟨rfl, rfl, h.1, h.2.1⟩

/-! ## C3 — vertical-scale disambiguation is the opposite of the claim -/

/-- **C3, counterexample**: the claim says `|scale.y − 1| > ε` marks the
*alternate* ("non-regular") variant.  In the code the local `regular` is
*defined as* `|scale.y − 1| > ε`, so a deviating scale yields the variant
whose inverse mapping carries `regular = true` — the regular one: a type
`0x043` Episode I NPC with scale.y = 2.0 decodes to SavageWolf (inverse
flag `true`), not BarbarousWolf, and a type `0x064` NPC with scale 2.0
decodes to PofuillySlime, not PouillySlime. -/
theorem c3_scale_counterexample :
    scale_deviates_one npcWolfDeviating.scale.y = true ∧
    get_npc_type 1 npcWolfDeviating = NpcType.SavageWolf ∧
    npc_type_to_dat_data NpcType.SavageWolf = .ok (some ⟨0x043, 0, true⟩) ∧
    get_npc_type 1 npcSlimeDeviating = NpcType.PofuillySlime ∧
    npc_type_to_dat_data NpcType.PofuillySlime = .ok (some ⟨0x064, 0, true⟩) := by
  refine ⟨by decide, by decide, rfl, by decide, rfl⟩

/-- **C3, amended**: for the scale-disambiguated codes (0x043 and 0x064 in
Episode I), `|scale.y − 1| > ε` marks the *regular* variant (SavageWolf,
PofuillySlime — inverse regular flag `true`) and `|scale.y − 1| ≤ ε` marks
the alternate variant (BarbarousWolf, PouillySlime — inverse flag
`false`). -/
theorem c3_scale_regular_amended (d : DatNpc) :
    (d.type_id = 0x043 → get_npc_type 1 d =
      (if scale_deviates_one d.scale.y then NpcType.SavageWolf else NpcType.BarbarousWolf)) ∧
    (d.type_id = 0x064 → get_npc_type 1 d =
      (if scale_deviates_one d.scale.y then NpcType.PofuillySlime else NpcType.PouillySlime)) ∧
    npc_type_to_dat_data NpcType.BarbarousWolf = .ok (some ⟨0x043, 0, false⟩) ∧
    npc_type_to_dat_data NpcType.PouillySlime = .ok (some ⟨0x064, 0, false⟩) := by
  refine ⟨?_, ?_, rfl, rfl⟩ <;> intro h <;>
    simp [get_npc_type, tlookup, npc_table_3way, npc_table_2way, npc_table_ep,
      applyRule, h, List.find?]

/-- Witness for C3 (amended) at scale 2.0 (deviating) and scale 1.0
(within ε). -/
theorem c3_scale_regular_witness :
    get_npc_type 1 npcWolfDeviating = NpcType.SavageWolf ∧
    scale_deviates_one npcWolfNear.scale.y = false ∧
    get_npc_type 1 npcWolfNear = NpcType.BarbarousWolf := by
  have h1 := (c3_scale_regular_amended npcWolfDeviating).1 rfl
  have h2 := (c3_scale_regular_amended npcWolfNear).1 rfl
  rw [h1, h2]
  refine ⟨by decide, by decide, by decide⟩

/-! ## C5 — unmapped identities on encode -/

/-- Helper: an identity other than `Unknown` with no inverse triple hits the
`default: throw` branch. -/
theorem npc_type_to_dat_data_error_of_no_map (t : NpcType) (h2 : t ≠ .Unknown)
    (h3 : ∀ td : NpcDatData, npc_type_to_dat_data t ≠ .ok (some td)) :
    npc_type_to_dat_data t = .error "Unexpected type." := by
  cases t <;> first
    | rfl
    | exact absurd rfl h2
    | exact absurd rfl (h3 _)

/-- Helper: one throwing NPC aborts the whole `npcs.map`. -/
theorem npcs_to_dat_data_error_of_mem (npcs : List QuestNpc) (npc : QuestNpc)
    (h1 : npc ∈ npcs) (e : String) (he : npc_to_dat_npc npc = .error e) :
    ∃ e2, npcs_to_dat_data npcs = .error e2 := by
  induction npcs with
  | nil => cases h1
  | cons hd tl ih =>
    rcases List.mem_cons.mp h1 with h | h
    · subst h
      exact ⟨e, by simp only [npcs_to_dat_data, he]; rfl⟩
    · rcases ih h with ⟨e2, he2⟩
      cases hhd : npc_to_dat_npc hd with
      | error e3 => exact ⟨e3, by simp only [npcs_to_dat_data, hhd]; rfl⟩
      | ok d => exact ⟨e2, by simp only [npcs_to_dat_data, hhd, he2]; rfl⟩

/-- **C5, counterexample**: the `Unknown` identity has no inverse triple
(`npc_type_to_dat_data` yields `none`, not a `(type_id, roaming, regular)`
mapping), yet encoding such an NPC does *not* abort — it succeeds via the
preserved-fields fallback. -/
theorem c5_unknown_counterexample :
    npc_type_to_dat_data npcUnknownEx.type = .ok none ∧
    npcs_to_dat_data [npcUnknownEx] = .ok [npcUnknownDatEx] := ⟨rfl, rfl⟩

/-- **C5, amended**: every identity *other than the explicit `Unknown`
identity* that has no inverse `(raw_type_code, roaming, regular_flag)`
triple makes the encode abort by raising. -/
theorem c5_unmapped_identity_fatal (npcs : List QuestNpc) (npc : QuestNpc)
    (h1 : npc ∈ npcs) (h2 : npc.type ≠ NpcType.Unknown)
    (h3 : ∀ td : NpcDatData, npc_type_to_dat_data npc.type ≠ .ok (some td)) :
    ∃ e, npcs_to_dat_data npcs = .error e := by
  have herr := npc_type_to_dat_data_error_of_no_map npc.type h2 h3
  exact npcs_to_dat_data_error_of_mem npcs npc h1 "Unexpected type."
    (by simp only [npc_to_dat_npc, herr]; rfl)

/-- Witness for C5 (amended) at a Mothmant NPC. -/
theorem c5_unmapped_identity_fatal_witness :
    ∃ e, npcs_to_dat_data [npcUnknownEx, npcMothmantEx] = .error e := by
  refine c5_unmapped_identity_fatal _ npcMothmantEx
    (List.mem_cons_of_mem _ (List.mem_cons_self _ _)) (by decide) ?_
  intro td h
  rw [show npc_type_to_dat_data npcMothmantEx.type = .error "Unexpected type." from rfl] at h
  cases h

/-! ## C10 — Unknown identity passes through encode -/

/-- **C10**: `npc_type_to_dat_data` returns no mapping for `Unknown`
(instead of raising), and the encoder then falls back to the NPC's
preserved `pso_type_id` and `roaming` with regular flag true, so the NPC
passes through with its original raw type code and roaming value. -/
theorem c10_unknown_passthrough (npc : QuestNpc) (h : npc.type = NpcType.Unknown) :
    npc_type_to_dat_data NpcType.Unknown = .ok none ∧
    npc_to_dat_npc npc = .ok {
      type_id := npc.pso_type_id
      section_id := npc.section_id
      position := npc.position
      rotation := npc.rotation
      scale := ⟨npc.scale.x, forceRegularBit npc.scale.y true, npc.scale.z⟩
      npc_id := npc.npc_id
      script_label := npc.script_label
      roaming := npc.roaming
      area_id := npc.area_id
      unknown := npc.unknown } := by
  refine ⟨rfl, ?_⟩
  simp only [npc_to_dat_npc, h]
  rfl

/-- Witness for C10 at `npcUnknownEx`. -/
theorem c10_unknown_passthrough_witness :
    npc_to_dat_npc npcUnknownEx = .ok npcUnknownDatEx :=
  (c10_unknown_passthrough npcUnknownEx rfl).2

/-! ## C4 — episode defaults -/

/-- Helper: `extract_map_designations` succeeds whenever every
`BB_MAP_DESIGNATE` instruction carries at least 3 arguments. -/
theorem extract_map_designations_total (insts : List Instruction)
    (h : ∀ i ∈ insts, i.opcode = Opcode.BB_MAP_DESIGNATE → 3 ≤ i.args.length) :
    ∃ md, extract_map_designations insts = some md := by
  suffices hgen : ∀ acc : List (Int × Int),
      ∃ md, extract_map_designations_go acc insts = some md from hgen []
  induction insts with
  | nil => exact fun acc => ⟨acc, rfl⟩
  | cons hd tl ih =>
    intro acc
    have htl : ∀ i ∈ tl, i.opcode = Opcode.BB_MAP_DESIGNATE → 3 ≤ i.args.length :=
      fun i hi => h i (List.mem_cons_of_mem hd hi)
    by_cases hop : hd.opcode = Opcode.BB_MAP_DESIGNATE
    · have hlen := h hd (List.mem_cons_self hd tl) hop
      cases hg0 : hd.args[0]? with
      | none => exact absurd (List.getElem?_eq_none_iff.mp hg0) (by omega)
      | some a0 =>
        cases hg2 : hd.args[2]? with
        | none => exact absurd (List.getElem?_eq_none_iff.mp hg2) (by omega)
        | some a2 =>
          rcases (ih htl) (mapSet acc a0.value a2.value) with ⟨md, hmd⟩
          exact ⟨md, by simp [extract_map_designations_go, hop, hg0, hg2, hmd]⟩
    · rcases (ih htl) acc with ⟨md, hmd⟩
      exact ⟨md, by simp [extract_map_designations_go, hop, hmd]⟩

/-- **C4, counterexample**: a label-0 segment with no `SET_EPISODE`
instruction decodes successfully to Episode I, but the only log line is
*debug*-level (`logger.debug("Function 0 has no set_episode instruction.")`),
not a warning as the claim states. -/
theorem c4_debug_not_warning_counterexample :
    episode_extraction c4SegsNoSetEpisode =
      some (1, [], [⟨LogLevel.debug, LogMsg.noSetEpisode⟩]) ∧
    (LogEntry.mk LogLevel.debug LogMsg.noSetEpisode).level ≠ LogLevel.warn :=
  ⟨rfl, by decide⟩

/-- **C4, amended**: with no label-0 instruction segment, decoding of a
non-empty bytecode region succeeds with Episode I plus a *warning*; with a
label-0 segment that contains no `SET_EPISODE` (and whose
`BB_MAP_DESIGNATE`s are well-formed), decoding succeeds with Episode I plus
a *debug*-level message — in neither case does extraction fail. -/
theorem c4_episode_default_amended (object_code : List Segment) :
    (object_code ≠ [] →
      (∀ seg ∈ object_code, isLabel0InstructionSegment seg = false) →
      episode_extraction object_code = some (1, [], [⟨.warn, .noLabel0Instruction⟩])) ∧
    (∀ labels insts,
      object_code.find? isLabel0InstructionSegment =
        some (.Instructions labels insts) →
      (∀ i ∈ insts, i.opcode ≠ Opcode.SET_EPISODE) →
      (∀ i ∈ insts, i.opcode = Opcode.BB_MAP_DESIGNATE → 3 ≤ i.args.length) →
      ∃ md, episode_extraction object_code = some (1, md, [⟨.debug, .noSetEpisode⟩])) := by
  constructor
  · intro hne hall
    have hfind : object_code.find? isLabel0InstructionSegment = none :=
      List.find?_eq_none.mpr (by intro seg hs; simp [hall seg hs])
    have hlen : object_code.length ≠ 0 := by
      intro hz
      exact hne (List.length_eq_zero.mp hz)
    simp only [episode_extraction, if_pos hlen, hfind]
  · intro labels insts hfind hset hbb
    have hmem := List.mem_of_find?_eq_some hfind
    have hlen : object_code.length ≠ 0 := by
      intro hz
      rw [List.length_eq_zero.mp hz] at hmem
      cases hmem
    have hnoset : insts.find? (fun i => decide (i.opcode = Opcode.SET_EPISODE)) = none :=
      List.find?_eq_none.mpr (by intro i hi; simpa using hset i hi)
    rcases extract_map_designations_total insts hbb with ⟨md, hmd⟩
    refine ⟨md, ?_⟩
    simp only [episode_extraction, if_pos hlen, hfind, get_episode, hnoset,
      Option.bind_eq_bind, Option.some_bind, hmd]

/-- Witness for C4 (amended): a non-empty bytecode region without a label-0
segment, and a label-0 segment containing only `RET`. -/
theorem c4_episode_default_witness :
    episode_extraction [Segment.Data [1] [2]] =
      some (1, [], [⟨.warn, .noLabel0Instruction⟩]) ∧
    ∃ md, episode_extraction c4SegsNoSetEpisode =
      some (1, md, [⟨.debug, .noSetEpisode⟩]) := by
  constructor
  · exact (c4_episode_default_amended _).1 (by simp) (by decide)
  · exact (c4_episode_default_amended _).2 [0] [⟨.RET, []⟩] rfl (by decide) (by decide)

/-! ## C8 — writer size accounting -/

@[simp] theorem padAscii_length (n : Nat) (s : List Nat) : (padAscii n s).length = n := by
  simp [padAscii]
  omega

@[simp] theorem u16leBytes_length (n : Nat) : (u16leBytes n).length = 2 := rfl

@[simp] theorem u32leBytes_length (n : Nat) : (u32leBytes n).length = 4 := rfl

/-- Every chunk record is exactly 1056 bytes long. -/
theorem writeFileChunk_length (data : List Nat) (pos chunkNo : Nat) (name : List Nat) :
    (writeFileChunk data pos chunkNo name).1.length = 1056 := by
  have hsz : min 1024 (data.length - pos) ≤ data.length - pos := Nat.min_le_right _ _
  simp [writeFileChunk]
  omega

/-- Total length of the chunk region: 1056 bytes per chunk, `chunkCount`
chunks per queued file (exact for any sufficient fuel). -/
theorem writeChunksAux_length (fuel : Nat) :
    ∀ queue : List (SimpleQstContainedFile × Nat × Nat),
    writeChunksMeasure queue ≤ fuel →
    (writeChunksAux fuel queue).length =
      1056 * (queue.map fun e => chunkCount (e.1.data.length - e.2.1)).sum := by
  induction fuel with
  | zero =>
    intro queue hq
    cases queue with
    | nil => rfl
    | cons e rest =>
      exfalso
      simp [writeChunksMeasure] at hq
  | succ fuel ih =>
    intro queue hq
    cases queue with
    | nil => rfl
    | cons e rest =>
      obtain ⟨f, pos, chunkNo⟩ := e
      have hm : writeChunksMeasure ((f, pos, chunkNo) :: rest) =
          (f.data.length - pos + 1) + writeChunksMeasure rest := by
        simp [writeChunksMeasure]
      by_cases hmore : (writeFileChunk f.data pos chunkNo f.name).2 = true
      · have hgt : f.data.length - pos > 1024 := by
          simp only [writeFileChunk, decide_eq_true_eq] at hmore
          omega
        have hm2 : writeChunksMeasure (rest ++ [(f, pos + 1024, chunkNo + 1)]) ≤ fuel := by
          simp only [writeChunksMeasure, List.map_append, List.sum_append,
            List.map_cons, List.sum_cons, List.map_nil, List.sum_nil] at *
          omega
        have := ih (rest ++ [(f, pos + 1024, chunkNo + 1)]) hm2
        simp only [writeChunksAux, hmore, if_true, List.length_append,
          writeFileChunk_length, this, List.map_append, List.sum_append,
          List.map_cons, List.sum_cons, List.map_nil, List.sum_nil]
        have hc : chunkCount (f.data.length - pos) =
            1 + chunkCount (f.data.length - (pos + 1024)) := by
          simp only [chunkCount]
          rw [if_neg (by omega), if_neg (by omega)]
          omega
        rw [hc]
        ring
      · have hle : f.data.length - pos ≤ 1024 := by
          simp only [writeFileChunk, decide_eq_true_eq] at hmore
          omega
        have hm2 : writeChunksMeasure rest ≤ fuel := by
          rw [hm] at hq
          omega
        have := ih rest hm2
        simp only [writeChunksAux, hmore, if_false, Bool.false_eq_true,
          List.length_append, writeFileChunk_length, this, List.map_cons,
          List.sum_cons]
        have hc : chunkCount (f.data.length - pos) = 1 := by
          simp only [chunkCount]
          split
          · rfl
          · omega
        rw [hc]
        ring

/-- A header record succeeds and is exactly 88 bytes when the names fit. -/
theorem writeFileHeader_length (f : SimpleQstContainedFile)
    (h16 : f.name.length ≤ 16) (h24 : (qstFileName2 f).length ≤ 24) :
    ∃ hdr, writeFileHeader f = .ok hdr ∧ hdr.length = 88 := by
  have h : writeFileHeader f = .ok (headerBytes f) := by
    rw [writeFileHeader, if_neg (by omega : ¬f.name.length > 16),
      if_neg (by omega : ¬(qstFileName2 f).length > 24)]
  exact ⟨_, h, by simp [headerBytes]⟩

/-- Sum of a constant-valued map. -/
theorem sum_map_const {α : Type} (l : List α) (f : α → Nat) (c : Nat)
    (h : ∀ x ∈ l, f x = c) : (l.map f).sum = c * l.length := by
  induction l with
  | nil => simp
  | cons x rest ih =>
    have hx := h x (List.mem_cons_self x rest)
    have := ih (fun y hy => h y (List.mem_cons_of_mem x hy))
    simp [hx, this]
    ring

/-- Splitting a constant summand out of a mapped sum. -/
theorem sum_map_add_const {α : Type} (l : List α) (f : α → Nat) (c : Nat) :
    (l.map fun x => c + f x).sum = c * l.length + (l.map f).sum := by
  induction l with
  | nil => simp
  | cons x rest ih =>
    simp [ih]
    ring

/-- Factoring a constant multiplier out of a mapped sum. -/
theorem sum_map_mul_right {α : Type} (l : List α) (f : α → Nat) (c : Nat) :
    (l.map fun x => f x * c).sum = (l.map f).sum * c := by
  induction l with
  | nil => simp
  | cons x rest ih =>
    simp [ih]
    ring

/-- All header records succeed and are 88 bytes each when the names fit. -/
theorem writeFileHeaders_mapM (files : List SimpleQstContainedFile)
    (h : ∀ f ∈ files, f.name.length ≤ 16 ∧ (qstFileName2 f).length ≤ 24) :
    ∃ ls, files.mapM writeFileHeader = .ok ls ∧ ls.length = files.length ∧
      ∀ l ∈ ls, l.length = 88 := by
  induction files with
  | nil => exact ⟨[], rfl, rfl, by simp⟩
  | cons f rest ih =>
    obtain ⟨h16, h24⟩ := h f (List.mem_cons_self f rest)
    obtain ⟨hdr, hhdr, hlen⟩ := writeFileHeader_length f h16 h24
    obtain ⟨ls, hls, hcount, hall⟩ := ih (fun g hg => h g (List.mem_cons_of_mem f hg))
    refine ⟨hdr :: ls, ?_, by simp [hcount], ?_⟩
    · rw [List.mapM_cons, hhdr, hls]
      rfl
    · intro l hl
      rcases List.mem_cons.mp hl with rfl | hl
      · exact hlen
      · exact hall l hl

/-- The header region succeeds and is `88 · n` bytes. -/
theorem writeFileHeaders_length (files : List SimpleQstContainedFile)
    (h : ∀ f ∈ files, f.name.length ≤ 16 ∧ (qstFileName2 f).length ≤ 24) :
    ∃ hdrs, writeFileHeaders files = .ok hdrs ∧ hdrs.length = 88 * files.length := by
  obtain ⟨ls, hls, hcount, hall⟩ := writeFileHeaders_mapM files h
  refine ⟨ls.flatten, by rw [writeFileHeaders, hls]; rfl, ?_⟩
  rw [List.length_flatten, sum_map_const ls List.length 88 hall, hcount]

/-- Per-file chunk counts for a fresh queue, with non-empty payloads. -/
theorem chunkCount_map_sum : ∀ l : List SimpleQstContainedFile,
    (∀ f ∈ l, 0 < f.data.length) →
    ((l.map fun f => (f, 0, 0)).map fun e =>
      chunkCount (e.1.data.length - e.2.1)).sum =
      (l.map fun f => (f.data.length + 1023) / 1024).sum := by
  intro l
  induction l with
  | nil => intro _; rfl
  | cons a t ih =>
    intro hl
    have ha := hl a (List.mem_cons_self a t)
    have hhead : chunkCount (a.data.length - 0) = (a.data.length + 1023) / 1024 := by
      simp only [chunkCount, Nat.sub_zero]
      rw [if_neg (by omega)]
    simp only [List.map_cons, List.sum_cons, hhead,
      ih (fun g hg => hl g (List.mem_cons_of_mem a hg))]

/-- **C8, amended**: for every non-empty list of files whose payloads are
non-empty (and whose names fit the 16/24-byte limits), `writeQst` succeeds
and emits exactly `Σ (88 + ceil(size/1024)·1056)` bytes, so the internal
size check passes; a mismatch with the prediction (e.g. for an empty
payload, which still costs one chunk) is raised as a fatal error. -/
theorem c8_exact_total_size (files : List SimpleQstContainedFile)
    (hne : files ≠ [])
    (hnames : ∀ f ∈ files, f.name.length ≤ 16 ∧ (qstFileName2 f).length ≤ 24)
    (hsz : ∀ f ∈ files, 0 < f.data.length) :
    ∃ out, writeQst files = .ok out ∧
      out.length = (files.map fun f => 88 + (f.data.length + 1023) / 1024 * 1056).sum := by
  obtain ⟨hdrs, hhdrs, hlen⟩ := writeFileHeaders_length files hnames
  have hchunks : (writeFileChunks files).length =
      1056 * ((files.map fun f => (f, 0, 0)).map fun e =>
        chunkCount (e.1.data.length - e.2.1)).sum :=
    writeChunksAux_length _ _ (le_refl _)
  have hcc : ((files.map fun f => (f, 0, 0)).map fun e =>
      chunkCount (e.1.data.length - e.2.1)).sum =
      (files.map fun f => (f.data.length + 1023) / 1024).sum :=
    chunkCount_map_sum files hsz
  have htotal : (hdrs ++ writeFileChunks files).length =
      (files.map fun f => 88 + (f.data.length + 1023) / 1024 * 1056).sum := by
    rw [List.length_append, hlen, hchunks, hcc, sum_map_add_const files
      (fun f => (f.data.length + 1023) / 1024 * 1056) 88, sum_map_mul_right files
      (fun f => (f.data.length + 1023) / 1024) 1056]
    ring
  refine ⟨hdrs ++ writeFileChunks files, ?_, htotal⟩
  have hemp : ¬files.isEmpty = true := by
    cases files with
    | nil => exact absurd rfl hne
    | cons a b => simp
  rw [writeQst, if_neg hemp, hhdrs]
  show (if (hdrs ++ writeFileChunks files).length ≠
      (files.map fun f => 88 + (f.data.length + 1023) / 1024 * 1056).sum then
      Except.error (QstWriteError.sizeMismatch
        ((files.map fun f => 88 + (f.data.length + 1023) / 1024 * 1056).sum)
        (hdrs ++ writeFileChunks files).length)
    else Except.ok (hdrs ++ writeFileChunks files)) =
    Except.ok (hdrs ++ writeFileChunks files)
  rw [if_neg (not_ne_iff.mpr htotal)]

/-- **C8, counterexample**: for a (non-empty) file list containing a file
with an *empty* payload the encoder does not emit
`Σ 88 + ceil(size/1024)·1056 = 88` bytes: the chunk writer still emits one
1056-byte chunk for the empty file, the size check sees 1144 ≠ 88, and
`writeQst` raises the fatal internal-consistency error instead of
returning output. -/
theorem c8_empty_payload_counterexample :
    writeQst [c8EmptyFile] = .error (.sizeMismatch 88 1144) := by rfl

/-- Witness for C8 (amended) at a single one-chunk file. -/
theorem c8_exact_total_size_witness :
    ∃ out, writeQst [c8File] = .ok out ∧ out.length = 1144 := by
  have h := c8_exact_total_size [c8File] (by simp) (by decide) (by decide)
  exact h

/-! ## C9 — header record layout -/

/-- Reading past a prefix indexes into the remainder. -/
theorem getD_at (pre x : List Nat) (k : Nat) :
    (pre ++ x).getD (pre.length + k) 0 = x.getD k 0 := by
  simp [List.getD, List.getElem?_append_right (Nat.le_add_right pre.length k)]

/-- Trimming does nothing to a list of printable bytes. -/
theorem trimBytes_eq_self (s : List Nat) (h : ∀ b ∈ s, 32 < b) :
    trimBytes s = s := by
  have hdrop : ∀ t : List Nat, (∀ b ∈ t, 32 < b) →
      t.dropWhile (fun b => decide (b ≤ 32)) = t := by
    intro t ht
    cases t with
    | nil => rfl
    | cons a t2 =>
      rw [List.dropWhile_cons_of_neg]
      simpa using ht a (List.mem_cons_self a t2)
  rw [trimBytes, hdrop s h, hdrop s.reverse (by intro b hb; exact h b (List.mem_reverse.mp hb)),
    List.reverse_reverse]

/-- A zero-padded clean name reads back exactly. -/
theorem stringAscii_padAscii (pre suf s : List Nat) (n : Nat)
    (hlen : s.length ≤ n) (hclean : ∀ b ∈ s, 32 < b) :
    stringAscii (pre ++ (padAscii n s ++ suf)) pre.length n = s := by
  rw [stringAscii, List.drop_left, List.take_left' (by simp)]
  rw [padAscii, List.take_of_length_le hlen, takeUntilNul,
    List.takeWhile_append_of_pos (fun b hb => by
      have := hclean b hb
      simp
      omega)]
  have hz : List.takeWhile (fun b => decide (b ≠ 0))
      (List.replicate (n - s.length) 0) = [] := by
    cases n - s.length with
    | zero => rfl
    | succ m => rw [List.replicate_succ, List.takeWhile_cons_of_neg (by simp)]
  rw [hz, List.append_nil]
  exact trimBytes_eq_self s hclean

/-- A 16-bit little-endian field reads back exactly. -/
theorem u16le_at (pre suf : List Nat) (v : Nat) (hv : v < 65536) :
    u16le (pre ++ (u16leBytes v ++ suf)) pre.length = v := by
  have h0 := getD_at pre (u16leBytes v ++ suf) 0
  have h1 := getD_at pre (u16leBytes v ++ suf) 1
  rw [Nat.add_zero] at h0
  rw [u16le, h0, h1]
  simp only [u16leBytes, List.cons_append, List.nil_append, List.getD_cons_zero,
    List.getD_cons_succ]
  omega

/-- A 32-bit little-endian field reads back exactly. -/
theorem u32le_at (pre suf : List Nat) (v : Nat) (hv : v < 2 ^ 32) :
    u32le (pre ++ (u32leBytes v ++ suf)) pre.length = v := by
  have h0 := getD_at pre (u32leBytes v ++ suf) 0
  have h1 := getD_at pre (u32leBytes v ++ suf) 1
  have h2 := getD_at pre (u32leBytes v ++ suf) 2
  have h3 := getD_at pre (u32leBytes v ++ suf) 3
  rw [Nat.add_zero] at h0
  rw [u32le, h0, h1, h2, h3]
  simp only [u32leBytes, List.cons_append, List.nil_append, List.getD_cons_zero,
    List.getD_cons_succ]
  have e16 : (65536 : Nat) = 256 * 256 := by norm_num
  have e24 : (16777216 : Nat) = 256 * 256 * 256 := by norm_num
  omega

/-- The four fields of one written header record, read at the offsets the
parser uses (`questNo` at 4, name at 44, size at 60, secondary name at
64). -/
theorem header_fields_at (pre suf : List Nat) (f : SimpleQstContainedFile)
    (h16 : f.name.length ≤ 16) (hclean : ∀ b ∈ f.name, 32 < b)
    (h24 : (qstFileName2 f).length ≤ 24) (hclean2 : ∀ b ∈ qstFileName2 f, 32 < b)
    (hqn : f.questNo.getD 0 < 65536) (hsize : f.data.length < 2 ^ 32) :
    u16le (pre ++ (headerBytes f ++ suf)) (pre.length + 4) = f.questNo.getD 0 ∧
    stringAscii (pre ++ (headerBytes f ++ suf)) (pre.length + 44) 16 = f.name ∧
    u32le (pre ++ (headerBytes f ++ suf)) (pre.length + 60) = f.data.length ∧
    stringAscii (pre ++ (headerBytes f ++ suf)) (pre.length + 64) 24 = qstFileName2 f := by
  refine ⟨?_, ?_, ?_, ?_⟩
  · have hre : pre ++ (headerBytes f ++ suf) =
        (pre ++ (u16leBytes 88 ++ u16leBytes 0x44)) ++
          (u16leBytes (f.questNo.getD 0) ++
            (List.replicate 38 0 ++ padAscii 16 f.name ++ u32leBytes f.data.length ++
              padAscii 24 (qstFileName2 f) ++ suf)) := by
      simp [headerBytes, List.append_assoc]
    have hl : (pre ++ (u16leBytes 88 ++ u16leBytes 0x44)).length = pre.length + 4 := by
      simp
    rw [hre, ← hl]
    exact u16le_at _ _ _ hqn
  · have hre : pre ++ (headerBytes f ++ suf) =
        (pre ++ (u16leBytes 88 ++ u16leBytes 0x44 ++ u16leBytes (f.questNo.getD 0) ++
          List.replicate 38 0)) ++
          (padAscii 16 f.name ++
            (u32leBytes f.data.length ++ padAscii 24 (qstFileName2 f) ++ suf)) := by
      simp [headerBytes, List.append_assoc]
    have hl : (pre ++ (u16leBytes 88 ++ u16leBytes 0x44 ++ u16leBytes (f.questNo.getD 0) ++
        List.replicate 38 0)).length = pre.length + 44 := by
      simp
    rw [hre, ← hl]
    exact stringAscii_padAscii _ _ _ _ h16 hclean
  · have hre : pre ++ (headerBytes f ++ suf) =
        (pre ++ (u16leBytes 88 ++ u16leBytes 0x44 ++ u16leBytes (f.questNo.getD 0) ++
          List.replicate 38 0 ++ padAscii 16 f.name)) ++
          (u32leBytes f.data.length ++ (padAscii 24 (qstFileName2 f) ++ suf)) := by
      simp [headerBytes, List.append_assoc]
    have hl : (pre ++ (u16leBytes 88 ++ u16leBytes 0x44 ++ u16leBytes (f.questNo.getD 0) ++
        List.replicate 38 0 ++ padAscii 16 f.name)).length = pre.length + 60 := by
      simp
    rw [hre, ← hl]
    exact u32le_at _ _ _ hsize
  · have hre : pre ++ (headerBytes f ++ suf) =
        (pre ++ (u16leBytes 88 ++ u16leBytes 0x44 ++ u16leBytes (f.questNo.getD 0) ++
          List.replicate 38 0 ++ padAscii 16 f.name ++ u32leBytes f.data.length)) ++
          (padAscii 24 (qstFileName2 f) ++ suf) := by
      simp [headerBytes, List.append_assoc]
    have hl : (pre ++ (u16leBytes 88 ++ u16leBytes 0x44 ++ u16leBytes (f.questNo.getD 0) ++
        List.replicate 38 0 ++ padAscii 16 f.name ++ u32leBytes f.data.length)).length =
        pre.length + 64 := by
      simp
    rw [hre, ← hl]
    exact stringAscii_padAscii _ _ _ _ h24 hclean2

/-- **C9, counterexample**: in the record written for a file named `"a"`
(byte 97), offsets 42 and 43 hold zero padding and the name starts at
offset 44, and the parser reads the name from offset 44 (reading 16 bytes
at offset 42 yields the empty string).  So neither path stores the name at
record offset 42 as the claim states. -/
theorem c9_offset_counterexample :
    c9HeaderBytes.getD 42 0 = 0 ∧ c9HeaderBytes.getD 43 0 = 0 ∧
    c9HeaderBytes.getD 44 0 = 97 ∧
    stringAscii c9HeaderBytes 42 16 ≠ [97] ∧
    stringAscii c9HeaderBytes 44 16 = [97] ∧
    (parseHeaders c9HeaderBytes).map (fun h => h.fileName) = [[97], [97]] := by
  refine ⟨by decide, by decide, by decide, by decide, by decide, by decide⟩

/-- **C9, amended**: each of the two 88-byte header records stores
`quest_no` as 2 bytes at record offset 4 and the 16-byte ASCII file name at
record offset **44** (not 42), followed at offset 60 by the 4-byte expected
size and at 64 by the 24-byte secondary name; the decode path
(`parseHeaders`) reads exactly the fields the encode path
(`writeFileHeaders`) wrote at those offsets. -/
theorem c9_header_layout_amended (f1 f2 : SimpleQstContainedFile)
    (h16a : f1.name.length ≤ 16) (hc1 : ∀ b ∈ f1.name, 32 < b)
    (h24a : (qstFileName2 f1).length ≤ 24) (hc1b : ∀ b ∈ qstFileName2 f1, 32 < b)
    (hqn1 : f1.questNo.getD 0 < 65536) (hsz1 : f1.data.length < 2 ^ 32)
    (h16b : f2.name.length ≤ 16) (hc2 : ∀ b ∈ f2.name, 32 < b)
    (h24b : (qstFileName2 f2).length ≤ 24) (hc2b : ∀ b ∈ qstFileName2 f2, 32 < b)
    (hqn2 : f2.questNo.getD 0 < 65536) (hsz2 : f2.data.length < 2 ^ 32) :
    ∃ hdr, writeFileHeaders [f1, f2] = .ok hdr ∧ hdr.length = 176 ∧
      parseHeaders hdr =
        [⟨f1.questNo.getD 0, f1.name, qstFileName2 f1, f1.data.length⟩,
         ⟨f2.questNo.getD 0, f2.name, qstFileName2 f2, f2.data.length⟩] := by
  have hw1 : writeFileHeader f1 = .ok (headerBytes f1) := by
    rw [writeFileHeader, if_neg (by omega), if_neg (by omega)]
  have hw2 : writeFileHeader f2 = .ok (headerBytes f2) := by
    rw [writeFileHeader, if_neg (by omega), if_neg (by omega)]
  have hok : writeFileHeaders [f1, f2] = .ok (headerBytes f1 ++ (headerBytes f2 ++ [])) := by
    rw [writeFileHeaders, List.mapM_cons, hw1, List.mapM_cons, hw2]
    rfl
  refine ⟨_, hok, by simp [headerBytes], ?_⟩
  have hf1 := header_fields_at [] (headerBytes f2 ++ []) f1
    h16a hc1 h24a hc1b hqn1 hsz1
  have hf2 := header_fields_at (headerBytes f1) [] f2
    h16b hc2 h24b hc2b hqn2 hsz2
  have hlen1 : (headerBytes f1).length = 88 := by simp [headerBytes]
  obtain ⟨e1, e2, e3, e4⟩ := hf1
  simp only [List.length_nil, Nat.zero_add, List.nil_append] at e1 e2 e3 e4
  obtain ⟨g1, g2, g3, g4⟩ := hf2
  rw [hlen1] at g1 g2 g3 g4
  rw [parseHeaders]
  simp only [parseHeaderAt, Nat.zero_add, e1, e2, e3, e4, g1, g2, g3, g4]

/-- Witness for C9 (amended) at two concrete files. -/
theorem c9_header_layout_witness :
    ∃ hdr, writeFileHeaders [c9File, c8File] = .ok hdr ∧ hdr.length = 176 ∧
      parseHeaders hdr =
        [⟨5, [97], [97, 95, 106], 3⟩, ⟨0, [97], [97, 95, 106], 1⟩] := by
  have h := c9_header_layout_amended c9File c8File
    (by decide) (by decide) (by decide) (by decide) (by decide) (by norm_num [c9File])
    (by decide) (by decide) (by decide) (by decide) (by decide) (by norm_num [c8File])
  exact h

/-! ## C7 — missing-chunk detection -/

/-- A name is enumerated by the final per-file pass exactly when its file
exists: invariant of the chunk-record fold. -/
theorem pf_order_iff_lookup (es : List (List Nat × Nat)) (records : List (List Nat)) :
    ∀ name, name ∈ (parseFilesCore es records).order ↔
      ((parseFilesCore es records).lookup name).isSome = true := by
  suffices h : ∀ s : PFState, (∀ n, n ∈ s.order ↔ (s.lookup n).isSome = true) →
      ∀ n, n ∈ (records.foldl (pfStep es) s).order ↔
        ((records.foldl (pfStep es) s).lookup n).isSome = true by
    exact h pfInit (by intro n; simp [pfInit])
  induction records with
  | nil => exact fun s hs => hs
  | cons r rest ih =>
    intro s hs
    refine ih (pfStep es s r) ?_
    intro n
    by_cases hn : n = chunkNameOf r
    · subst hn
      constructor
      · intro _
        simp [pfStep]
      · intro _
        simp only [pfStep]
        by_cases hpresent : (s.lookup (chunkNameOf r)).isSome = true
        · simp only [hpresent, if_true]
          exact (hs _).mpr hpresent
        · simp only [hpresent, if_false, Bool.false_eq_true]
          exact List.mem_append_right _ (List.mem_singleton.mpr rfl)
    · have hlook : (pfStep es s r).lookup n = s.lookup n := by
        simp only [pfStep]
        rw [if_neg hn]
      have horder : n ∈ (pfStep es s r).order ↔ n ∈ s.order := by
        simp only [pfStep]
        by_cases hpresent : (s.lookup (chunkNameOf r)).isSome = true
        · simp [hpresent]
        · simp only [hpresent, if_false, Bool.false_eq_true, List.mem_append,
            List.mem_singleton]
          exact ⟨fun h => h.elim id (fun he => absurd he hn), Or.inl⟩
      rw [hlook, horder]
      exact hs n

/-- **C7**: after all chunk records are consumed, every chunk index below
`ceil(max(assembled_size, expected_size)/1024)` that is absent from a
file's observed chunk-number set produces a warning naming that file and
that index (decoding itself is total and always succeeds). -/
theorem c7_missing_chunk_warned (expectedSizes : List (List Nat × Nat))
    (records : List (List Nat)) (name : List Nat) (f : FileState) (chunkNo : Nat)
    (hf : (parseFilesCore expectedSizes records).lookup name = some f)
    (hlt : chunkNo < (max f.size (f.expectedSize.getD 0) + 1023) / 1024)
    (hmiss : chunkNo ∉ f.chunkNos) :
    LogEntry.mk .warn (.missingChunk name chunkNo) ∈
      (parseFilesRecords expectedSizes records).warnings := by
  have hord : name ∈ (parseFilesCore expectedSizes records).order :=
    (pf_order_iff_lookup expectedSizes records name).mpr (by rw [hf]; rfl)
  have hwarnmem : LogEntry.mk .warn (.missingChunk name chunkNo) ∈
      pfFileWarnings name f := by
    apply List.mem_append_right
    apply List.mem_map.mpr
    refine ⟨chunkNo, ?_, rfl⟩
    apply List.mem_filter.mpr
    exact ⟨List.mem_range.mpr hlt, by simpa using hmiss⟩
  have hfin : LogEntry.mk .warn (.missingChunk name chunkNo) ∈
      pfFinalWarnings (parseFilesCore expectedSizes records) := by
    apply List.mem_flatMap.mpr
    refine ⟨name, hord, ?_⟩
    rw [hf]
    exact hwarnmem
  exact List.mem_append_right _ hfin

/-- Witness for C7: removing chunk 2 of a five-chunk file yields a warning
naming chunk 2. -/
theorem c7_missing_chunk_warned_witness :
    LogEntry.mk .warn (.missingChunk c7Name 2) ∈
      (parseFilesRecords [] c7Records).warnings := by
  cases hf : (parseFilesCore [] c7Records).lookup c7Name with
  | none =>
    have hs : ((parseFilesCore [] c7Records).lookup c7Name).isSome = true := by decide
    rw [hf] at hs
    cases hs
  | some f =>
    have hsize : ((parseFilesCore [] c7Records).lookup c7Name).map FileState.size =
        some 4097 := by decide
    have hexp : ((parseFilesCore [] c7Records).lookup c7Name).map FileState.expectedSize =
        some none := by decide
    have hchunks : ((parseFilesCore [] c7Records).lookup c7Name).map FileState.chunkNos =
        some [0, 1, 3, 4] := by decide
    rw [hf] at hsize hexp hchunks
    have hsize2 : f.size = 4097 := by injection hsize
    have hexp2 : f.expectedSize = none := by injection hexp
    have hchunks2 : f.chunkNos = [0, 1, 3, 4] := by injection hchunks
    refine c7_missing_chunk_warned [] c7Records c7Name f 2 hf ?_ ?_
    · rw [hsize2, hexp2]
      decide
    · rw [hchunks2]
      decide

/-! ## C6 — chunk reconstruction and arrival order -/

theorem lookupEquiv_refl : ∀ o, lookupEquiv o o
  | none => trivial
  | some _ => ⟨rfl, rfl, rfl⟩

theorem lookupEquiv_trans : ∀ {o1 o2 o3}, lookupEquiv o1 o2 → lookupEquiv o2 o3 →
    lookupEquiv o1 o3
  | none, none, none, _, _ => trivial
  | some _, some _, some _, ⟨e1, c1, s1⟩, ⟨e2, c2, s2⟩ =>
      ⟨e1.trans e2, c1.trans c2, s1.trans s2⟩

theorem pfEquiv_refl (s : PFState) : pfEquiv s s := fun _ => lookupEquiv_refl _

theorem pfEquiv_trans {s1 s2 s3 : PFState} (h1 : pfEquiv s1 s2) (h2 : pfEquiv s2 s3) :
    pfEquiv s1 s3 := fun n => lookupEquiv_trans (h1 n) (h2 n)

/-- Equivalent states yield identical payloads. -/
theorem pfPayload_congr {s s2 : PFState} (h : pfEquiv s s2) (n : List Nat) :
    pfPayload s n = pfPayload s2 n := by
  have hn := h n
  rw [pfPayload, pfPayload]
  cases h1 : s.lookup n with
  | none =>
    cases h2 : s2.lookup n with
    | none => rfl
    | some g => rw [h1, h2] at hn; cases hn
  | some f =>
    cases h2 : s2.lookup n with
    | none => rw [h1, h2] at hn; cases hn
    | some g =>
      rw [h1, h2] at hn
      show List.map f.content (List.range f.size) =
        List.map g.content (List.range g.size)
      rw [hn.2.1, hn.2.2]

theorem chunkDataOf_length_le (raw : List Nat) : (chunkDataOf raw).length ≤ 1024 := by
  simp only [chunkDataOf, chunkSizeOf, List.length_take]
  omega

/-- Writes to disjoint regions commute. -/
theorem writeAt_comm (c : Nat → Nat) (p1 p2 : Nat) (d1 d2 : List Nat)
    (h : p1 + d1.length ≤ p2 ∨ p2 + d2.length ≤ p1) :
    writeAt (writeAt c p1 d1) p2 d2 = writeAt (writeAt c p2 d2) p1 d1 := by
  funext off
  simp only [writeAt]
  split_ifs <;> first | rfl | omega

/-- The lookup component of one parse step. -/
theorem pfStep_lookup (es : List (List Nat × Nat)) (s : PFState) (raw : List Nat)
    (n : List Nat) :
    (pfStep es s raw).lookup n =
      if n = chunkNameOf raw then some (pfUpdateFile es s raw) else s.lookup n := rfl

theorem pfUpdateFile_expectedSize (es : List (List Nat × Nat)) (s : PFState)
    (raw : List Nat) :
    (pfUpdateFile es s raw).expectedSize =
      ((s.lookup (chunkNameOf raw)).getD (pfFresh es (chunkNameOf raw))).expectedSize := rfl

theorem pfUpdateFile_content (es : List (List Nat × Nat)) (s : PFState) (raw : List Nat) :
    (pfUpdateFile es s raw).content =
      writeAt ((s.lookup (chunkNameOf raw)).getD (pfFresh es (chunkNameOf raw))).content
        (chunkNoOf raw * 1024) (chunkDataOf raw) := rfl

theorem pfUpdateFile_size (es : List (List Nat × Nat)) (s : PFState) (raw : List Nat) :
    (pfUpdateFile es s raw).size =
      max (chunkNoOf raw * 1024 + chunkSizeOf raw)
        ((s.lookup (chunkNameOf raw)).getD (pfFresh es (chunkNameOf raw))).size := rfl

/-- `pfUpdateFile` depends on the state only through the file it updates. -/
theorem pfUpdateFile_ext (es : List (List Nat × Nat)) (s s2 : PFState) (raw : List Nat)
    (h : s.lookup (chunkNameOf raw) = s2.lookup (chunkNameOf raw)) :
    pfUpdateFile es s raw = pfUpdateFile es s2 raw := by
  simp only [pfUpdateFile, h]

/-- `pfUpdateFile` sends data-equivalent states to data-equivalent files. -/
theorem pfUpdateFile_congr (es : List (List Nat × Nat)) (s s2 : PFState) (raw : List Nat)
    (h : lookupEquiv (s.lookup (chunkNameOf raw)) (s2.lookup (chunkNameOf raw))) :
    lookupEquiv (some (pfUpdateFile es s raw)) (some (pfUpdateFile es s2 raw)) := by
  cases h1 : s.lookup (chunkNameOf raw) with
  | none =>
    cases h2 : s2.lookup (chunkNameOf raw) with
    | none =>
      rw [pfUpdateFile_ext es s s2 raw (h1.trans h2.symm)]
      exact lookupEquiv_refl _
    | some g => rw [h1, h2] at h; exact h.elim
  | some f =>
    cases h2 : s2.lookup (chunkNameOf raw) with
    | none => rw [h1, h2] at h; exact h.elim
    | some g =>
      rw [h1, h2] at h
      obtain ⟨he, hc, hs⟩ := h
      refine ⟨?_, ?_, ?_⟩
      · rw [pfUpdateFile_expectedSize, pfUpdateFile_expectedSize, h1, h2,
          Option.getD_some, Option.getD_some, he]
      · rw [pfUpdateFile_content, pfUpdateFile_content, h1, h2,
          Option.getD_some, Option.getD_some, hc]
      · rw [pfUpdateFile_size, pfUpdateFile_size, h1, h2,
          Option.getD_some, Option.getD_some, hs]

/-- One parse step preserves data equivalence. -/
theorem pfStep_congr (es : List (List Nat × Nat)) {s s2 : PFState} (raw : List Nat)
    (h : pfEquiv s s2) : pfEquiv (pfStep es s raw) (pfStep es s2 raw) := by
  intro n
  rw [pfStep_lookup, pfStep_lookup]
  by_cases hn : n = chunkNameOf raw
  · rw [if_pos hn, if_pos hn]
    exact pfUpdateFile_congr es s s2 raw (h _)
  · rw [if_neg hn, if_neg hn]
    exact h n

/-- The whole record fold preserves data equivalence. -/
theorem pfFoldl_congr (es : List (List Nat × Nat)) (l : List (List Nat)) :
    ∀ {s s2 : PFState}, pfEquiv s s2 →
      pfEquiv (l.foldl (pfStep es) s) (l.foldl (pfStep es) s2) := by
  induction l with
  | nil => exact fun h => h
  | cons r rest ih =>
    intro s s2 h
    simp only [List.foldl_cons]
    exact ih (pfStep_congr es r h)

/-- Two chunk records with different keys may be processed in either
order: the resulting states reassemble identical data. -/
theorem pfStep_swap (es : List (List Nat × Nat)) (a b : List Nat) (s : PFState)
    (hkey : chunkKey a ≠ chunkKey b) :
    pfEquiv (pfStep es (pfStep es s a) b) (pfStep es (pfStep es s b) a) := by
  intro n
  simp only [pfStep_lookup]
  by_cases hnb : n = chunkNameOf b <;> by_cases hna : n = chunkNameOf a
  · have hab : chunkNameOf a = chunkNameOf b := hna.symm.trans hnb
    have hno : chunkNoOf a ≠ chunkNoOf b := fun h =>
      hkey (by rw [chunkKey, chunkKey, hab, h])
    rw [if_pos hnb, if_pos hna]
    have hla : (pfStep es s a).lookup (chunkNameOf b) = some (pfUpdateFile es s a) := by
      rw [pfStep_lookup, if_pos hab.symm]
    have hlb : (pfStep es s b).lookup (chunkNameOf a) = some (pfUpdateFile es s b) := by
      rw [pfStep_lookup, if_pos hab]
    refine ⟨?_, ?_, ?_⟩
    · rw [pfUpdateFile_expectedSize, pfUpdateFile_expectedSize, hla, hlb]
      simp only [Option.getD_some]
      rw [pfUpdateFile_expectedSize, pfUpdateFile_expectedSize, hab]
    · rw [pfUpdateFile_content, pfUpdateFile_content, hla, hlb]
      simp only [Option.getD_some]
      rw [pfUpdateFile_content, pfUpdateFile_content, hab]
      refine writeAt_comm _ _ _ _ _ ?_
      have ha := chunkDataOf_length_le a
      have hb := chunkDataOf_length_le b
      rcases Nat.lt_or_ge (chunkNoOf a) (chunkNoOf b) with hlt | hge
      · left; omega
      · have hlt2 : chunkNoOf b < chunkNoOf a :=
          lt_of_le_of_ne hge fun h => hno h.symm
        right; omega
    · rw [pfUpdateFile_size, pfUpdateFile_size, hla, hlb]
      simp only [Option.getD_some]
      rw [pfUpdateFile_size, pfUpdateFile_size, hab]
      omega
  · rw [if_pos hnb, if_neg hna, if_pos hnb,
      pfUpdateFile_ext es (pfStep es s a) s b
        (by rw [pfStep_lookup, if_neg fun h => hna (hnb.trans h)])]
    exact lookupEquiv_refl _
  · rw [if_neg hnb, if_pos hna, if_pos hna,
      pfUpdateFile_ext es (pfStep es s b) s a
        (by rw [pfStep_lookup, if_neg fun h => hnb (hna.trans h)])]
    exact lookupEquiv_refl _
  · rw [if_neg hnb, if_neg hna, if_neg hna, if_neg hnb]
    exact lookupEquiv_refl _

/-- Folding a permutation of a duplicate-free chunk-record list reassembles
identical data. -/
theorem parseFilesCore_perm (es : List (List Nat × Nat)) :
    ∀ {l l2 : List (List Nat)}, l.Perm l2 → (l.map chunkKey).Nodup →
    pfEquiv (parseFilesCore es l) (parseFilesCore es l2) := by
  suffices h : ∀ {l l2 : List (List Nat)}, l.Perm l2 → (l.map chunkKey).Nodup →
      ∀ s, pfEquiv (l.foldl (pfStep es) s) (l2.foldl (pfStep es) s) by
    intro l l2 hperm hkeys
    exact h hperm hkeys pfInit
  intro l l2 hperm
  induction hperm with
  | nil => exact fun _ s => pfEquiv_refl _
  | cons x p ih =>
    intro hkeys s
    rw [List.map_cons, List.nodup_cons] at hkeys
    simp only [List.foldl_cons]
    exact ih hkeys.2 (pfStep es s x)
  | swap x y l =>
    intro hkeys s
    rw [List.map_cons, List.map_cons, List.nodup_cons] at hkeys
    simp only [List.foldl_cons]
    apply pfFoldl_congr
    apply pfStep_swap
    exact fun hcontra => hkeys.1 (List.mem_cons.mpr (Or.inl hcontra))
  | trans p1 p2 ih1 ih2 =>
    intro hkeys s
    refine pfEquiv_trans (ih1 hkeys s) (ih2 ?_ s)
    exact ((p1.map chunkKey).nodup_iff).mp hkeys

/-- **C6, counterexample**: the claim quantifies over *every* chunk
sequence and permutation, but with duplicate chunk indices the later
record overwrites the earlier one, so swapping two same-key records
changes the reconstructed payload. -/
theorem c6_duplicate_counterexample :
    List.Perm [c6DupA, c6DupB] [c6DupB, c6DupA] ∧
    pfPayload (parseFilesRecords [] [c6DupA, c6DupB]) c7Name = [2] ∧
    pfPayload (parseFilesRecords [] [c6DupB, c6DupA]) c7Name = [1] := by
  refine ⟨List.Perm.swap _ _ _, by decide, by decide⟩

/-- **C6, amended**: for chunk sequences with no duplicate
`(file name, chunk index)` pair, decoding any permutation of the sequence
reconstructs identical payload bytes for every file name — placement
depends only on the chunk index (`chunkNo * 1024`), not arrival order. -/
theorem c6_chunk_reconstruction_perm (es : List (List Nat × Nat))
    (records records2 : List (List Nat)) (hperm : records.Perm records2)
    (hkeys : (records.map chunkKey).Nodup) (name : List Nat) :
    pfPayload (parseFilesRecords es records) name =
      pfPayload (parseFilesRecords es records2) name := by
  have h1 : pfPayload (parseFilesRecords es records) name =
      pfPayload (parseFilesCore es records) name := rfl
  have h2 : pfPayload (parseFilesRecords es records2) name =
      pfPayload (parseFilesCore es records2) name := rfl
  rw [h1, h2]
  exact pfPayload_congr (parseFilesCore_perm es hperm hkeys) name

/-- Witness for C6 (amended): two distinct-index chunks of one file, in
both orders. -/
theorem c6_chunk_reconstruction_perm_witness :
    pfPayload (parseFilesRecords [] [c6RecA, c6RecB]) c7Name =
      pfPayload (parseFilesRecords [] [c6RecB, c6RecA]) c7Name := by
  refine c6_chunk_reconstruction_perm [] _ _ (List.Perm.swap _ _ _) ?_ c7Name
  decide

/-! ## C1 — round trip through `write_quest_qst` and `parse_quest`

### Inverses of the modelled serializers -/

/-- The fuel of `natToLebAux` is irrelevant once it exceeds the input. -/
theorem natToLebAux_fuel : ∀ fuel fuel' n : Nat, n < fuel → n < fuel' →
    natToLebAux fuel n = natToLebAux fuel' n := by
  intro fuel
  induction fuel with
  | zero => intro fuel' n h _; exact absurd h (Nat.not_lt_zero n)
  | succ f ih =>
    intro fuel' n h h'
    cases fuel' with
    | zero => exact absurd h' (Nat.not_lt_zero n)
    | succ f' =>
      simp only [natToLebAux]
      by_cases hn : n < 128
      · rw [if_pos hn, if_pos hn]
      · rw [if_neg hn, if_neg hn, ih f' (n / 128) (by omega) (by omega)]

theorem pLeb_natToLeb_aux : ∀ k n : Nat, n ≤ k →
    ∀ rest : List Nat, pLeb (natToLeb n ++ rest) = some (n, rest) := by
  intro k
  induction k with
  | zero =>
    intro n hn rest
    have h0 : n = 0 := by omega
    subst h0
    rfl
  | succ k ih =>
    intro n hn rest
    by_cases h : n < 128
    · rw [natToLeb]
      simp only [natToLebAux, if_pos h, List.cons_append, List.nil_append]
      simp only [pLeb, if_pos h]
    · rw [natToLeb]
      simp only [natToLebAux, if_neg h]
      rw [natToLebAux_fuel n (n / 128 + 1) (n / 128) (by omega) (by omega)]
      rw [show natToLebAux (n / 128 + 1) (n / 128) = natToLeb (n / 128) from rfl]
      rw [List.cons_append]
      simp only [pLeb]
      rw [if_neg (by omega : ¬n % 128 + 128 < 128), ih (n / 128) (by omega) rest]
      show some (n % 128 + 128 - 128 + 128 * (n / 128), rest) = some (n, rest)
      rw [show n % 128 + 128 - 128 + 128 * (n / 128) = n by omega]

/-- `pLeb` inverts `natToLeb`, leaving the remainder untouched. -/
theorem pLeb_natToLeb (n : Nat) (rest : List Nat) :
    pLeb (natToLeb n ++ rest) = some (n, rest) :=
  pLeb_natToLeb_aux n n (le_refl n) rest

/-- `pInt` inverts the zig-zag encoding `intToLeb`. -/
theorem pInt_intToLeb (i : Int) (rest : List Nat) :
    pInt (intToLeb i ++ rest) = some (i, rest) := by
  rcases le_or_lt 0 i with h | h
  · rw [intToLeb, if_pos h, pInt, pLeb_natToLeb, Option.map_some']
    show some ((if 2 * i.toNat % 2 = 0 then ((2 * i.toNat / 2 : Nat) : Int)
      else -(((2 * i.toNat + 1) / 2 : Nat) : Int)), rest) = some (i, rest)
    rw [if_pos (by omega), show 2 * i.toNat / 2 = i.toNat by omega,
      Int.toNat_of_nonneg h]
  · rw [intToLeb, if_neg (by omega), pInt, pLeb_natToLeb, Option.map_some']
    show some ((if (2 * (-i).toNat - 1) % 2 = 0 then
        (((2 * (-i).toNat - 1) / 2 : Nat) : Int)
      else -(((2 * (-i).toNat - 1 + 1) / 2 : Nat) : Int)), rest) = some (i, rest)
    have hpos : 1 ≤ (-i).toNat := by omega
    rw [if_neg (by omega), show (2 * (-i).toNat - 1 + 1) / 2 = (-i).toNat by omega,
      show -(((-i).toNat : Int)) = i by omega]

/-- `pBytes` inverts the count-prefixed span `lebBytes`. -/
theorem pBytes_lebBytes (l rest : List Nat) :
    pBytes (lebBytes l ++ rest) = some (l, rest) := by
  rw [lebBytes, List.append_assoc]
  simp only [pBytes, Option.bind_eq_bind, pLeb_natToLeb, Option.some_bind]
  rw [if_pos (by simp), List.take_left, List.drop_left]

theorem pVec3_wVec3 (v : Vec3) (rest : List Nat) :
    pVec3 (wVec3 v ++ rest) = some (v, rest) := by
  simp only [wVec3, List.append_assoc]
  simp only [pVec3, Option.bind_eq_bind, pLeb_natToLeb, Option.some_bind]

/-- Parsing back an encoded list, one item at a time. -/
theorem pCount_roundtrip {α : Type} (w : α → List Nat)
    (p : List Nat → Option (α × List Nat))
    (hp : ∀ (a : α) (rest : List Nat), p (w a ++ rest) = some (a, rest)) :
    ∀ (l : List α) (rest : List Nat),
      pCount p l.length (l.flatMap w ++ rest) = some (l, rest) := by
  intro l
  induction l with
  | nil => intro rest; simp [pCount]
  | cons a t ih =>
    intro rest
    rw [List.flatMap_cons, List.append_assoc]
    show pCount p (t.length + 1) (w a ++ (t.flatMap w ++ rest)) = some (a :: t, rest)
    simp only [pCount, Option.bind_eq_bind, hp, Option.some_bind, ih]

/-- `pList` inverts `wList` whenever the item parser inverts the item
writer. -/
theorem pList_wList {α : Type} (w : α → List Nat)
    (p : List Nat → Option (α × List Nat))
    (hp : ∀ (a : α) (rest : List Nat), p (w a ++ rest) = some (a, rest))
    (l : List α) (rest : List Nat) :
    pList p (wList w l ++ rest) = some (l, rest) := by
  rw [wList, List.append_assoc]
  simp only [pList, Option.bind_eq_bind, pLeb_natToLeb, Option.some_bind]
  exact pCount_roundtrip w p hp l rest

theorem pList_leb (l rest : List Nat) :
    pList pLeb (wList natToLeb l ++ rest) = some (l, rest) :=
  pList_wList natToLeb pLeb pLeb_natToLeb l rest

theorem pDatObject_wDatObject (o : DatObject) (rest : List Nat) :
    pDatObject (wDatObject o ++ rest) = some (o, rest) := by
  simp only [wDatObject, List.append_assoc]
  simp only [pDatObject, Option.bind_eq_bind, pLeb_natToLeb, pVec3_wVec3,
    pList_leb, pBytes_lebBytes, Option.some_bind]

theorem pDatNpc_wDatNpc (n : DatNpc) (rest : List Nat) :
    pDatNpc (wDatNpc n ++ rest) = some (n, rest) := by
  simp only [wDatNpc, List.append_assoc]
  simp only [pDatNpc, Option.bind_eq_bind, pLeb_natToLeb, pVec3_wVec3,
    pBytes_lebBytes, Option.some_bind]

theorem pDatUnknown_wDatUnknown (u : DatUnknown) (rest : List Nat) :
    pDatUnknown (wDatUnknown u ++ rest) = some (u, rest) := by
  simp only [wDatUnknown, List.append_assoc]
  simp only [pDatUnknown, Option.bind_eq_bind, pLeb_natToLeb, pBytes_lebBytes,
    Option.some_bind]

theorem pList_objs (l : List DatObject) (rest : List Nat) :
    pList pDatObject (wList wDatObject l ++ rest) = some (l, rest) :=
  pList_wList wDatObject pDatObject pDatObject_wDatObject l rest

theorem pList_npcs (l : List DatNpc) (rest : List Nat) :
    pList pDatNpc (wList wDatNpc l ++ rest) = some (l, rest) :=
  pList_wList wDatNpc pDatNpc pDatNpc_wDatNpc l rest

theorem pList_unknowns (l : List DatUnknown) (rest : List Nat) :
    pList pDatUnknown (wList wDatUnknown l ++ rest) = some (l, rest) :=
  pList_wList wDatUnknown pDatUnknown pDatUnknown_wDatUnknown l rest

/-- The modelled DAT codec round-trips every `DatFile`. -/
theorem parse_dat_write_dat (df : DatFile) : parse_dat (write_dat df) = some df := by
  rw [show write_dat df = wList wDatObject df.objs ++ (wList wDatNpc df.npcs ++
    (wList wDatUnknown df.unknowns ++ [])) from by
      rw [write_dat, List.append_assoc, List.append_nil]]
  simp only [parse_dat, Option.bind_eq_bind, pList_objs, pList_npcs, pList_unknowns,
    Option.some_bind]
  rfl

theorem pOpcode_wOpcode (op : Opcode) (rest : List Nat) :
    pOpcode (wOpcode op ++ rest) = some (op, rest) := by
  cases op with
  | other code =>
    rw [wOpcode, Nat.add_comm 3 code, pOpcode, pLeb_natToLeb, Option.map_some']
  | SET_EPISODE => rw [wOpcode, pOpcode, pLeb_natToLeb, Option.map_some']
  | BB_MAP_DESIGNATE => rw [wOpcode, pOpcode, pLeb_natToLeb, Option.map_some']
  | RET => rw [wOpcode, pOpcode, pLeb_natToLeb, Option.map_some']

theorem pArg_wArg (a : Arg) (rest : List Nat) :
    pArg (wArg a ++ rest) = some (a, rest) := by
  simp only [wArg, List.append_assoc]
  simp only [pArg, Option.bind_eq_bind, pInt_intToLeb, pLeb_natToLeb,
    Option.some_bind]

theorem pList_args (l : List Arg) (rest : List Nat) :
    pList pArg (wList wArg l ++ rest) = some (l, rest) :=
  pList_wList wArg pArg pArg_wArg l rest

theorem pInstruction_wInstruction (i : Instruction) (rest : List Nat) :
    pInstruction (wInstruction i ++ rest) = some (i, rest) := by
  simp only [wInstruction, List.append_assoc]
  simp only [pInstruction, Option.bind_eq_bind, pOpcode_wOpcode, pList_args,
    Option.some_bind]

theorem pList_instructions (l : List Instruction) (rest : List Nat) :
    pList pInstruction (wList wInstruction l ++ rest) = some (l, rest) :=
  pList_wList wInstruction pInstruction pInstruction_wInstruction l rest

theorem pSegment_wSegment (s : Segment) (rest : List Nat) :
    pSegment (wSegment s ++ rest) = some (s, rest) := by
  cases s with
  | Instructions labels insts =>
    show pSegment (0 :: ((wList natToLeb labels ++ wList wInstruction insts) ++ rest)) =
      some (.Instructions labels insts, rest)
    rw [List.append_assoc]
    simp only [pSegment, Option.bind_eq_bind, pList_leb, pList_instructions,
      Option.some_bind]
  | Data labels data =>
    show pSegment (1 :: ((wList natToLeb labels ++ lebBytes data) ++ rest)) =
      some (.Data labels data, rest)
    rw [List.append_assoc]
    simp only [pSegment, Option.bind_eq_bind, pList_leb, pBytes_lebBytes,
      Option.some_bind]
  | String labels value =>
    show pSegment (2 :: ((wList natToLeb labels ++ lebBytes value) ++ rest)) =
      some (.String labels value, rest)
    rw [List.append_assoc]
    simp only [pSegment, Option.bind_eq_bind, pList_leb, pBytes_lebBytes,
      Option.some_bind]

theorem pList_segments (l : List Segment) (rest : List Nat) :
    pList pSegment (wList wSegment l ++ rest) = some (l, rest) :=
  pList_wList wSegment pSegment pSegment_wSegment l rest

theorem natToLeb_length_pos (n : Nat) : 0 < (natToLeb n).length := by
  rw [natToLeb]
  simp only [natToLebAux]
  by_cases h : n < 128
  · rw [if_pos h]; simp
  · rw [if_neg h]; simp

theorem write_dat_pos (df : DatFile) : 0 < (write_dat df).length := by
  rw [write_dat, wList]
  simp only [List.append_assoc, List.length_append]
  have := natToLeb_length_pos df.objs.length
  omega

theorem write_bin_pos (bf : BinFile) : 0 < (write_bin bf).length := by
  rw [write_bin, natToLeb]
  simp only [List.append_assoc, List.length_append]
  have := natToLeb_length_pos bf.quest_id
  rw [natToLeb] at this
  omega

theorem headerBytes_length (f : SimpleQstContainedFile) :
    (headerBytes f).length = 88 := by
  simp [headerBytes]

theorem writeChunksAux_nil (fuel : Nat) : writeChunksAux fuel [] = [] := by
  cases fuel with
  | zero => rfl
  | succ f => rfl

/-- A queued file whose whole payload fits one chunk emits exactly one chunk
and leaves the queue. -/
theorem writeChunksAux_single (fuel : Nat) (f : SimpleQstContainedFile)
    (rest : List (SimpleQstContainedFile × Nat × Nat)) (h : f.data.length ≤ 1024) :
    writeChunksAux (fuel + 1) ((f, 0, 0) :: rest) =
      (writeFileChunk f.data 0 0 f.name).1 ++ writeChunksAux fuel rest := by
  have hr : (writeFileChunk f.data 0 0 f.name).2 = false := by
    simp [writeFileChunk]
    omega
  have e : writeChunksAux (fuel + 1) ((f, 0, 0) :: rest) =
      if (writeFileChunk f.data 0 0 f.name).2 then
        (writeFileChunk f.data 0 0 f.name).1 ++
          writeChunksAux fuel (rest ++ [(f, 0 + 1024, 0 + 1)])
      else (writeFileChunk f.data 0 0 f.name).1 ++ writeChunksAux fuel rest := rfl
  rw [e, hr]
  simp

/-- Two single-chunk files produce exactly one chunk each, in order. -/
theorem writeFileChunks_two (f1 f2 : SimpleQstContainedFile)
    (h1 : f1.data.length ≤ 1024) (h2 : f2.data.length ≤ 1024) :
    writeFileChunks [f1, f2] = (writeFileChunk f1.data 0 0 f1.name).1 ++
      ((writeFileChunk f2.data 0 0 f2.name).1 ++ []) := by
  rw [writeFileChunks]
  rw [show ([f1, f2].map fun f => (f, (0 : Nat), (0 : Nat))) =
    [(f1, 0, 0), (f2, 0, 0)] from rfl]
  rw [show writeChunksMeasure [(f1, 0, 0), (f2, 0, 0)] =
    f1.data.length + f2.data.length + 1 + 1 from by
      simp [writeChunksMeasure]
      omega]
  rw [writeChunksAux_single (f1.data.length + f2.data.length + 1) f1 [(f2, 0, 0)] h1]
  rw [writeChunksAux_single (f1.data.length + f2.data.length) f2 [] h2]
  rw [writeChunksAux_nil]

/-- `writeQst` on two single-chunk members: headers then one chunk per
member, and the size check passes. -/
theorem writeQst_two (f1 f2 : SimpleQstContainedFile)
    (hn1 : f1.name.length ≤ 16) (h241 : (qstFileName2 f1).length ≤ 24)
    (hn2 : f2.name.length ≤ 16) (h242 : (qstFileName2 f2).length ≤ 24)
    (hd1 : 0 < f1.data.length) (hd1' : f1.data.length ≤ 1024)
    (hd2 : 0 < f2.data.length) (hd2' : f2.data.length ≤ 1024) :
    writeQst [f1, f2] = .ok (qstStreamOf f1 f2) := by
  have hw1 : writeFileHeader f1 = .ok (headerBytes f1) := by
    rw [writeFileHeader, if_neg (by omega), if_neg (by omega)]
  have hw2 : writeFileHeader f2 = .ok (headerBytes f2) := by
    rw [writeFileHeader, if_neg (by omega), if_neg (by omega)]
  have hh : writeFileHeaders [f1, f2] =
      .ok (headerBytes f1 ++ (headerBytes f2 ++ [])) := by
    rw [writeFileHeaders]
    simp only [List.mapM_cons, List.mapM_nil, hw1, hw2]
    rfl
  have hchunks := writeFileChunks_two f1 f2 hd1' hd2'
  have hlen : ((headerBytes f1 ++ (headerBytes f2 ++ [])) ++
      writeFileChunks [f1, f2]).length = 2288 := by
    rw [hchunks]
    simp [headerBytes_length, writeFileChunk_length]
  have htot : ([f1, f2].map fun f => 88 + (f.data.length + 1023) / 1024 * 1056).sum
      = 2288 := by
    simp
    omega
  rw [writeQst, if_neg (by simp : ¬([f1, f2].isEmpty = true)), hh]
  show (if ((headerBytes f1 ++ (headerBytes f2 ++ [])) ++
      writeFileChunks [f1, f2]).length ≠
      ([f1, f2].map fun f => 88 + (f.data.length + 1023) / 1024 * 1056).sum then
      Except.error (QstWriteError.sizeMismatch
        (([f1, f2].map fun f => 88 + (f.data.length + 1023) / 1024 * 1056).sum)
        ((headerBytes f1 ++ (headerBytes f2 ++ [])) ++
          writeFileChunks [f1, f2]).length)
    else Except.ok ((headerBytes f1 ++ (headerBytes f2 ++ [])) ++
      writeFileChunks [f1, f2])) = Except.ok (qstStreamOf f1 f2)
  rw [if_neg (by rw [hlen, htot]; omega), hchunks]
  rfl

theorem chunkRecordsAux_fuel : ∀ fuel fuel' : Nat, ∀ bytes : List Nat,
    bytes.length ≤ fuel → bytes.length ≤ fuel' →
    chunkRecordsAux fuel bytes = chunkRecordsAux fuel' bytes := by
  intro fuel
  induction fuel with
  | zero =>
    intro fuel' bytes h h'
    have hb : bytes = [] := List.length_eq_zero.mp (by omega)
    subst hb
    cases fuel' with
    | zero => rfl
    | succ f' => simp [chunkRecordsAux]
  | succ f ih =>
    intro fuel' bytes h h'
    cases fuel' with
    | zero =>
      have hb : bytes = [] := List.length_eq_zero.mp (by omega)
      subst hb
      simp [chunkRecordsAux]
    | succ f' =>
      simp only [chunkRecordsAux]
      by_cases hlt : bytes.length < 1056
      · rw [if_pos hlt, if_pos hlt]
      · rw [if_neg hlt, if_neg hlt,
          ih f' (bytes.drop 1056) (by simp; omega) (by simp; omega)]

theorem chunkRecords_nil : chunkRecords [] = [] := rfl

/-- Splitting one full 1056-byte record off the front of the chunk region. -/
theorem chunkRecords_append (c rest : List Nat) (hc : c.length = 1056) :
    chunkRecords (c ++ rest) = c :: chunkRecords rest := by
  rw [chunkRecords, chunkRecords]
  rw [show (c ++ rest).length = 1055 + rest.length + 1 from by simp [hc]; omega]
  simp only [chunkRecordsAux]
  rw [if_neg (by simp [hc] : ¬(c ++ rest).length < 1056)]
  rw [List.take_left' hc, List.drop_left' hc]
  rw [chunkRecordsAux_fuel (1055 + rest.length) rest.length rest (by omega) (le_refl _)]

/-- The emitted chunk record, reassociated around its 16-byte name field. -/
theorem writeFileChunk_eq (d : List Nat) (pos no : Nat) (name : List Nat) :
    (writeFileChunk d pos no name).1 =
      [28, 4, 19, 0, no % 256, 0, 0, 0] ++ (padAscii 16 name ++
        ((d.drop pos).take (min 1024 (d.length - pos)) ++
          (List.replicate (1024 - min 1024 (d.length - pos)) 0 ++
            (u32leBytes (min 1024 (d.length - pos)) ++ u32leBytes 0)))) := by
  simp [writeFileChunk, List.append_assoc]

theorem chunkNoOf_writeFileChunk (d : List Nat) (pos no : Nat) (name : List Nat) :
    chunkNoOf (writeFileChunk d pos no name).1 = no % 256 := rfl

theorem chunkNameOf_writeFileChunk (d : List Nat) (pos no : Nat) (name : List Nat)
    (hlen : name.length ≤ 16) (hclean : ∀ b ∈ name, 32 < b) :
    chunkNameOf (writeFileChunk d pos no name).1 = name := by
  rw [chunkNameOf, writeFileChunk_eq]
  exact stringAscii_padAscii [28, 4, 19, 0, no % 256, 0, 0, 0] _ name 16 hlen hclean

theorem chunkDeclaredSize_writeFileChunk (d : List Nat) (pos no : Nat)
    (name : List Nat) :
    chunkDeclaredSize (writeFileChunk d pos no name).1 =
      min 1024 (d.length - pos) := by
  have hshape : (writeFileChunk d pos no name).1 =
      ([28, 4, 19, 0, no % 256, 0, 0, 0] ++ (padAscii 16 name ++
        ((d.drop pos).take (min 1024 (d.length - pos)) ++
          List.replicate (1024 - min 1024 (d.length - pos)) 0))) ++
        (u32leBytes (min 1024 (d.length - pos)) ++ u32leBytes 0) := by
    simp [writeFileChunk, List.append_assoc]
  have hplen : ([28, 4, 19, 0, no % 256, 0, 0, 0] ++ (padAscii 16 name ++
      ((d.drop pos).take (min 1024 (d.length - pos)) ++
        List.replicate (1024 - min 1024 (d.length - pos)) 0))).length = 1048 := by
    simp
  rw [chunkDeclaredSize, hshape, show (1048 : Nat) =
    ([28, 4, 19, 0, no % 256, 0, 0, 0] ++ (padAscii 16 name ++
      ((d.drop pos).take (min 1024 (d.length - pos)) ++
        List.replicate (1024 - min 1024 (d.length - pos)) 0))).length from hplen.symm]
  exact u32le_at _ _ _ (by omega)

/-- For a single-chunk payload the chunk's clamped data is the payload. -/
theorem chunkDataOf_writeFileChunk (d : List Nat) (no : Nat) (name : List Nat)
    (hd : d.length ≤ 1024) :
    chunkDataOf (writeFileChunk d 0 no name).1 = d := by
  have hshape : (writeFileChunk d 0 no name).1 =
      ([28, 4, 19, 0, no % 256, 0, 0, 0] ++ padAscii 16 name) ++
        (d.take (min 1024 d.length) ++
          (List.replicate (1024 - min 1024 d.length) 0 ++
            (u32leBytes (min 1024 d.length) ++ u32leBytes 0))) := by
    simp [writeFileChunk, List.append_assoc]
  have hplen : (([28, 4, 19, 0, no % 256, 0, 0, 0] : List Nat) ++
      padAscii 16 name).length = 24 := by
    simp
  rw [chunkDataOf, chunkSizeOf, chunkDeclaredSize_writeFileChunk, hshape,
    show (24 : Nat) = (([28, 4, 19, 0, no % 256, 0, 0, 0] : List Nat) ++
      padAscii 16 name).length from hplen.symm, List.drop_left,
    show min 1024 d.length = d.length from by omega, List.take_length,
    show min (min 1024 (d.length - 0)) 1024 = d.length from by omega,
    List.take_left]

/-- Reading back a payload written into a fresh zero buffer. -/
theorem writeAt_zero_payload (d : List Nat) :
    (List.range d.length).map (writeAt (fun _ => 0) 0 d) = d := by
  apply List.ext_getElem
  · simp
  · intro i h1 h2
    simp only [List.getElem_map, List.getElem_range]
    show (if 0 ≤ i ∧ i < 0 + d.length then d.getD (i - 0) 0 else 0) = d[i]
    rw [if_pos ⟨Nat.zero_le i, by omega⟩, Nat.sub_zero,
      List.getD_eq_getElem d 0 h2]

/-- The first header record of `qstStreamOf`. -/
theorem qstStream_headerAt0 (qid : Nat) (d1 d2 : List Nat) (hqid : qid < 65536)
    (hd1' : d1.length ≤ 1024) :
    parseHeaderAt (qstStreamOf (qstFile1 qid d1) (qstFile2 qid d2)) 0 =
      ⟨qid, qdatName, qdatJName, d1.length⟩ := by
  have hstream : qstStreamOf (qstFile1 qid d1) (qstFile2 qid d2) =
      headerBytes (qstFile1 qid d1) ++ ((headerBytes (qstFile2 qid d2) ++ []) ++
        ((writeFileChunk (qstFile1 qid d1).data 0 0 (qstFile1 qid d1).name).1 ++
          ((writeFileChunk (qstFile2 qid d2).data 0 0 (qstFile2 qid d2).name).1 ++ []))) := by
    rw [qstStreamOf, List.append_assoc]
  obtain ⟨e1, e2, e3, e4⟩ := header_fields_at []
    ((headerBytes (qstFile2 qid d2) ++ []) ++
      ((writeFileChunk (qstFile1 qid d1).data 0 0 (qstFile1 qid d1).name).1 ++
        ((writeFileChunk (qstFile2 qid d2).data 0 0 (qstFile2 qid d2).name).1 ++ [])))
    (qstFile1 qid d1) (show qdatName.length ≤ 16 by decide)
    (show ∀ b ∈ qdatName, 32 < b by decide)
    (show qdatJName.length ≤ 24 by decide)
    (show ∀ b ∈ qdatJName, 32 < b by decide) hqid
    (show d1.length < 2 ^ 32 by omega)
  simp only [List.length_nil, Nat.zero_add, List.nil_append] at e1 e2 e3 e4
  rw [parseHeaderAt, hstream]
  simp only [Nat.zero_add]
  rw [e1, e2, e3, e4]
  rfl

/-- The second header record of `qstStreamOf`. -/
theorem qstStream_headerAt88 (qid : Nat) (d1 d2 : List Nat) (hqid : qid < 65536)
    (hd2' : d2.length ≤ 1024) :
    parseHeaderAt (qstStreamOf (qstFile1 qid d1) (qstFile2 qid d2)) 88 =
      ⟨qid, qbinName, qbinJName, d2.length⟩ := by
  have hstream : qstStreamOf (qstFile1 qid d1) (qstFile2 qid d2) =
      headerBytes (qstFile1 qid d1) ++ (headerBytes (qstFile2 qid d2) ++ ([] ++
        ((writeFileChunk (qstFile1 qid d1).data 0 0 (qstFile1 qid d1).name).1 ++
          ((writeFileChunk (qstFile2 qid d2).data 0 0 (qstFile2 qid d2).name).1 ++ [])))) := by
    rw [qstStreamOf, List.append_assoc, List.append_assoc]
  obtain ⟨e1, e2, e3, e4⟩ := header_fields_at (headerBytes (qstFile1 qid d1))
    ([] ++ ((writeFileChunk (qstFile1 qid d1).data 0 0 (qstFile1 qid d1).name).1 ++
      ((writeFileChunk (qstFile2 qid d2).data 0 0 (qstFile2 qid d2).name).1 ++ [])))
    (qstFile2 qid d2) (show qbinName.length ≤ 16 by decide)
    (show ∀ b ∈ qbinName, 32 < b by decide)
    (show qbinJName.length ≤ 24 by decide)
    (show ∀ b ∈ qbinJName, 32 < b by decide) hqid
    (show d2.length < 2 ^ 32 by omega)
  rw [headerBytes_length] at e1 e2 e3 e4
  rw [parseHeaderAt, hstream]
  rw [e1, e2, e3, e4]
  rfl

theorem qstStream_headers (qid : Nat) (d1 d2 : List Nat) (hqid : qid < 65536)
    (hd1' : d1.length ≤ 1024) (hd2' : d2.length ≤ 1024) :
    parseHeaders (qstStreamOf (qstFile1 qid d1) (qstFile2 qid d2)) =
      [⟨qid, qdatName, qdatJName, d1.length⟩, ⟨qid, qbinName, qbinJName, d2.length⟩] := by
  rw [parseHeaders, qstStream_headerAt0 qid d1 d2 hqid hd1',
    qstStream_headerAt88 qid d1 d2 hqid hd2']

/-- Everything after the two headers is the chunk region. -/
theorem qstStream_drop176 (qid : Nat) (d1 d2 : List Nat) :
    (qstStreamOf (qstFile1 qid d1) (qstFile2 qid d2)).drop 176 =
      (writeFileChunk d1 0 0 qdatName).1 ++ ((writeFileChunk d2 0 0 qbinName).1 ++ []) := by
  rw [qstStreamOf,
    show (176 : Nat) = (headerBytes (qstFile1 qid d1) ++
      (headerBytes (qstFile2 qid d2) ++ [])).length from by
        simp [headerBytes_length],
    List.drop_left]
  rfl

/-- The chunk region splits into its two 1056-byte records. -/
theorem qstStream_records (d1 d2 : List Nat) :
    chunkRecords ((writeFileChunk d1 0 0 qdatName).1 ++
      ((writeFileChunk d2 0 0 qbinName).1 ++ [])) =
      [(writeFileChunk d1 0 0 qdatName).1, (writeFileChunk d2 0 0 qbinName).1] := by
  rw [chunkRecords_append _ _ (writeFileChunk_length d1 0 0 qdatName),
    chunkRecords_append _ _ (writeFileChunk_length d2 0 0 qbinName)]
  rfl

theorem fileState_mk_congr {a a' : Option Nat} {b b' : Nat → Nat} {c c' : Nat}
    {e e' : List Nat} (h1 : a = a') (h2 : b = b') (h3 : c = c') (h4 : e = e') :
    FileState.mk a b c e = FileState.mk a' b' c' e' := by
  rw [h1, h2, h3, h4]

theorem pfState_mk_congr {a a' : List Nat → Option FileState} {b b' : List (List Nat)}
    {c c' : List LogEntry} (h1 : a = a') (h2 : b = b') (h3 : c = c') :
    PFState.mk a b c = PFState.mk a' b' c' := by
  rw [h1, h2, h3]

/-- The buffer built from the dat chunk. -/
theorem qstStream_updateFile1 (d1 d2 : List Nat) (hd1' : d1.length ≤ 1024) :
    pfUpdateFile [(qbinName, d2.length), (qdatName, d1.length)] pfInit
      (writeFileChunk d1 0 0 qdatName).1 = qstFileState d1 := by
  have hname1 : chunkNameOf (writeFileChunk d1 0 0 qdatName).1 = qdatName :=
    chunkNameOf_writeFileChunk d1 0 0 qdatName (by decide) (by decide)
  have hno1 : chunkNoOf (writeFileChunk d1 0 0 qdatName).1 = 0 := rfl
  have hdata1 : chunkDataOf (writeFileChunk d1 0 0 qdatName).1 = d1 :=
    chunkDataOf_writeFileChunk d1 0 qdatName hd1'
  have hsz1 : chunkSizeOf (writeFileChunk d1 0 0 qdatName).1 = d1.length := by
    rw [chunkSizeOf, chunkDeclaredSize_writeFileChunk]
    omega
  simp only [pfUpdateFile, qstFileState]
  refine fileState_mk_congr ?_ ?_ ?_ ?_
  · rw [hname1]
    rfl
  · rw [hname1, hno1, hdata1]
    rfl
  · rw [hname1, hno1, hsz1]
    show max (0 * 1024 + d1.length) 0 = d1.length
    omega
  · rw [hname1, hno1]
    rfl

/-- The buffer built from the bin chunk (on top of the dat-file state). -/
theorem qstStream_updateFile2 (d1 d2 : List Nat) (hd2' : d2.length ≤ 1024) :
    pfUpdateFile [(qbinName, d2.length), (qdatName, d1.length)]
      ⟨fun n => if n = qdatName then some (qstFileState d1) else none, [qdatName], []⟩
      (writeFileChunk d2 0 0 qbinName).1 = qstFileState d2 := by
  have hname2 : chunkNameOf (writeFileChunk d2 0 0 qbinName).1 = qbinName :=
    chunkNameOf_writeFileChunk d2 0 0 qbinName (by decide) (by decide)
  have hno2 : chunkNoOf (writeFileChunk d2 0 0 qbinName).1 = 0 := rfl
  have hdata2 : chunkDataOf (writeFileChunk d2 0 0 qbinName).1 = d2 :=
    chunkDataOf_writeFileChunk d2 0 qbinName hd2'
  have hsz2 : chunkSizeOf (writeFileChunk d2 0 0 qbinName).1 = d2.length := by
    rw [chunkSizeOf, chunkDeclaredSize_writeFileChunk]
    omega
  simp only [pfUpdateFile, qstFileState]
  refine fileState_mk_congr ?_ ?_ ?_ ?_
  · rw [hname2]
    rfl
  · rw [hname2, hno2, hdata2]
    rfl
  · rw [hname2, hno2, hsz2]
    show max (0 * 1024 + d2.length) 0 = d2.length
    omega
  · rw [hname2, hno2]
    rfl

/-- The `parseFiles` loop state after the dat chunk. -/
theorem qstStream_step1 (d1 d2 : List Nat) (hd1' : d1.length ≤ 1024) :
    pfStep [(qbinName, d2.length), (qdatName, d1.length)] pfInit
      (writeFileChunk d1 0 0 qdatName).1 =
      ⟨fun n => if n = qdatName then some (qstFileState d1) else none,
       [qdatName], []⟩ := by
  have hname1 : chunkNameOf (writeFileChunk d1 0 0 qdatName).1 = qdatName :=
    chunkNameOf_writeFileChunk d1 0 0 qdatName (by decide) (by decide)
  have hds1 : chunkDeclaredSize (writeFileChunk d1 0 0 qdatName).1 = d1.length := by
    rw [chunkDeclaredSize_writeFileChunk]
    omega
  simp only [pfStep]
  refine pfState_mk_congr ?_ ?_ ?_
  · funext n
    rw [hname1, qstStream_updateFile1 d1 d2 hd1']
    rfl
  · rw [hname1]
    rfl
  · rw [hds1, if_neg (by omega : ¬d1.length > 1024)]
    rfl

/-- The `parseFiles` loop state after both chunks. -/
theorem qstStream_step2 (d1 d2 : List Nat) (hd2' : d2.length ≤ 1024) :
    pfStep [(qbinName, d2.length), (qdatName, d1.length)]
      ⟨fun n => if n = qdatName then some (qstFileState d1) else none, [qdatName], []⟩
      (writeFileChunk d2 0 0 qbinName).1 = qstPFState d1 d2 := by
  have hname2 : chunkNameOf (writeFileChunk d2 0 0 qbinName).1 = qbinName :=
    chunkNameOf_writeFileChunk d2 0 0 qbinName (by decide) (by decide)
  have hds2 : chunkDeclaredSize (writeFileChunk d2 0 0 qbinName).1 = d2.length := by
    rw [chunkDeclaredSize_writeFileChunk]
    omega
  simp only [pfStep, qstPFState]
  refine pfState_mk_congr ?_ ?_ ?_
  · funext n
    rw [hname2, qstStream_updateFile2 d1 d2 hd2']
  · rw [hname2]
    rfl
  · rw [hds2, if_neg (by omega : ¬d2.length > 1024)]
    rfl

/-- No final warnings: both buffers carry their full declared size and their
single chunk 0. -/
theorem qstStream_finalWarnings (d1 d2 : List Nat)
    (hd1 : 0 < d1.length) (hd1' : d1.length ≤ 1024)
    (hd2 : 0 < d2.length) (hd2' : d2.length ≤ 1024) :
    pfFinalWarnings (qstPFState d1 d2) = [] := by
  have hw : ∀ (n d : List Nat), 0 < d.length → d.length ≤ 1024 →
      pfFileWarnings n (qstFileState d) = [] := by
    intro n d hd hd'
    rw [pfFileWarnings]
    rw [show (qstFileState d).expectedSize = some d.length from rfl,
      show (qstFileState d).size = d.length from rfl,
      show (qstFileState d).chunkNos = [0] from rfl]
    rw [show (max d.length ((some d.length).getD 0) + 1023) / 1024 = 1 from by
      rw [Option.getD_some]
      omega]
    simp
  rw [pfFinalWarnings]
  rw [show (qstPFState d1 d2).order = [qdatName, qbinName] from rfl]
  rw [List.flatMap_cons, List.flatMap_cons, List.flatMap_nil]
  rw [show ((match (qstPFState d1 d2).lookup qdatName with
      | some f => pfFileWarnings qdatName f
      | none => []) : List LogEntry) = pfFileWarnings qdatName (qstFileState d1)
    from rfl]
  rw [show ((match (qstPFState d1 d2).lookup qbinName with
      | some f => pfFileWarnings qbinName f
      | none => []) : List LogEntry) = pfFileWarnings qbinName (qstFileState d2)
    from rfl]
  rw [hw qdatName d1 hd1 hd1', hw qbinName d2 hd2 hd2']
  rfl

/-- The whole `parseFiles` pass over the chunk region of `qstStreamOf`. -/
theorem qstStream_parseFiles (d1 d2 : List Nat)
    (hd1 : 0 < d1.length) (hd1' : d1.length ≤ 1024)
    (hd2 : 0 < d2.length) (hd2' : d2.length ≤ 1024) :
    parseFiles [(qbinName, d2.length), (qdatName, d1.length)]
      ((writeFileChunk d1 0 0 qdatName).1 ++
        ((writeFileChunk d2 0 0 qbinName).1 ++ [])) = qstPFState d1 d2 := by
  have hlen : ((writeFileChunk d1 0 0 qdatName).1 ++
      ((writeFileChunk d2 0 0 qbinName).1 ++ [])).length = 2112 := by
    simp [writeFileChunk_length]
  have hcore : parseFilesCore [(qbinName, d2.length), (qdatName, d1.length)]
      [(writeFileChunk d1 0 0 qdatName).1, (writeFileChunk d2 0 0 qbinName).1] =
      qstPFState d1 d2 := by
    rw [show parseFilesCore [(qbinName, d2.length), (qdatName, d1.length)]
      [(writeFileChunk d1 0 0 qdatName).1, (writeFileChunk d2 0 0 qbinName).1] =
      pfStep [(qbinName, d2.length), (qdatName, d1.length)]
        (pfStep [(qbinName, d2.length), (qdatName, d1.length)] pfInit
          (writeFileChunk d1 0 0 qdatName).1)
        (writeFileChunk d2 0 0 qbinName).1 from rfl]
    rw [qstStream_step1 d1 d2 hd1', qstStream_step2 d1 d2 hd2']
  simp only [parseFiles, qstStream_records, hcore, hlen]
  rw [if_neg (by omega)]
  rw [qstStream_finalWarnings d1 d2 hd1 hd1' hd2 hd2']
  rfl

/-- What `parse_qst` recovers from the two-member stream: both payloads
byte-for-byte, names and metadata from the headers, no warnings. -/
theorem parse_qst_qstStream (qid : Nat) (d1 d2 : List Nat) (hqid : qid < 65536)
    (hd1 : 0 < d1.length) (hd1' : d1.length ≤ 1024)
    (hd2 : 0 < d2.length) (hd2' : d2.length ≤ 1024) :
    parse_qst (qstStreamOf (qstFile1 qid d1) (qstFile2 qid d2)) =
      some ⟨[⟨qdatName, some qdatJName, some qid, some d1.length, d1⟩,
             ⟨qbinName, some qbinJName, some qid, some d2.length, d2⟩], []⟩ := by
  have hmain : parse_qst (qstStreamOf (qstFile1 qid d1) (qstFile2 qid d2)) =
      some ⟨(parseFiles
          (((parseHeaders (qstStreamOf (qstFile1 qid d1) (qstFile2 qid d2))).map
            fun h => (h.fileName, h.size)).reverse)
          ((qstStreamOf (qstFile1 qid d1) (qstFile2 qid d2)).drop 176)).order.map
        (qstEntry (parseHeaders (qstStreamOf (qstFile1 qid d1) (qstFile2 qid d2)))
          (parseFiles
            (((parseHeaders (qstStreamOf (qstFile1 qid d1) (qstFile2 qid d2))).map
              fun h => (h.fileName, h.size)).reverse)
            ((qstStreamOf (qstFile1 qid d1) (qstFile2 qid d2)).drop 176))),
        (parseFiles
          (((parseHeaders (qstStreamOf (qstFile1 qid d1) (qstFile2 qid d2))).map
            fun h => (h.fileName, h.size)).reverse)
          ((qstStreamOf (qstFile1 qid d1) (qstFile2 qid d2)).drop 176)).warnings⟩ := rfl
  rw [hmain, qstStream_headers qid d1 d2 hqid hd1' hd2']
  rw [show (([⟨qid, qdatName, qdatJName, d1.length⟩,
      ⟨qid, qbinName, qbinJName, d2.length⟩] : List QstHeader).map
      fun h => (h.fileName, h.size)).reverse =
      [(qbinName, d2.length), (qdatName, d1.length)] from rfl]
  rw [qstStream_drop176 qid d1 d2]
  rw [qstStream_parseFiles d1 d2 hd1 hd1' hd2 hd2']
  have hpay1 : pfPayload (qstPFState d1 d2) qdatName = d1 := by
    rw [pfPayload,
      show (qstPFState d1 d2).lookup qdatName = some (qstFileState d1) from rfl]
    exact writeAt_zero_payload d1
  have hpay2 : pfPayload (qstPFState d1 d2) qbinName = d2 := by
    rw [pfPayload,
      show (qstPFState d1 d2).lookup qbinName = some (qstFileState d2) from rfl]
    exact writeAt_zero_payload d2
  have hent1 : qstEntry [⟨qid, qdatName, qdatJName, d1.length⟩,
      ⟨qid, qbinName, qbinJName, d2.length⟩] (qstPFState d1 d2) qdatName =
      ⟨qdatName, some qdatJName, some qid, some d1.length, d1⟩ := by
    simp only [qstEntry]
    rw [hpay1]
    rfl
  have hent2 : qstEntry [⟨qid, qdatName, qdatJName, d1.length⟩,
      ⟨qid, qbinName, qbinJName, d2.length⟩] (qstPFState d1 d2) qbinName =
      ⟨qbinName, some qbinJName, some qid, some d2.length, d2⟩ := by
    simp only [qstEntry]
    rw [hpay2]
    rfl
  rw [show (qstPFState d1 d2).order = [qdatName, qbinName] from rfl]
  rw [List.map_cons, List.map_cons, List.map_nil, hent1, hent2]
  rfl

/-- The modelled BIN codec round-trips every `BinFile` (the entry points
and the lenient flag do not affect the result). -/
theorem parse_bin_write_bin (bf : BinFile) (eps : List Nat) (lenient : Bool) :
    parse_bin (write_bin bf) eps lenient = some bf := by
  rw [show write_bin bf = natToLeb bf.quest_id ++ (natToLeb bf.language ++
    (lebBytes bf.quest_name ++ (lebBytes bf.short_description ++
      (lebBytes bf.long_description ++ (wList natToLeb bf.shop_items ++
        (wList wSegment bf.object_code ++ [])))))) from by
      rw [write_bin]
      simp only [List.append_assoc, List.append_nil]]
  simp only [parse_bin, Option.bind_eq_bind, pLeb_natToLeb, pBytes_lebBytes,
    pList_leb, pList_segments, Option.some_bind]
  rfl

/-- `parse_quest` on the container of an encoded dat/bin pair: the
serializer round trips make every quest component a function of the encoded
`DatFile`/`BinFile`. -/
theorem parse_quest_roundtrip_core (qid : Nat) (df : DatFile) (bf : BinFile)
    (hqid : qid < 65536)
    (hdat : (write_dat df).length ≤ 1024)
    (hbin : (write_bin bf).length ≤ 1024)
    (ep : Nat) (md : List (Int × Int)) (logs : List LogEntry)
    (hep : episode_extraction bf.object_code = some (ep, md, logs)) :
    parse_quest (qstStreamOf (qstFile1 qid (write_dat df))
      (qstFile2 qid (write_bin bf))) =
      some ⟨bf.quest_id, bf.language, bf.quest_name, bf.short_description,
        bf.long_description, ep, parse_obj_data df.objs, parse_npc_data ep df.npcs,
        df.unknowns, bf.object_code, bf.shop_items, md⟩ := by
  simp only [parse_quest, Option.bind_eq_bind]
  rw [parse_qst_qstStream qid (write_dat df) (write_bin bf) hqid (write_dat_pos df)
    hdat (write_bin_pos bf) hbin]
  simp only [Option.some_bind]
  show Option.bind (parse_dat (write_dat df)) _ = _
  rw [parse_dat_write_dat df]
  simp only [Option.some_bind]
  show Option.bind (parse_bin (write_bin bf)
    (extract_script_entry_points (parse_obj_data df.objs) df.npcs) false) _ = _
  rw [parse_bin_write_bin]
  simp only [Option.some_bind]
  show Option.bind (episode_extraction bf.object_code) _ = _
  rw [hep]
  simp only [Option.some_bind]

theorem qstFileName2_qstFile1 (qid : Nat) (d : List Nat) :
    qstFileName2 (qstFile1 qid d) = qdatJName := rfl

theorem qstFileName2_qstFile2 (qid : Nat) (d : List Nat) :
    qstFileName2 (qstFile2 qid d) = qbinJName := rfl

/-- `write_quest_qst` on archive name `q.qst` emits exactly the two-member
container stream of the encoded entities and bytecode. -/
theorem write_quest_qst_eq (q : Quest) (npcsDat : List DatNpc)
    (hnpc : npcs_to_dat_data q.npcs = .ok npcsDat)
    (hdat : (write_dat ⟨objects_to_dat_data q.objects, npcsDat,
      q.dat_unknowns⟩).length ≤ 1024)
    (hbin : (write_bin ⟨q.id, q.language, q.name, q.short_description,
      q.long_description, q.object_code, q.shop_items⟩).length ≤ 1024) :
    write_quest_qst q c1QstName =
      .ok (qstStreamOf
        (qstFile1 q.id (write_dat ⟨objects_to_dat_data q.objects, npcsDat,
          q.dat_unknowns⟩))
        (qstFile2 q.id (write_bin ⟨q.id, q.language, q.name, q.short_description,
          q.long_description, q.object_code, q.shop_items⟩))) := by
  simp only [write_quest_qst, hnpc]
  show (writeQst [qstFile1 q.id (write_dat ⟨objects_to_dat_data q.objects, npcsDat,
      q.dat_unknowns⟩),
    qstFile2 q.id (write_bin ⟨q.id, q.language, q.name, q.short_description,
      q.long_description, q.object_code, q.shop_items⟩)]).mapError
    WriteQuestError.qst = _
  rw [writeQst_two
    (qstFile1 q.id (write_dat ⟨objects_to_dat_data q.objects, npcsDat,
      q.dat_unknowns⟩))
    (qstFile2 q.id (write_bin ⟨q.id, q.language, q.name, q.short_description,
      q.long_description, q.object_code, q.shop_items⟩))
    (show qdatName.length ≤ 16 by decide)
    (by rw [qstFileName2_qstFile1]; decide)
    (show qbinName.length ≤ 16 by decide)
    (by rw [qstFileName2_qstFile2]; decide)
    (write_dat_pos _) hdat (write_bin_pos _) hbin]
  rfl

/-- **C1, counterexample**: a quest decoded from a QST stream whose Gobooma
NPC carries raw roaming value 4 re-encodes with the table roaming value 1
(and bit 23 of `scale.y` cleared), so the re-decoded quest's NPC list
differs from the original: the round trip is not the identity on NPCs. -/
theorem c1_roundtrip_counterexample :
    parse_quest c1Stream0 = some c1q0 ∧
    (write_quest_qst c1q0 c1QstName).map parse_quest = .ok (some c1q1) ∧
    c1q1.npcs ≠ c1q0.npcs := by
  refine ⟨?_, ?_, by decide⟩
  · simp only [c1Stream0]
    rw [parse_quest_roundtrip_core 7 c1df0 c1bf0 (by decide) (by decide) (by decide)
      1 [] [⟨.debug, .noSetEpisode⟩] (by decide)]
    decide
  · rw [write_quest_qst_eq c1q0 c1NpcsDat rfl (by decide) (by decide)]
    show Except.ok (parse_quest (qstStreamOf
      (qstFile1 c1q0.id (write_dat ⟨objects_to_dat_data c1q0.objects, c1NpcsDat,
        c1q0.dat_unknowns⟩))
      (qstFile2 c1q0.id (write_bin ⟨c1q0.id, c1q0.language, c1q0.name,
        c1q0.short_description, c1q0.long_description, c1q0.object_code,
        c1q0.shop_items⟩)))) = _
    rw [parse_quest_roundtrip_core c1q0.id
      ⟨objects_to_dat_data c1q0.objects, c1NpcsDat, c1q0.dat_unknowns⟩
      ⟨c1q0.id, c1q0.language, c1q0.name, c1q0.short_description,
        c1q0.long_description, c1q0.object_code, c1q0.shop_items⟩
      (by decide) (by decide) (by decide)
      1 [] [⟨.debug, .noSetEpisode⟩] (by decide)]
    rfl

/-! ### General round trip: byte-list index helpers -/

theorem getD_take : ∀ (l : List Nat) (m j : Nat), j < m →
    (l.take m).getD j 0 = l.getD j 0 := by
  intro l
  induction l with
  | nil => intro m j h; simp
  | cons a t ih =>
    intro m j h
    cases m with
    | zero => omega
    | succ m2 =>
      rw [List.take_succ_cons]
      cases j with
      | zero => rfl
      | succ j2 =>
        show (t.take m2).getD j2 0 = t.getD j2 0
        exact ih m2 j2 (by omega)

theorem getD_drop : ∀ (l : List Nat) (a j : Nat),
    (l.drop a).getD j 0 = l.getD (a + j) 0 := by
  intro l
  induction l with
  | nil => intro a j; simp
  | cons x t ih =>
    intro a j
    cases a with
    | zero => rw [List.drop_zero, Nat.zero_add]
    | succ a2 =>
      rw [List.drop_succ_cons, ih a2 j, show a2 + 1 + j = a2 + j + 1 from by omega]
      rfl

theorem getD_zero_of_le : ∀ (l : List Nat) (j : Nat), l.length ≤ j →
    l.getD j 0 = 0 := by
  intro l
  induction l with
  | nil => intro j _; rfl
  | cons x t ih =>
    intro j h
    cases j with
    | zero => simp at h
    | succ j2 =>
      show t.getD j2 0 = 0
      exact ih j2 (by simp at h; omega)

/-- `toLowerCase` does nothing to a name without upper-case letters. -/
theorem lowerBytes_eq_self (s : List Nat) (h : ∀ b ∈ s, ¬(65 ≤ b ∧ b ≤ 90)) :
    lowerBytes s = s := by
  induction s with
  | nil => rfl
  | cons a t ih =>
    rw [lowerBytes, List.map_cons, if_neg (h a (List.mem_cons_self a t))]
    rw [show List.map (fun b => if 65 ≤ b ∧ b ≤ 90 then b + 32 else b) t =
      lowerBytes t from rfl, ih (fun b hb => h b (List.mem_cons_of_mem a hb))]

theorem isSuffixOf_append_self (l p : List Nat) : l.isSuffixOf (p ++ l) = true := by
  simp only [List.isSuffixOf]
  rw [List.isPrefixOf_iff_prefix, List.reverse_append]
  exact List.prefix_append _ _

/-- A length-matched, different tail is not a suffix. -/
theorem not_isSuffixOf_of_ne_tail (x y base : List Nat) (hlen : x.length = y.length)
    (hne : x ≠ y) : ¬x.isSuffixOf (base ++ y) = true := by
  simp only [List.isSuffixOf]
  rw [List.isPrefixOf_iff_prefix, List.reverse_append]
  intro h
  obtain ⟨t, ht⟩ := h
  have hx : x.reverse = y.reverse :=
    List.append_inj_left ht (by simp [hlen])
  exact hne (List.reverse_injective hx)

/-- The last `.` of `base ++ ".dat"` is the one in `.dat`. -/
theorem lastIndexOf_dotDat (base : List Nat) :
    lastIndexOf (base ++ dotDat) 46 = some base.length := by
  rw [lastIndexOf, List.enum_append, List.filter_append, List.map_append]
  rw [show List.map (fun p => p.1) (List.filter (fun p => decide (p.2 = 46))
    (List.enumFrom base.length dotDat)) = [base.length] from rfl]
  exact List.getLast?_concat _

theorem lastIndexOf_dotBin (base : List Nat) :
    lastIndexOf (base ++ dotBin) 46 = some base.length := by
  rw [lastIndexOf, List.enum_append, List.filter_append, List.map_append]
  rw [show List.map (fun p => p.1) (List.filter (fun p => decide (p.2 = 46))
    (List.enumFrom base.length dotBin)) = [base.length] from rfl]
  exact List.getLast?_concat _

/-- The derived secondary name of a `.dat` member: `_j` inserted before the
extension. -/
theorem qstFileName2_base_dat (f : SimpleQstContainedFile) (base : List Nat)
    (h2 : f.name2 = none) (hn : f.name = base ++ dotDat) :
    qstFileName2 f = base ++ ([95, 106] ++ dotDat) := by
  simp only [qstFileName2, h2, hn, lastIndexOf_dotDat, List.take_left,
    List.drop_left, List.append_assoc]

theorem qstFileName2_base_bin (f : SimpleQstContainedFile) (base : List Nat)
    (h2 : f.name2 = none) (hn : f.name = base ++ dotBin) :
    qstFileName2 f = base ++ ([95, 106] ++ dotBin) := by
  simp only [qstFileName2, h2, hn, lastIndexOf_dotBin, List.take_left,
    List.drop_left, List.append_assoc]

theorem questBaseName_length_le (file_name : List Nat) :
    (questBaseName file_name).length ≤ 11 := by
  rw [questBaseName]
  cases lastIndexOf file_name 46 with
  | none => simp only [List.length_take]; omega
  | some e => simp only [List.length_take]; omega

/-! ### General round trip: chunk arithmetic -/

theorem chunkCount_eq_of_pos (r : Nat) (h : 0 < r) :
    chunkCount r = (r + 1023) / 1024 := by
  rw [chunkCount, if_neg (by omega)]

theorem chunkCount_succ_of_lt (r : Nat) (h : 1024 < r) :
    chunkCount r = chunkCount (r - 1024) + 1 := by
  rw [chunkCount_eq_of_pos r (by omega), chunkCount_eq_of_pos (r - 1024) (by omega)]
  omega

theorem chunkCount_eq_one (r : Nat) (h : r ≤ 1024) : chunkCount r = 1 := by
  rw [chunkCount]
  by_cases h0 : r = 0
  · rw [if_pos h0]
  · rw [if_neg h0]
    omega

theorem min_chunkCount (len : Nat) : min (1024 * chunkCount len) len = len := by
  rw [chunkCount]
  by_cases h0 : len = 0
  · subst h0
    simp
  · rw [if_neg h0]
    omega

theorem chunkCount_le_256 (len : Nat) (h : len ≤ 262144) : chunkCount len ≤ 256 := by
  rw [chunkCount]
  by_cases h0 : len = 0
  · rw [if_pos h0]
    omega
  · rw [if_neg h0]
    omega

/-- The clamped chunk data at a general position. -/
theorem chunkDataOf_writeFileChunk_pos (d : List Nat) (pos no : Nat)
    (name : List Nat) :
    chunkDataOf (writeFileChunk d pos no name).1 =
      (d.drop pos).take (min 1024 (d.length - pos)) := by
  have hshape : (writeFileChunk d pos no name).1 =
      ([28, 4, 19, 0, no % 256, 0, 0, 0] ++ padAscii 16 name) ++
        ((d.drop pos).take (min 1024 (d.length - pos)) ++
          (List.replicate (1024 - min 1024 (d.length - pos)) 0 ++
            (u32leBytes (min 1024 (d.length - pos)) ++ u32leBytes 0))) := by
    simp [writeFileChunk, List.append_assoc]
  have hplen : (([28, 4, 19, 0, no % 256, 0, 0, 0] : List Nat) ++
      padAscii 16 name).length = 24 := by
    simp
  rw [chunkDataOf, chunkSizeOf, chunkDeclaredSize_writeFileChunk, hshape,
    show (24 : Nat) = (([28, 4, 19, 0, no % 256, 0, 0, 0] : List Nat) ++
      padAscii 16 name).length from hplen.symm, List.drop_left,
    show min (min 1024 (d.length - pos)) 1024 = min 1024 (d.length - pos) from by
      omega,
    List.take_left' (by
      simp only [List.length_take, List.length_drop]
      omega)]

theorem chunkKey_writeFileChunk (d : List Nat) (pos no : Nat) (name : List Nat)
    (hlen : name.length ≤ 16) (hclean : ∀ b ∈ name, 32 < b) :
    chunkKey (writeFileChunk d pos no name).1 = (name, no % 256) := by
  rw [chunkKey, chunkNameOf_writeFileChunk d pos no name hlen hclean,
    chunkNoOf_writeFileChunk]

theorem lookupEquiv_bind_expectedSize : ∀ {o1 o2 : Option FileState},
    lookupEquiv o1 o2 →
    o1.bind (fun f => f.expectedSize) = o2.bind (fun f => f.expectedSize) := by
  intro o1 o2 h
  match o1, o2, h with
  | none, none, _ => rfl
  | some f, some g, h => exact show f.expectedSize = g.expectedSize from h.1
  | none, some _, h => exact h.elim
  | some _, none, h => exact h.elim

/-! ### General round trip: the round-robin writer's records -/

/-- Splitting the writer's byte stream back into 1056-byte records recovers
exactly the chunk records it emitted, in emission order. -/
theorem chunkRecords_writeChunksAux : ∀ (fuel : Nat)
    (queue : List (SimpleQstContainedFile × Nat × Nat)),
    chunkRecords (writeChunksAux fuel queue) = chunkList fuel queue := by
  intro fuel
  induction fuel with
  | zero => intro queue; rfl
  | succ fuel ih =>
    intro queue
    cases queue with
    | nil => rfl
    | cons e rest =>
      obtain ⟨f, pos, no⟩ := e
      by_cases hmore : (writeFileChunk f.data pos no f.name).2 = true
      · simp only [writeChunksAux, chunkList, hmore, if_true]
        rw [chunkRecords_append _ _ (writeFileChunk_length f.data pos no f.name), ih]
      · simp only [writeChunksAux, chunkList, hmore, if_false, Bool.false_eq_true]
        rw [chunkRecords_append _ _ (writeFileChunk_length f.data pos no f.name), ih]

theorem chunkList_nil : ∀ fuel : Nat, chunkList fuel [] = [] := by
  intro fuel
  cases fuel with
  | zero => rfl
  | succ fuel => rfl

/-- Every record the round-robin writer emits belongs to one of the queued
files (two-name version). -/
theorem chunkList_names (n1 n2 : List Nat)
    (h16a : n1.length ≤ 16) (hc1 : ∀ b ∈ n1, 32 < b)
    (h16b : n2.length ≤ 16) (hc2 : ∀ b ∈ n2, 32 < b) :
    ∀ (fuel : Nat) (queue : List (SimpleQstContainedFile × Nat × Nat)),
    (∀ e ∈ queue, e.1.name = n1 ∨ e.1.name = n2) →
    ∀ r ∈ chunkList fuel queue, chunkNameOf r = n1 ∨ chunkNameOf r = n2 := by
  intro fuel
  induction fuel with
  | zero =>
    intro queue hq r hr
    simp only [chunkList] at hr
    exact absurd hr (List.not_mem_nil r)
  | succ fuel ih =>
    intro queue hq r hr
    cases queue with
    | nil =>
      simp only [chunkList] at hr
      exact absurd hr (List.not_mem_nil r)
    | cons e rest =>
      obtain ⟨f, pos, no⟩ := e
      have hf : f.name = n1 ∨ f.name = n2 := hq (f, pos, no) (List.mem_cons_self _ _)
      have hname : chunkNameOf (writeFileChunk f.data pos no f.name).1 = f.name := by
        rcases hf with h | h
        · rw [h]
          exact chunkNameOf_writeFileChunk f.data pos no n1 h16a hc1
        · rw [h]
          exact chunkNameOf_writeFileChunk f.data pos no n2 h16b hc2
      have hq2 : ∀ e2 ∈ rest ++ [(f, pos + 1024, no + 1)],
          e2.1.name = n1 ∨ e2.1.name = n2 := by
        intro e2 he2
        rcases List.mem_append.mp he2 with h | h
        · exact hq e2 (List.mem_cons_of_mem _ h)
        · rw [List.mem_singleton] at h
          subst h
          exact hf
      by_cases hmore : (writeFileChunk f.data pos no f.name).2 = true
      · simp only [chunkList, hmore, if_true] at hr
        rcases List.mem_cons.mp hr with rfl | hr2
        · rw [hname]; exact hf
        · exact ih (rest ++ [(f, pos + 1024, no + 1)]) hq2 r hr2
      · simp only [chunkList, hmore, if_false, Bool.false_eq_true] at hr
        rcases List.mem_cons.mp hr with rfl | hr2
        · rw [hname]; exact hf
        · exact ih rest (fun e2 he2 => hq e2 (List.mem_cons_of_mem _ he2)) r hr2

set_option maxHeartbeats 1600000 in
/-- The interleaved record stream is a permutation of the per-file
sequential chunk lists: the round-robin rotation only reorders records. -/
theorem chunkList_perm : ∀ (fuel : Nat)
    (queue : List (SimpleQstContainedFile × Nat × Nat)),
    writeChunksMeasure queue ≤ fuel →
    (chunkList fuel queue).Perm
      (queue.flatMap fun e =>
        (List.range (chunkCount (e.1.data.length - e.2.1))).map
          fun j => (writeFileChunk e.1.data (e.2.1 + 1024 * j) (e.2.2 + j) e.1.name).1) := by
  intro fuel
  induction fuel with
  | zero =>
    intro queue hq
    cases queue with
    | nil => exact List.Perm.refl _
    | cons e rest =>
      exfalso
      simp [writeChunksMeasure] at hq
  | succ fuel ih =>
    intro queue hq
    cases queue with
    | nil => exact List.Perm.refl _
    | cons e rest =>
      obtain ⟨f, pos, no⟩ := e
      have hm : writeChunksMeasure ((f, pos, no) :: rest) =
          (f.data.length - pos + 1) + writeChunksMeasure rest := by
        simp [writeChunksMeasure]
      by_cases hmore : (writeFileChunk f.data pos no f.name).2 = true
      · have hgt : f.data.length - pos > 1024 := by
          simp only [writeFileChunk, decide_eq_true_eq] at hmore
          omega
        have hm2 : writeChunksMeasure (rest ++ [(f, pos + 1024, no + 1)]) ≤ fuel := by
          simp only [writeChunksMeasure, List.map_append, List.sum_append,
            List.map_cons, List.sum_cons, List.map_nil, List.sum_nil] at *
          omega
        have hcc : chunkCount (f.data.length - pos) =
            chunkCount (f.data.length - (pos + 1024)) + 1 := by
          rw [chunkCount_succ_of_lt _ (by omega),
            show f.data.length - pos - 1024 = f.data.length - (pos + 1024) from by omega]
        have hsplit : (List.range (chunkCount (f.data.length - pos))).map
            (fun j => (writeFileChunk f.data (pos + 1024 * j) (no + j) f.name).1) =
            (writeFileChunk f.data pos no f.name).1 ::
              (List.range (chunkCount (f.data.length - (pos + 1024)))).map
                (fun j => (writeFileChunk f.data (pos + 1024 + 1024 * j)
                  (no + 1 + j) f.name).1) := by
          rw [hcc, List.range_succ_eq_map, List.map_cons, List.map_map]
          refine List.cons_eq_cons.mpr ⟨?_, ?_⟩
          · show (writeFileChunk f.data (pos + 1024 * 0) (no + 0) f.name).1 = _
            rw [show pos + 1024 * 0 = pos from by ring, show no + 0 = no from rfl]
          · apply List.map_congr_left
            intro j hj
            show (writeFileChunk f.data (pos + 1024 * (j + 1)) (no + (j + 1)) f.name).1 = _
            rw [show pos + 1024 * (j + 1) = pos + 1024 + 1024 * j from by ring,
              show no + (j + 1) = no + 1 + j from by ring]
        simp only [chunkList, hmore, if_true, List.flatMap_cons]
        rw [hsplit, List.cons_append]
        apply List.Perm.cons
        have hperm := ih (rest ++ [(f, pos + 1024, no + 1)]) hm2
        rw [List.flatMap_append, List.flatMap_cons, List.flatMap_nil,
          List.append_nil] at hperm
        exact hperm.trans (List.perm_append_comm)
      · have hle : f.data.length - pos ≤ 1024 := by
          simp only [writeFileChunk, decide_eq_true_eq] at hmore
          omega
        have hm2 : writeChunksMeasure rest ≤ fuel := by
          rw [hm] at hq
          omega
        have hsingle : (List.range (chunkCount (f.data.length - pos))).map
            (fun j => (writeFileChunk f.data (pos + 1024 * j) (no + j) f.name).1) =
            [(writeFileChunk f.data pos no f.name).1] := by
          rw [chunkCount_eq_one _ hle,
            show List.range 1 = [0] from rfl, List.map_cons, List.map_nil]
          refine List.cons_eq_cons.mpr ⟨?_, rfl⟩
          show (writeFileChunk f.data (pos + 1024 * 0) (no + 0) f.name).1 = _
          rw [show pos + 1024 * 0 = pos from by ring, show no + 0 = no from rfl]
        simp only [chunkList, hmore, if_false, Bool.false_eq_true, List.flatMap_cons]
        rw [hsingle, List.cons_append, List.nil_append]
        exact List.Perm.cons _ (ih rest hm2)

/-- The flattened sequential view of a fresh two-file queue. -/
theorem flatMap_two_fresh (f1 f2 : SimpleQstContainedFile) :
    (([(f1, 0, 0), (f2, 0, 0)] :
        List (SimpleQstContainedFile × Nat × Nat)).flatMap fun e =>
      (List.range (chunkCount (e.1.data.length - e.2.1))).map
        fun j => (writeFileChunk e.1.data (e.2.1 + 1024 * j) (e.2.2 + j) e.1.name).1) =
      seqChunks f1.data f1.name ++ seqChunks f2.data f2.name := by
  have h : ∀ g : SimpleQstContainedFile,
      (List.range (chunkCount (g.data.length - 0))).map
        (fun j => (writeFileChunk g.data (0 + 1024 * j) (0 + j) g.name).1) =
      seqChunks g.data g.name := by
    intro g
    rw [seqChunks, show g.data.length - 0 = g.data.length from rfl]
    apply List.map_congr_left
    intro j hj
    rw [Nat.zero_add, Nat.zero_add]
  simp only [List.flatMap_cons, List.flatMap_nil, List.append_nil]
  rw [h f1, h f2]

/-- Keys of a sequential chunk list: the file name with chunk numbers
`0, …, chunkCount − 1` (the u8 chunk-number field does not wrap below 256
chunks, i.e. payloads up to 262144 bytes). -/
theorem seqChunks_keys (d n : List Nat) (h16 : n.length ≤ 16)
    (hclean : ∀ b ∈ n, 32 < b) (hlen : d.length ≤ 262144) :
    (seqChunks d n).map chunkKey =
      (List.range (chunkCount d.length)).map fun i => (n, i) := by
  rw [seqChunks, List.map_map]
  apply List.map_congr_left
  intro i hi
  have hi' : i < chunkCount d.length := List.mem_range.mp hi
  have h256 := chunkCount_le_256 d.length hlen
  show chunkKey (writeFileChunk d (1024 * i) i n).1 = (n, i)
  rw [chunkKey_writeFileChunk d (1024 * i) i n h16 hclean,
    Nat.mod_eq_of_lt (by omega)]

/-- No two records of the two sequential chunk lists share a
`(name, chunk number)` key. -/
theorem seq_two_keys_nodup (d1 n1 d2 n2 : List Nat)
    (h16a : n1.length ≤ 16) (hc1 : ∀ b ∈ n1, 32 < b) (hl1 : d1.length ≤ 262144)
    (h16b : n2.length ≤ 16) (hc2 : ∀ b ∈ n2, 32 < b) (hl2 : d2.length ≤ 262144)
    (hne : n1 ≠ n2) :
    ((seqChunks d1 n1 ++ seqChunks d2 n2).map chunkKey).Nodup := by
  rw [List.map_append, seqChunks_keys d1 n1 h16a hc1 hl1,
    seqChunks_keys d2 n2 h16b hc2 hl2]
  refine List.Nodup.append ?_ ?_ ?_
  · exact (List.nodup_range _).map fun a b hab => congrArg Prod.snd hab
  · exact (List.nodup_range _).map fun a b hab => congrArg Prod.snd hab
  · intro a ha hb
    obtain ⟨i, _, hia⟩ := List.mem_map.mp ha
    obtain ⟨j, _, hjb⟩ := List.mem_map.mp hb
    exact hne (congrArg Prod.fst (hia.trans hjb.symm))

/-- The first two records of a fresh two-file queue are the two files'
chunk-0 records; everything after belongs to one of the two files. -/
theorem chunkList_two_head (f1 f2 : SimpleQstContainedFile)
    (h16a : f1.name.length ≤ 16) (hc1 : ∀ b ∈ f1.name, 32 < b)
    (h16b : f2.name.length ≤ 16) (hc2 : ∀ b ∈ f2.name, 32 < b) :
    ∃ rest, chunkList (writeChunksMeasure [(f1, 0, 0), (f2, 0, 0)])
        [(f1, 0, 0), (f2, 0, 0)] =
      (writeFileChunk f1.data 0 0 f1.name).1 ::
        (writeFileChunk f2.data 0 0 f2.name).1 :: rest ∧
      ∀ r ∈ rest, chunkNameOf r = f1.name ∨ chunkNameOf r = f2.name := by
  obtain ⟨m, hm⟩ : ∃ m, writeChunksMeasure [(f1, 0, 0), (f2, 0, 0)] = m + 2 := by
    refine ⟨f1.data.length + f2.data.length, ?_⟩
    simp [writeChunksMeasure]
    omega
  rw [hm]
  show ∃ rest, chunkList (m + 1 + 1) [(f1, 0, 0), (f2, 0, 0)] = _ ∧ _
  by_cases h1 : (writeFileChunk f1.data 0 0 f1.name).2 = true <;>
    by_cases h2 : (writeFileChunk f2.data 0 0 f2.name).2 = true
  · simp only [chunkList, h1, h2, if_true, List.cons_append, List.nil_append]
    refine ⟨_, rfl, ?_⟩
    refine chunkList_names f1.name f2.name h16a hc1 h16b hc2 m _ ?_
    intro e he
    have he2 : e ∈ [(f1, (1024 : Nat), (1 : Nat)), (f2, 1024, 1)] := he
    rcases List.mem_cons.mp he2 with rfl | he3
    · exact Or.inl rfl
    · rw [List.mem_singleton] at he3
      subst he3
      exact Or.inr rfl
  · simp only [chunkList, h1, h2, if_true, if_false, Bool.false_eq_true,
      List.cons_append, List.nil_append]
    refine ⟨_, rfl, ?_⟩
    refine chunkList_names f1.name f2.name h16a hc1 h16b hc2 m _ ?_
    intro e he
    have he2 : e ∈ [(f1, (1024 : Nat), (1 : Nat))] := he
    rw [List.mem_singleton] at he2
    subst he2
    exact Or.inl rfl
  · simp only [chunkList, h1, h2, if_true, if_false, Bool.false_eq_true,
      List.cons_append, List.nil_append]
    refine ⟨_, rfl, ?_⟩
    refine chunkList_names f1.name f2.name h16a hc1 h16b hc2 m _ ?_
    intro e he
    have he2 : e ∈ [(f2, (1024 : Nat), (1 : Nat))] := he
    rw [List.mem_singleton] at he2
    subst he2
    exact Or.inr rfl
  · simp only [chunkList, h1, h2, if_false, Bool.false_eq_true,
      List.cons_append, List.nil_append]
    refine ⟨_, rfl, ?_⟩
    intro r hr
    rw [chunkList_nil] at hr
    exact absurd hr (List.not_mem_nil r)

/-! ### General round trip: name-encounter order of the parse fold -/

/-- The order component of one parse step. -/
theorem pfStep_order (es : List (List Nat × Nat)) (s : PFState) (raw : List Nat) :
    (pfStep es s raw).order =
      if (s.lookup (chunkNameOf raw)).isSome then s.order
      else s.order ++ [chunkNameOf raw] := rfl

/-- A parse step never removes a file from the table. -/
theorem pfStep_lookup_isSome (es : List (List Nat × Nat)) (s : PFState)
    (raw n : List Nat) (h : (s.lookup n).isSome = true) :
    ((pfStep es s raw).lookup n).isSome = true := by
  rw [pfStep_lookup]
  by_cases hn : n = chunkNameOf raw
  · rw [if_pos hn]
    rfl
  · rw [if_neg hn]
    exact h

/-- Records whose names are already present do not extend the encounter
order. -/
theorem foldl_order_stable (es : List (List Nat × Nat)) :
    ∀ (records : List (List Nat)) (s : PFState),
    (∀ r ∈ records, (s.lookup (chunkNameOf r)).isSome = true) →
    (records.foldl (pfStep es) s).order = s.order := by
  intro records
  induction records with
  | nil => intro s _; rfl
  | cons r rest ih =>
    intro s hs
    rw [List.foldl_cons,
      ih (pfStep es s r)
        (fun r2 hr2 => pfStep_lookup_isSome es s r _ (hs r2 (List.mem_cons_of_mem r hr2))),
      pfStep_order, if_pos (hs r (List.mem_cons_self r rest))]

/-! ### General round trip: header fields without a 16-bit id bound -/

/-- A 16-bit little-endian field reads back modulo `2^16` (no bound on the
written value: the writer stores only the low bytes). -/
theorem u16le_at_mod (pre suf : List Nat) (v : Nat) :
    u16le (pre ++ (u16leBytes v ++ suf)) pre.length = v % 65536 := by
  have h0 := getD_at pre (u16leBytes v ++ suf) 0
  have h1 := getD_at pre (u16leBytes v ++ suf) 1
  rw [Nat.add_zero] at h0
  rw [u16le, h0, h1]
  simp only [u16leBytes, List.cons_append, List.nil_append, List.getD_cons_zero,
    List.getD_cons_succ]
  omega

/-- The four fields of one written header record at the parser's offsets,
with the quest number reduced modulo `2^16` instead of bounded. -/
theorem header_fields_noqn (pre suf : List Nat) (f : SimpleQstContainedFile)
    (h16 : f.name.length ≤ 16) (hclean : ∀ b ∈ f.name, 32 < b)
    (h24 : (qstFileName2 f).length ≤ 24) (hclean2 : ∀ b ∈ qstFileName2 f, 32 < b)
    (hsize : f.data.length < 2 ^ 32) :
    u16le (pre ++ (headerBytes f ++ suf)) (pre.length + 4) =
      f.questNo.getD 0 % 65536 ∧
    stringAscii (pre ++ (headerBytes f ++ suf)) (pre.length + 44) 16 = f.name ∧
    u32le (pre ++ (headerBytes f ++ suf)) (pre.length + 60) = f.data.length ∧
    stringAscii (pre ++ (headerBytes f ++ suf)) (pre.length + 64) 24 =
      qstFileName2 f := by
  refine ⟨?_, ?_, ?_, ?_⟩
  · have hre : pre ++ (headerBytes f ++ suf) =
        (pre ++ (u16leBytes 88 ++ u16leBytes 0x44)) ++
          (u16leBytes (f.questNo.getD 0) ++
            (List.replicate 38 0 ++ padAscii 16 f.name ++ u32leBytes f.data.length ++
              padAscii 24 (qstFileName2 f) ++ suf)) := by
      simp [headerBytes, List.append_assoc]
    have hl : (pre ++ (u16leBytes 88 ++ u16leBytes 0x44)).length = pre.length + 4 := by
      simp
    rw [hre, ← hl]
    exact u16le_at_mod _ _ _
  · have hre : pre ++ (headerBytes f ++ suf) =
        (pre ++ (u16leBytes 88 ++ u16leBytes 0x44 ++ u16leBytes (f.questNo.getD 0) ++
          List.replicate 38 0)) ++
          (padAscii 16 f.name ++
            (u32leBytes f.data.length ++ padAscii 24 (qstFileName2 f) ++ suf)) := by
      simp [headerBytes, List.append_assoc]
    have hl : (pre ++ (u16leBytes 88 ++ u16leBytes 0x44 ++
        u16leBytes (f.questNo.getD 0) ++ List.replicate 38 0)).length =
        pre.length + 44 := by
      simp
    rw [hre, ← hl]
    exact stringAscii_padAscii _ _ _ _ h16 hclean
  · have hre : pre ++ (headerBytes f ++ suf) =
        (pre ++ (u16leBytes 88 ++ u16leBytes 0x44 ++ u16leBytes (f.questNo.getD 0) ++
          List.replicate 38 0 ++ padAscii 16 f.name)) ++
          (u32leBytes f.data.length ++ (padAscii 24 (qstFileName2 f) ++ suf)) := by
      simp [headerBytes, List.append_assoc]
    have hl : (pre ++ (u16leBytes 88 ++ u16leBytes 0x44 ++
        u16leBytes (f.questNo.getD 0) ++ List.replicate 38 0 ++
        padAscii 16 f.name)).length = pre.length + 60 := by
      simp
    rw [hre, ← hl]
    exact u32le_at _ _ _ hsize
  · have hre : pre ++ (headerBytes f ++ suf) =
        (pre ++ (u16leBytes 88 ++ u16leBytes 0x44 ++ u16leBytes (f.questNo.getD 0) ++
          List.replicate 38 0 ++ padAscii 16 f.name ++ u32leBytes f.data.length)) ++
          (padAscii 24 (qstFileName2 f) ++ suf) := by
      simp [headerBytes, List.append_assoc]
    have hl : (pre ++ (u16leBytes 88 ++ u16leBytes 0x44 ++
        u16leBytes (f.questNo.getD 0) ++ List.replicate 38 0 ++ padAscii 16 f.name ++
        u32leBytes f.data.length)).length = pre.length + 64 := by
      simp
    rw [hre, ← hl]
    exact stringAscii_padAscii _ _ _ _ h24 hclean2

/-- The first header record of a written two-file container. -/
theorem genStream_headerAt0 (f1 f2 : SimpleQstContainedFile) (CC : List Nat)
    (h16 : f1.name.length ≤ 16) (hclean : ∀ b ∈ f1.name, 32 < b)
    (h24 : (qstFileName2 f1).length ≤ 24) (hclean2 : ∀ b ∈ qstFileName2 f1, 32 < b)
    (hsz : f1.data.length < 2 ^ 32) :
    parseHeaderAt ((headerBytes f1 ++ (headerBytes f2 ++ [])) ++ CC) 0 =
      ⟨f1.questNo.getD 0 % 65536, f1.name, qstFileName2 f1, f1.data.length⟩ := by
  have hstream : (headerBytes f1 ++ (headerBytes f2 ++ [])) ++ CC =
      headerBytes f1 ++ ((headerBytes f2 ++ []) ++ CC) := by
    rw [List.append_assoc]
  obtain ⟨e1, e2, e3, e4⟩ := header_fields_noqn [] ((headerBytes f2 ++ []) ++ CC) f1
    h16 hclean h24 hclean2 hsz
  simp only [List.length_nil, Nat.zero_add, List.nil_append] at e1 e2 e3 e4
  rw [parseHeaderAt, hstream]
  simp only [Nat.zero_add]
  rw [e1, e2, e3, e4]

/-- The second header record of a written two-file container. -/
theorem genStream_headerAt88 (f1 f2 : SimpleQstContainedFile) (CC : List Nat)
    (h16 : f2.name.length ≤ 16) (hclean : ∀ b ∈ f2.name, 32 < b)
    (h24 : (qstFileName2 f2).length ≤ 24) (hclean2 : ∀ b ∈ qstFileName2 f2, 32 < b)
    (hsz : f2.data.length < 2 ^ 32) :
    parseHeaderAt ((headerBytes f1 ++ (headerBytes f2 ++ [])) ++ CC) 88 =
      ⟨f2.questNo.getD 0 % 65536, f2.name, qstFileName2 f2, f2.data.length⟩ := by
  have hstream : (headerBytes f1 ++ (headerBytes f2 ++ [])) ++ CC =
      headerBytes f1 ++ (headerBytes f2 ++ ([] ++ CC)) := by
    rw [List.append_assoc, List.append_assoc]
  obtain ⟨e1, e2, e3, e4⟩ := header_fields_noqn (headerBytes f1) ([] ++ CC) f2
    h16 hclean h24 hclean2 hsz
  rw [headerBytes_length] at e1 e2 e3 e4
  rw [parseHeaderAt, hstream]
  rw [e1, e2, e3, e4]

/-- Everything after the two headers of a written container is the chunk
region. -/
theorem genStream_drop176 (f1 f2 : SimpleQstContainedFile) (CC : List Nat) :
    ((headerBytes f1 ++ (headerBytes f2 ++ [])) ++ CC).drop 176 = CC := by
  rw [show (176 : Nat) = (headerBytes f1 ++ (headerBytes f2 ++ [])).length from by
      simp [headerBytes_length],
    List.drop_left]

/-- `writeQst` on two files with fitting names and non-empty payloads:
headers followed by the interleaved chunk stream, size check passed. -/
theorem writeQst_ok_general (f1 f2 : SimpleQstContainedFile)
    (h16a : f1.name.length ≤ 16) (h24a : (qstFileName2 f1).length ≤ 24)
    (h16b : f2.name.length ≤ 16) (h24b : (qstFileName2 f2).length ≤ 24)
    (hL1 : 0 < f1.data.length) (hL2 : 0 < f2.data.length) :
    writeQst [f1, f2] = .ok ((headerBytes f1 ++ (headerBytes f2 ++ [])) ++
      writeFileChunks [f1, f2]) := by
  have hw1 : writeFileHeader f1 = .ok (headerBytes f1) := by
    rw [writeFileHeader, if_neg (by omega), if_neg (by omega)]
  have hw2 : writeFileHeader f2 = .ok (headerBytes f2) := by
    rw [writeFileHeader, if_neg (by omega), if_neg (by omega)]
  have hok : writeFileHeaders [f1, f2] =
      .ok (headerBytes f1 ++ (headerBytes f2 ++ [])) := by
    rw [writeFileHeaders, List.mapM_cons, hw1, List.mapM_cons, hw2]
    rfl
  have hchunks : (writeFileChunks [f1, f2]).length =
      1056 * (chunkCount f1.data.length + chunkCount f2.data.length) := by
    have h := writeChunksAux_length
      (writeChunksMeasure ([f1, f2].map fun f => (f, 0, 0)))
      ([f1, f2].map fun f => (f, 0, 0)) (le_refl _)
    rw [writeFileChunks, h]
    simp only [List.map_cons, List.map_nil, List.sum_cons, List.sum_nil,
      Nat.sub_zero, Nat.add_zero]
  have htotal : ((headerBytes f1 ++ (headerBytes f2 ++ [])) ++
      writeFileChunks [f1, f2]).length =
      ([f1, f2].map fun f => 88 + (f.data.length + 1023) / 1024 * 1056).sum := by
    rw [List.length_append, hchunks]
    simp only [List.length_append, headerBytes_length, List.length_nil,
      List.map_cons, List.map_nil, List.sum_cons, List.sum_nil]
    rw [chunkCount_eq_of_pos _ hL1, chunkCount_eq_of_pos _ hL2]
    ring
  have hemp : ¬([f1, f2] : List SimpleQstContainedFile).isEmpty = true := by simp
  rw [writeQst, if_neg hemp, hok]
  show (if ((headerBytes f1 ++ (headerBytes f2 ++ [])) ++
      writeFileChunks [f1, f2]).length ≠
      ([f1, f2].map fun f => 88 + (f.data.length + 1023) / 1024 * 1056).sum then
      Except.error (QstWriteError.sizeMismatch
        (([f1, f2].map fun f => 88 + (f.data.length + 1023) / 1024 * 1056).sum)
        (((headerBytes f1 ++ (headerBytes f2 ++ [])) ++
          writeFileChunks [f1, f2]).length))
    else Except.ok ((headerBytes f1 ++ (headerBytes f2 ++ [])) ++
      writeFileChunks [f1, f2])) =
    Except.ok ((headerBytes f1 ++ (headerBytes f2 ++ [])) ++ writeFileChunks [f1, f2])
  rw [if_neg (not_ne_iff.mpr htotal)]

/-- The encounter order of a record list headed by one chunk of each file
(in that order), followed by records of the same two files. -/
theorem parse_two_order (es : List (List Nat × Nat)) (n1 n2 : List Nat)
    (r1 r2 : List Nat) (rest : List (List Nat))
    (hn1 : chunkNameOf r1 = n1) (hn2 : chunkNameOf r2 = n2) (hne : n1 ≠ n2)
    (hrest : ∀ r ∈ rest, chunkNameOf r = n1 ∨ chunkNameOf r = n2) :
    (parseFilesCore es (r1 :: r2 :: rest)).order = [n1, n2] := by
  rw [parseFilesCore, List.foldl_cons, List.foldl_cons]
  have h1lk : ∀ n, (pfStep es pfInit r1).lookup n =
      if n = n1 then some (pfUpdateFile es pfInit r1) else none := by
    intro n
    rw [pfStep_lookup, hn1]
    rfl
  have h2lk : ∀ n, (pfStep es (pfStep es pfInit r1) r2).lookup n =
      if n = n2 then some (pfUpdateFile es (pfStep es pfInit r1) r2)
      else if n = n1 then some (pfUpdateFile es pfInit r1) else none := by
    intro n
    rw [pfStep_lookup, hn2, h1lk n]
  have hsome : ∀ r ∈ rest,
      ((pfStep es (pfStep es pfInit r1) r2).lookup (chunkNameOf r)).isSome = true := by
    intro r hr
    rcases hrest r hr with h | h <;> rw [h, h2lk]
    · rw [if_neg hne, if_pos rfl]
      rfl
    · rw [if_pos rfl]
      rfl
  rw [foldl_order_stable es rest (pfStep es (pfStep es pfInit r1) r2) hsome]
  rw [pfStep_order, hn2, pfStep_lookup, hn1,
    if_neg (fun h : n2 = n1 => hne h.symm)]
  rw [pfStep_order, hn1]
  rfl

/-! ### General round trip: the sequential chunk fold -/

/-- Writing chunk `i`'s bytes extends the recovered prefix from `1024·i` to
`1024·(i+1)` (clamped to the payload length). -/
theorem writeAt_seq_content (d : List Nat) (i : Nat) (hlt : 1024 * i < d.length) :
    writeAt (fun off => if off < min (1024 * i) d.length then d.getD off 0 else 0)
      (i * 1024) ((d.drop (1024 * i)).take (min 1024 (d.length - 1024 * i))) =
    fun off => if off < min (1024 * (i + 1)) d.length then d.getD off 0 else 0 := by
  funext off
  have hdlen : ((d.drop (1024 * i)).take (min 1024 (d.length - 1024 * i))).length =
      min 1024 (d.length - 1024 * i) := by
    simp only [List.length_take, List.length_drop]
    omega
  show (if i * 1024 ≤ off ∧ off < i * 1024 +
      ((d.drop (1024 * i)).take (min 1024 (d.length - 1024 * i))).length then
      ((d.drop (1024 * i)).take (min 1024 (d.length - 1024 * i))).getD (off - i * 1024) 0
    else if off < min (1024 * i) d.length then d.getD off 0 else 0) =
    if off < min (1024 * (i + 1)) d.length then d.getD off 0 else 0
  rw [hdlen]
  by_cases hin : i * 1024 ≤ off ∧ off < i * 1024 + min 1024 (d.length - 1024 * i)
  · rw [if_pos hin, getD_take _ _ _ (by omega), getD_drop,
      show 1024 * i + (off - i * 1024) = off from by omega, if_pos (by omega)]
  · rw [if_neg hin]
    by_cases h1 : off < min (1024 * i) d.length
    · rw [if_pos h1, if_pos (by omega)]
    · rw [if_neg h1, if_neg (by omega)]

/-- The first chunk of a not-yet-seen file creates its buffer, seeded from
the header sizes, and logs nothing. -/
theorem pfStep_first (es : List (List Nat × Nat)) (name d : List Nat) (s : PFState)
    (h16 : name.length ≤ 16) (hclean : ∀ b ∈ name, 32 < b)
    (hnone : s.lookup name = none) :
    pfStep es s (writeFileChunk d 0 0 name).1 =
      ⟨fun n => if n = name then some (pfsAfter es name d 1) else s.lookup n,
       s.order ++ [name], s.warnings⟩ := by
  have hname : chunkNameOf (writeFileChunk d 0 0 name).1 = name :=
    chunkNameOf_writeFileChunk d 0 0 name h16 hclean
  have hno : chunkNoOf (writeFileChunk d 0 0 name).1 = 0 := rfl
  have hds := chunkDeclaredSize_writeFileChunk d 0 0 name
  have hdata := chunkDataOf_writeFileChunk_pos d 0 0 name
  have hupd : pfUpdateFile es s (writeFileChunk d 0 0 name).1 =
      pfsAfter es name d 1 := by
    simp only [pfUpdateFile, pfsAfter]
    refine fileState_mk_congr ?_ ?_ ?_ ?_
    · rw [hname, hnone]
      rfl
    · rw [hname, hnone, hno, hdata]
      funext off
      have hdlen : ((d.drop 0).take (min 1024 (d.length - 0))).length =
          min 1024 d.length := by
        simp only [List.length_take, List.length_drop]
        omega
      show (if 0 * 1024 ≤ off ∧ off < 0 * 1024 +
          ((d.drop 0).take (min 1024 (d.length - 0))).length then
          ((d.drop 0).take (min 1024 (d.length - 0))).getD (off - 0 * 1024) 0
        else 0) =
        if off < min (1024 * 1) d.length then d.getD off 0 else 0
      rw [hdlen]
      by_cases hin : off < min 1024 d.length
      · rw [if_pos ⟨by omega, by omega⟩, getD_take _ _ _ (by omega), getD_drop,
          show 0 + (off - 0 * 1024) = off from by omega, if_pos (by omega)]
      · rw [if_neg (by omega), if_neg (by omega)]
    · rw [hname, hnone, hno,
        show chunkSizeOf (writeFileChunk d 0 0 name).1 = min 1024 (d.length - 0) from by
          rw [chunkSizeOf, hds]; omega]
      show max (0 * 1024 + min 1024 (d.length - 0)) 0 = min (1024 * 1) d.length
      omega
    · rw [hname, hnone, hno]
      rfl
  simp only [pfStep]
  refine pfState_mk_congr ?_ ?_ ?_
  · rw [hname, hupd]
  · rw [hname, hnone]
    rfl
  · rw [hname, hnone, hno, hds]
    rw [if_neg (show ¬(0 ∈ (Option.getD none (pfFresh es name)).chunkNos) from by
      simp [pfFresh])]
    rw [if_neg (by omega : ¬min 1024 (d.length - 0) > 1024)]
    simp

/-- Chunk `i` of a file whose first `i` chunks are already assembled
advances the sequential buffer and logs nothing (`i < 256`, so the u8
chunk-number field is faithful). -/
theorem pfStep_mid (es : List (List Nat × Nat)) (name d : List Nat) (i : Nat)
    (lk : List Nat → Option FileState) (ord : List (List Nat)) (wa : List LogEntry)
    (h16 : name.length ≤ 16) (hclean : ∀ b ∈ name, 32 < b)
    (hilt : 1024 * i < d.length) (hi256 : i < 256)
    (hlk : lk name = some (pfsAfter es name d i)) :
    pfStep es ⟨lk, ord, wa⟩ (writeFileChunk d (1024 * i) i name).1 =
      ⟨fun n => if n = name then some (pfsAfter es name d (i + 1)) else lk n,
       ord, wa⟩ := by
  have hname : chunkNameOf (writeFileChunk d (1024 * i) i name).1 = name :=
    chunkNameOf_writeFileChunk d (1024 * i) i name h16 hclean
  have hno : chunkNoOf (writeFileChunk d (1024 * i) i name).1 = i := by
    rw [chunkNoOf_writeFileChunk, Nat.mod_eq_of_lt hi256]
  have hds := chunkDeclaredSize_writeFileChunk d (1024 * i) i name
  have hdata := chunkDataOf_writeFileChunk_pos d (1024 * i) i name
  have hupd : pfUpdateFile es ⟨lk, ord, wa⟩ (writeFileChunk d (1024 * i) i name).1 =
      pfsAfter es name d (i + 1) := by
    simp only [pfUpdateFile, pfsAfter]
    refine fileState_mk_congr ?_ ?_ ?_ ?_
    · rw [hname]
      show (Option.getD (lk name) (pfFresh es name)).expectedSize = es.lookup name
      rw [hlk]
      rfl
    · rw [hname]
      show writeAt (Option.getD (lk name) (pfFresh es name)).content
        (chunkNoOf (writeFileChunk d (1024 * i) i name).1 * 1024)
        (chunkDataOf (writeFileChunk d (1024 * i) i name).1) = _
      rw [hlk, hno, hdata]
      exact writeAt_seq_content d i hilt
    · rw [hname]
      show max (chunkNoOf (writeFileChunk d (1024 * i) i name).1 * 1024 +
          chunkSizeOf (writeFileChunk d (1024 * i) i name).1)
        (Option.getD (lk name) (pfFresh es name)).size = min (1024 * (i + 1)) d.length
      rw [hlk, hno,
        show chunkSizeOf (writeFileChunk d (1024 * i) i name).1 =
          min 1024 (d.length - 1024 * i) from by rw [chunkSizeOf, hds]; omega]
      show max (i * 1024 + min 1024 (d.length - 1024 * i)) (min (1024 * i) d.length) =
        min (1024 * (i + 1)) d.length
      omega
    · rw [hname]
      show (if chunkNoOf (writeFileChunk d (1024 * i) i name).1 ∈
          (Option.getD (lk name) (pfFresh es name)).chunkNos then
          (Option.getD (lk name) (pfFresh es name)).chunkNos
        else (Option.getD (lk name) (pfFresh es name)).chunkNos ++
          [chunkNoOf (writeFileChunk d (1024 * i) i name).1]) = List.range (i + 1)
      rw [hlk, hno]
      show (if i ∈ List.range i then List.range i else List.range i ++ [i]) =
        List.range (i + 1)
      rw [if_neg (by simp), List.range_succ]
  simp only [pfStep]
  refine pfState_mk_congr ?_ ?_ ?_
  · rw [hname, hupd]
  · rw [hname, hlk]
    rfl
  · rw [hname, hno, hds]
    rw [if_neg (show ¬(i ∈ (Option.getD (lk name) (pfFresh es name)).chunkNos) from by
      rw [hlk]
      simp [pfsAfter])]
    rw [if_neg (by omega : ¬min 1024 (d.length - 1024 * i) > 1024)]
    simp

/-- Folding the sequential chunk records of one unseen file assembles
exactly its `pfsAfter` buffer and appends its name to the encounter
order. -/
theorem foldl_seqChunks (es : List (List Nat × Nat)) (name d : List Nat)
    (s : PFState) (h16 : name.length ≤ 16) (hclean : ∀ b ∈ name, 32 < b)
    (hL : 0 < d.length) (hL' : d.length ≤ 262144)
    (hnone : s.lookup name = none) :
    List.foldl (pfStep es) s (seqChunks d name) =
      ⟨fun n => if n = name then some (pfsAfter es name d (chunkCount d.length))
        else s.lookup n, s.order ++ [name], s.warnings⟩ := by
  have h256 := chunkCount_le_256 d.length hL'
  have hccdiv := chunkCount_eq_of_pos d.length hL
  have hgo : ∀ (k : Nat), ∀ (i : Nat), 1 ≤ i → i + k = chunkCount d.length →
      ∀ (lk : List Nat → Option FileState) (ord : List (List Nat))
        (wa : List LogEntry), lk name = some (pfsAfter es name d i) →
      List.foldl (pfStep es) ⟨lk, ord, wa⟩
        ((List.range k).map fun j => (writeFileChunk d (1024 * (i + j)) (i + j) name).1) =
      ⟨fun n => if n = name then some (pfsAfter es name d (i + k)) else lk n,
       ord, wa⟩ := by
    intro k
    induction k with
    | zero =>
      intro i hi1 hik lk ord wa hlk
      rw [List.range_zero, List.map_nil, List.foldl_nil]
      refine pfState_mk_congr ?_ rfl rfl
      funext n
      show lk n = if n = name then some (pfsAfter es name d (i + 0)) else lk n
      by_cases hn : n = name
      · rw [if_pos hn, hn, hlk, Nat.add_zero]
      · rw [if_neg hn]
    | succ k ih =>
      intro i hi1 hik lk ord wa hlk
      have hilt : 1024 * i < d.length := by omega
      have hi256 : i < 256 := by omega
      rw [List.range_succ_eq_map, List.map_cons, List.foldl_cons, List.map_map,
        Nat.add_zero]
      rw [pfStep_mid es name d i lk ord wa h16 hclean hilt hi256 hlk]
      rw [show (List.range k).map
          ((fun j => (writeFileChunk d (1024 * (i + j)) (i + j) name).1) ∘ Nat.succ) =
          (List.range k).map
            (fun j => (writeFileChunk d (1024 * (i + 1 + j)) (i + 1 + j) name).1) from by
        apply List.map_congr_left
        intro j hj
        show (writeFileChunk d (1024 * (i + (j + 1))) (i + (j + 1)) name).1 = _
        rw [show i + (j + 1) = i + 1 + j from by omega]]
      rw [ih (i + 1) (by omega) (by omega)
        (fun n => if n = name then some (pfsAfter es name d (i + 1)) else lk n) ord wa
        (by simp)]
      refine pfState_mk_congr ?_ rfl rfl
      funext n
      by_cases hn : n = name
      · rw [if_pos hn, if_pos hn, show i + 1 + k = i + (k + 1) from by omega]
      · rw [if_neg hn, if_neg hn, if_neg hn]
  have hcc1 : 1 ≤ chunkCount d.length := by omega
  obtain ⟨k, hk⟩ : ∃ k, chunkCount d.length = k + 1 :=
    ⟨chunkCount d.length - 1, by omega⟩
  rw [seqChunks, hk, List.range_succ_eq_map, List.map_cons, List.foldl_cons,
    List.map_map, Nat.mul_zero]
  rw [pfStep_first es name d s h16 hclean hnone]
  rw [show (List.range k).map
      ((fun i => (writeFileChunk d (1024 * i) i name).1) ∘ Nat.succ) =
      (List.range k).map
        (fun j => (writeFileChunk d (1024 * (1 + j)) (1 + j) name).1) from by
    apply List.map_congr_left
    intro j hj
    show (writeFileChunk d (1024 * (j + 1)) (j + 1) name).1 = _
    rw [show j + 1 = 1 + j from by omega]]
  rw [hgo k 1 (le_refl 1) (by omega) _ (s.order ++ [name]) s.warnings (by simp)]
  refine pfState_mk_congr ?_ rfl rfl
  funext n
  by_cases hn : n = name
  · rw [if_pos hn, if_pos hn, show 1 + k = k + 1 from by omega]
  · rw [if_neg hn, if_neg hn, if_neg hn]

/-- The reassembly buffers after the two sequential chunk lists. -/
theorem seq_two_lookup (es : List (List Nat × Nat)) (n1 d1 n2 d2 : List Nat)
    (h16a : n1.length ≤ 16) (hc1 : ∀ b ∈ n1, 32 < b)
    (hL1 : 0 < d1.length) (hL1' : d1.length ≤ 262144)
    (h16b : n2.length ≤ 16) (hc2 : ∀ b ∈ n2, 32 < b)
    (hL2 : 0 < d2.length) (hL2' : d2.length ≤ 262144)
    (hne : n1 ≠ n2) :
    (parseFilesCore es (seqChunks d1 n1 ++ seqChunks d2 n2)).lookup n1 =
      some (pfsAfter es n1 d1 (chunkCount d1.length)) ∧
    (parseFilesCore es (seqChunks d1 n1 ++ seqChunks d2 n2)).lookup n2 =
      some (pfsAfter es n2 d2 (chunkCount d2.length)) := by
  have h1 := foldl_seqChunks es n1 d1 pfInit h16a hc1 hL1 hL1' rfl
  have hnone2 : (⟨fun n => if n = n1 then
        some (pfsAfter es n1 d1 (chunkCount d1.length)) else pfInit.lookup n,
      pfInit.order ++ [n1], pfInit.warnings⟩ : PFState).lookup n2 = none := by
    show (if n2 = n1 then some (pfsAfter es n1 d1 (chunkCount d1.length))
      else pfInit.lookup n2) = none
    rw [if_neg (fun h => hne h.symm)]
    rfl
  have h2 := foldl_seqChunks es n2 d2
    ⟨fun n => if n = n1 then some (pfsAfter es n1 d1 (chunkCount d1.length))
      else pfInit.lookup n, pfInit.order ++ [n1], pfInit.warnings⟩
    h16b hc2 hL2 hL2' hnone2
  rw [parseFilesCore, List.foldl_append, h1, h2]
  constructor
  · show (if n1 = n2 then some (pfsAfter es n2 d2 (chunkCount d2.length))
      else if n1 = n1 then some (pfsAfter es n1 d1 (chunkCount d1.length))
      else pfInit.lookup n1) = _
    rw [if_neg hne, if_pos rfl]
  · show (if n2 = n2 then some (pfsAfter es n2 d2 (chunkCount d2.length))
      else if n2 = n1 then some (pfsAfter es n1 d1 (chunkCount d1.length))
      else pfInit.lookup n2) = _
    rw [if_pos rfl]

/-- `parseFiles` differs from the bare record fold only in its warnings. -/
theorem parseFiles_shape (es : List (List Nat × Nat)) (bytes : List Nat) :
    ∃ w, parseFiles es bytes =
      ⟨(parseFilesCore es (chunkRecords bytes)).lookup,
       (parseFilesCore es (chunkRecords bytes)).order, w⟩ := by
  simp only [parseFiles]
  by_cases h : bytes.length % 1056 ≠ 0
  · rw [if_pos h]
    exact ⟨_, rfl⟩
  · rw [if_neg h]
    exact ⟨_, rfl⟩

/-- Two-entry association list, key in the head cell. -/
theorem lookup_pair_head (a b : List Nat) (v w : Nat) :
    (([(a, v), (b, w)]) : List (List Nat × Nat)).lookup a = some v := by
  simp [List.lookup]

/-- Two-entry association list, key in the second cell. -/
theorem lookup_pair_tail (a b : List Nat) (v w : Nat) (hne : b ≠ a) :
    (([(b, w), (a, v)]) : List (List Nat × Nat)).lookup a = some v := by
  simp only [List.lookup]
  rw [show (a == b) = false from beq_eq_false_iff_ne.mpr (Ne.symm hne),
    show (a == a) = true from beq_self_eq_true a]

/-- A data-equivalent `some` resolves the payload. -/
theorem pfPayload_of_lookupEquiv (s : PFState) (n : List Nat) (fs : FileState)
    (h : lookupEquiv (s.lookup n) (some fs)) :
    pfPayload s n = (List.range fs.size).map fs.content := by
  rw [pfPayload]
  cases hl : s.lookup n with
  | none =>
    rw [hl] at h
    exact h.elim
  | some g =>
    rw [hl] at h
    show (List.range g.size).map g.content = _
    rw [h.2.1, h.2.2]

/-- One entry of the `parseQst` result, resolved from its header, its
expected size and its payload. -/
theorem qstEntry_eq (headers : List QstHeader) (s : PFState) (n : List Nat)
    (hdr : QstHeader)
    (hfind : headers.find? (fun h => decide (h.fileName = n)) = some hdr)
    (esz : Option Nat) (hesz : (s.lookup n).bind (fun f => f.expectedSize) = esz)
    (d : List Nat) (hd : pfPayload s n = d) :
    qstEntry headers s n = ⟨n, some hdr.fileName2, some hdr.questNo, esz, d⟩ := by
  simp only [qstEntry, hfind, hesz, hd]
  rfl

/-- Reading the assembled payload back out of the sequential buffer. -/
theorem pfsAfter_payload (es : List (List Nat × Nat)) (name d : List Nat) :
    (List.range (pfsAfter es name d (chunkCount d.length)).size).map
      (pfsAfter es name d (chunkCount d.length)).content = d := by
  have hmin := min_chunkCount d.length
  apply List.ext_getElem
  · simp [pfsAfter, hmin]
  · intro i h1 h2
    simp only [List.getElem_map, List.getElem_range]
    show (if i < min (1024 * chunkCount d.length) d.length then d.getD i 0 else 0) =
      d[i]
    rw [hmin, if_pos h2, List.getD_eq_getElem d 0 h2]

/-- `parseQst` on a written two-file container: both payloads are recovered
byte-for-byte through the round-robin interleaving (up to 256 chunks each),
names and sizes come from the headers, and the quest number is the written
id reduced modulo `2^16`. -/
theorem parse_qst_general (f1 f2 : SimpleQstContainedFile)
    (h16a : f1.name.length ≤ 16) (hc1 : ∀ b ∈ f1.name, 32 < b)
    (h24a : (qstFileName2 f1).length ≤ 24) (hc1b : ∀ b ∈ qstFileName2 f1, 32 < b)
    (h16b : f2.name.length ≤ 16) (hc2 : ∀ b ∈ f2.name, 32 < b)
    (h24b : (qstFileName2 f2).length ≤ 24) (hc2b : ∀ b ∈ qstFileName2 f2, 32 < b)
    (hne : f1.name ≠ f2.name)
    (hL1 : 0 < f1.data.length) (hL1' : f1.data.length ≤ 262144)
    (hL2 : 0 < f2.data.length) (hL2' : f2.data.length ≤ 262144) :
    ∃ w, parse_qst ((headerBytes f1 ++ (headerBytes f2 ++ [])) ++
        writeFileChunks [f1, f2]) =
      some ⟨[⟨f1.name, some (qstFileName2 f1), some (f1.questNo.getD 0 % 65536),
          some f1.data.length, f1.data⟩,
        ⟨f2.name, some (qstFileName2 f2), some (f2.questNo.getD 0 % 65536),
          some f2.data.length, f2.data⟩], w⟩ := by
  have hrecords : chunkRecords (writeFileChunks [f1, f2]) =
      chunkList (writeChunksMeasure [(f1, 0, 0), (f2, 0, 0)])
        [(f1, 0, 0), (f2, 0, 0)] := by
    rw [writeFileChunks,
      show ([f1, f2].map fun f => (f, (0 : Nat), (0 : Nat))) =
        [(f1, 0, 0), (f2, 0, 0)] from rfl]
    exact chunkRecords_writeChunksAux _ _
  obtain ⟨rest, hhead, hrest⟩ := chunkList_two_head f1 f2 h16a hc1 h16b hc2
  have hperm : (chunkList (writeChunksMeasure [(f1, 0, 0), (f2, 0, 0)])
      [(f1, 0, 0), (f2, 0, 0)]).Perm
      (seqChunks f1.data f1.name ++ seqChunks f2.data f2.name) := by
    have h := chunkList_perm (writeChunksMeasure [(f1, 0, 0), (f2, 0, 0)])
      [(f1, 0, 0), (f2, 0, 0)] (le_refl _)
    rw [flatMap_two_fresh] at h
    exact h
  have hkeys : ((chunkList (writeChunksMeasure [(f1, 0, 0), (f2, 0, 0)])
      [(f1, 0, 0), (f2, 0, 0)]).map chunkKey).Nodup := by
    rw [List.Perm.nodup_iff (hperm.map chunkKey)]
    exact seq_two_keys_nodup f1.data f1.name f2.data f2.name h16a hc1 hL1'
      h16b hc2 hL2' hne
  have hequiv := parseFilesCore_perm
    [(f2.name, f2.data.length), (f1.name, f1.data.length)] hperm hkeys
  obtain ⟨hsq1, hsq2⟩ := seq_two_lookup
    [(f2.name, f2.data.length), (f1.name, f1.data.length)]
    f1.name f1.data f2.name f2.data h16a hc1 hL1 hL1' h16b hc2 hL2 hL2' hne
  have hE1 : lookupEquiv
      ((parseFilesCore [(f2.name, f2.data.length), (f1.name, f1.data.length)]
        (chunkRecords (writeFileChunks [f1, f2]))).lookup f1.name)
      (some (pfsAfter [(f2.name, f2.data.length), (f1.name, f1.data.length)]
        f1.name f1.data (chunkCount f1.data.length))) := by
    rw [hrecords]
    have h := hequiv f1.name
    rw [hsq1] at h
    exact h
  have hE2 : lookupEquiv
      ((parseFilesCore [(f2.name, f2.data.length), (f1.name, f1.data.length)]
        (chunkRecords (writeFileChunks [f1, f2]))).lookup f2.name)
      (some (pfsAfter [(f2.name, f2.data.length), (f1.name, f1.data.length)]
        f2.name f2.data (chunkCount f2.data.length))) := by
    rw [hrecords]
    have h := hequiv f2.name
    rw [hsq2] at h
    exact h
  have horder : (parseFilesCore [(f2.name, f2.data.length), (f1.name, f1.data.length)]
      (chunkRecords (writeFileChunks [f1, f2]))).order = [f1.name, f2.name] := by
    rw [hrecords, hhead]
    exact parse_two_order _ f1.name f2.name _ _ rest
      (chunkNameOf_writeFileChunk f1.data 0 0 f1.name h16a hc1)
      (chunkNameOf_writeFileChunk f2.data 0 0 f2.name h16b hc2) hne hrest
  obtain ⟨w0, hshape⟩ := parseFiles_shape
    [(f2.name, f2.data.length), (f1.name, f1.data.length)] (writeFileChunks [f1, f2])
  have hORD : (parseFiles [(f2.name, f2.data.length), (f1.name, f1.data.length)]
      (writeFileChunks [f1, f2])).order = [f1.name, f2.name] := by
    rw [hshape]
    exact horder
  have hLK : (parseFiles [(f2.name, f2.data.length), (f1.name, f1.data.length)]
      (writeFileChunks [f1, f2])).lookup =
      (parseFilesCore [(f2.name, f2.data.length), (f1.name, f1.data.length)]
        (chunkRecords (writeFileChunks [f1, f2]))).lookup := by
    rw [hshape]
  have hesz1 : ((parseFiles [(f2.name, f2.data.length), (f1.name, f1.data.length)]
      (writeFileChunks [f1, f2])).lookup f1.name).bind (fun f => f.expectedSize) =
      some f1.data.length := by
    rw [hLK, lookupEquiv_bind_expectedSize hE1]
    show ([(f2.name, f2.data.length), (f1.name, f1.data.length)] :
      List (List Nat × Nat)).lookup f1.name = some f1.data.length
    exact lookup_pair_tail f1.name f2.name f1.data.length f2.data.length
      (fun h => hne h.symm)
  have hesz2 : ((parseFiles [(f2.name, f2.data.length), (f1.name, f1.data.length)]
      (writeFileChunks [f1, f2])).lookup f2.name).bind (fun f => f.expectedSize) =
      some f2.data.length := by
    rw [hLK, lookupEquiv_bind_expectedSize hE2]
    show ([(f2.name, f2.data.length), (f1.name, f1.data.length)] :
      List (List Nat × Nat)).lookup f2.name = some f2.data.length
    exact lookup_pair_head f2.name f1.name f2.data.length f1.data.length
  have hpay1 : pfPayload (parseFiles
      [(f2.name, f2.data.length), (f1.name, f1.data.length)]
      (writeFileChunks [f1, f2])) f1.name = f1.data := by
    rw [pfPayload_of_lookupEquiv _ f1.name
      (pfsAfter [(f2.name, f2.data.length), (f1.name, f1.data.length)]
        f1.name f1.data (chunkCount f1.data.length))
      (by rw [hLK]; exact hE1)]
    exact pfsAfter_payload _ f1.name f1.data
  have hpay2 : pfPayload (parseFiles
      [(f2.name, f2.data.length), (f1.name, f1.data.length)]
      (writeFileChunks [f1, f2])) f2.name = f2.data := by
    rw [pfPayload_of_lookupEquiv _ f2.name
      (pfsAfter [(f2.name, f2.data.length), (f1.name, f1.data.length)]
        f2.name f2.data (chunkCount f2.data.length))
      (by rw [hLK]; exact hE2)]
    exact pfsAfter_payload _ f2.name f2.data
  have hfind1 : ([⟨f1.questNo.getD 0 % 65536, f1.name, qstFileName2 f1,
      f1.data.length⟩,
      ⟨f2.questNo.getD 0 % 65536, f2.name, qstFileName2 f2, f2.data.length⟩] :
      List QstHeader).find? (fun h => decide (h.fileName = f1.name)) =
      some ⟨f1.questNo.getD 0 % 65536, f1.name, qstFileName2 f1,
        f1.data.length⟩ := by
    rw [List.find?_cons_of_pos _ (by simp)]
  have hfind2 : ([⟨f1.questNo.getD 0 % 65536, f1.name, qstFileName2 f1,
      f1.data.length⟩,
      ⟨f2.questNo.getD 0 % 65536, f2.name, qstFileName2 f2, f2.data.length⟩] :
      List QstHeader).find? (fun h => decide (h.fileName = f2.name)) =
      some ⟨f2.questNo.getD 0 % 65536, f2.name, qstFileName2 f2,
        f2.data.length⟩ := by
    rw [List.find?_cons_of_neg _ (by simp [hne]), List.find?_cons_of_pos _ (by simp)]
  have hent1 : qstEntry [⟨f1.questNo.getD 0 % 65536, f1.name, qstFileName2 f1,
      f1.data.length⟩,
      ⟨f2.questNo.getD 0 % 65536, f2.name, qstFileName2 f2, f2.data.length⟩]
      (parseFiles [(f2.name, f2.data.length), (f1.name, f1.data.length)]
        (writeFileChunks [f1, f2])) f1.name =
      ⟨f1.name, some (qstFileName2 f1), some (f1.questNo.getD 0 % 65536),
        some f1.data.length, f1.data⟩ := by
    rw [qstEntry_eq _ _ f1.name
      ⟨f1.questNo.getD 0 % 65536, f1.name, qstFileName2 f1, f1.data.length⟩
      hfind1 (some f1.data.length) hesz1 f1.data hpay1]
  have hent2 : qstEntry [⟨f1.questNo.getD 0 % 65536, f1.name, qstFileName2 f1,
      f1.data.length⟩,
      ⟨f2.questNo.getD 0 % 65536, f2.name, qstFileName2 f2, f2.data.length⟩]
      (parseFiles [(f2.name, f2.data.length), (f1.name, f1.data.length)]
        (writeFileChunks [f1, f2])) f2.name =
      ⟨f2.name, some (qstFileName2 f2), some (f2.questNo.getD 0 % 65536),
        some f2.data.length, f2.data⟩ := by
    rw [qstEntry_eq _ _ f2.name
      ⟨f2.questNo.getD 0 % 65536, f2.name, qstFileName2 f2, f2.data.length⟩
      hfind2 (some f2.data.length) hesz2 f2.data hpay2]
  have hhd : parseHeaders ((headerBytes f1 ++ (headerBytes f2 ++ [])) ++
      writeFileChunks [f1, f2]) =
      [⟨f1.questNo.getD 0 % 65536, f1.name, qstFileName2 f1, f1.data.length⟩,
       ⟨f2.questNo.getD 0 % 65536, f2.name, qstFileName2 f2, f2.data.length⟩] := by
    rw [parseHeaders,
      genStream_headerAt0 f1 f2 _ h16a hc1 h24a hc1b (by omega),
      genStream_headerAt88 f1 f2 _ h16b hc2 h24b hc2b (by omega)]
  have hmain : parse_qst ((headerBytes f1 ++ (headerBytes f2 ++ [])) ++
      writeFileChunks [f1, f2]) =
      some ⟨(parseFiles
          (((parseHeaders ((headerBytes f1 ++ (headerBytes f2 ++ [])) ++
            writeFileChunks [f1, f2])).map fun h => (h.fileName, h.size)).reverse)
          (((headerBytes f1 ++ (headerBytes f2 ++ [])) ++
            writeFileChunks [f1, f2]).drop 176)).order.map
        (qstEntry (parseHeaders ((headerBytes f1 ++ (headerBytes f2 ++ [])) ++
            writeFileChunks [f1, f2]))
          (parseFiles
            (((parseHeaders ((headerBytes f1 ++ (headerBytes f2 ++ [])) ++
              writeFileChunks [f1, f2])).map fun h => (h.fileName, h.size)).reverse)
            (((headerBytes f1 ++ (headerBytes f2 ++ [])) ++
              writeFileChunks [f1, f2]).drop 176))),
        (parseFiles
          (((parseHeaders ((headerBytes f1 ++ (headerBytes f2 ++ [])) ++
            writeFileChunks [f1, f2])).map fun h => (h.fileName, h.size)).reverse)
          (((headerBytes f1 ++ (headerBytes f2 ++ [])) ++
            writeFileChunks [f1, f2]).drop 176)).warnings⟩ := rfl
  refine ⟨(parseFiles [(f2.name, f2.data.length), (f1.name, f1.data.length)]
    (writeFileChunks [f1, f2])).warnings, ?_⟩
  rw [hmain, hhd,
    show (([⟨f1.questNo.getD 0 % 65536, f1.name, qstFileName2 f1, f1.data.length⟩,
      ⟨f2.questNo.getD 0 % 65536, f2.name, qstFileName2 f2, f2.data.length⟩] :
      List QstHeader).map fun h => (h.fileName, h.size)).reverse =
      [(f2.name, f2.data.length), (f1.name, f1.data.length)] from rfl,
    genStream_drop176 f1 f2 (writeFileChunks [f1, f2]),
    hORD, List.map_cons, List.map_cons, List.map_nil, hent1, hent2]

/-! ### General round trip: `parse_quest` / `write_quest_qst` glue -/

theorem cleanName_append (s t : List Nat) (hs : cleanName s) (ht : cleanName t) :
    cleanName (s ++ t) := by
  intro b hb
  rcases List.mem_append.mp hb with h | h
  · exact hs b h
  · exact ht b h

theorem cleanName_dotDat : cleanName dotDat := by
  intro b hb
  simp only [dotDat, List.mem_cons, List.not_mem_nil, or_false] at hb
  rcases hb with rfl | rfl | rfl | rfl <;> exact ⟨by omega, by omega⟩

theorem cleanName_dotBin : cleanName dotBin := by
  intro b hb
  simp only [dotBin, List.mem_cons, List.not_mem_nil, or_false] at hb
  rcases hb with rfl | rfl | rfl | rfl <;> exact ⟨by omega, by omega⟩

theorem cleanName_uj : cleanName [95, 106] := by
  intro b hb
  simp only [List.mem_cons, List.not_mem_nil, or_false] at hb
  rcases hb with rfl | rfl <;> exact ⟨by omega, by omega⟩

/-- A clean `.dat` member name takes the `.dat` branch of the member
search. -/
theorem questFileStep_dat (acc : Option QstContainedFile × Option QstContainedFile)
    (file : QstContainedFile) (base : List Nat)
    (hname : file.name = base ++ dotDat) (hclean : cleanName (base ++ dotDat)) :
    questFileStep acc file = (some file, acc.2) := by
  simp only [questFileStep, hname]
  rw [trimBytes_eq_self _ (fun b hb => (hclean b hb).1),
    lowerBytes_eq_self _ (fun b hb => (hclean b hb).2),
    if_pos (isSuffixOf_append_self dotDat base)]

/-- A clean `.bin` member name takes the `.bin` branch of the member
search. -/
theorem questFileStep_bin (acc : Option QstContainedFile × Option QstContainedFile)
    (file : QstContainedFile) (base : List Nat)
    (hname : file.name = base ++ dotBin) (hclean : cleanName (base ++ dotBin)) :
    questFileStep acc file = (acc.1, some file) := by
  simp only [questFileStep, hname]
  rw [trimBytes_eq_self _ (fun b hb => (hclean b hb).1),
    lowerBytes_eq_self _ (fun b hb => (hclean b hb).2),
    if_neg (not_isSuffixOf_of_ne_tail dotDat dotBin base (by decide) (by decide)),
    if_pos (isSuffixOf_append_self dotBin base)]

/-- `write_quest_qst` on an arbitrary archive name: the container stream of
the encoded entities and bytecode under the derived base name. -/
theorem write_quest_qst_general (q : Quest) (file_name : List Nat)
    (npcsDat : List DatNpc) (hnpc : npcs_to_dat_data q.npcs = .ok npcsDat) :
    write_quest_qst q file_name = .ok
      ((headerBytes ⟨questBaseName file_name ++ dotDat, none, some q.id,
          write_dat ⟨objects_to_dat_data q.objects, npcsDat, q.dat_unknowns⟩⟩ ++
        (headerBytes ⟨questBaseName file_name ++ dotBin, none, some q.id,
          write_bin ⟨q.id, q.language, q.name, q.short_description,
            q.long_description, q.object_code, q.shop_items⟩⟩ ++ [])) ++
      writeFileChunks
        [⟨questBaseName file_name ++ dotDat, none, some q.id,
          write_dat ⟨objects_to_dat_data q.objects, npcsDat, q.dat_unknowns⟩⟩,
         ⟨questBaseName file_name ++ dotBin, none, some q.id,
          write_bin ⟨q.id, q.language, q.name, q.short_description,
            q.long_description, q.object_code, q.shop_items⟩⟩]) := by
  have hb11 := questBaseName_length_le file_name
  simp only [write_quest_qst, hnpc]
  show (writeQst
    [⟨questBaseName file_name ++ dotDat, none, some q.id,
      write_dat ⟨objects_to_dat_data q.objects, npcsDat, q.dat_unknowns⟩⟩,
     ⟨questBaseName file_name ++ dotBin, none, some q.id,
      write_bin ⟨q.id, q.language, q.name, q.short_description,
        q.long_description, q.object_code, q.shop_items⟩⟩]).mapError
    WriteQuestError.qst = _
  rw [writeQst_ok_general _ _
    (by
      show (questBaseName file_name ++ dotDat).length ≤ 16
      rw [List.length_append, show dotDat.length = 4 from rfl]
      omega)
    (by
      rw [qstFileName2_base_dat _ (questBaseName file_name) rfl rfl,
        List.length_append, List.length_append,
        show ([95, 106] : List Nat).length = 2 from rfl,
        show dotDat.length = 4 from rfl]
      omega)
    (by
      show (questBaseName file_name ++ dotBin).length ≤ 16
      rw [List.length_append, show dotBin.length = 4 from rfl]
      omega)
    (by
      rw [qstFileName2_base_bin _ (questBaseName file_name) rfl rfl,
        List.length_append, List.length_append,
        show ([95, 106] : List Nat).length = 2 from rfl,
        show dotBin.length = 4 from rfl]
      omega)
    (write_dat_pos _) (write_bin_pos _)]
  rfl

/-- `parse_quest` on the written two-file container of an encoded dat/bin
pair under any clean base name: every quest component is a function of the
encoded `DatFile`/`BinFile` (the contained `questNo` fields are ignored, so
the id admits no bound). -/
theorem parse_quest_general_core (df : DatFile) (bf : BinFile) (base : List Nat)
    (qid1 qid2 : Option Nat)
    (hclean : cleanName base) (hb11 : base.length ≤ 11)
    (hdat : (write_dat df).length ≤ 262144)
    (hbin : (write_bin bf).length ≤ 262144)
    (ep : Nat) (md : List (Int × Int)) (logs : List LogEntry)
    (hep : episode_extraction bf.object_code = some (ep, md, logs)) :
    parse_quest ((headerBytes ⟨base ++ dotDat, none, qid1, write_dat df⟩ ++
        (headerBytes ⟨base ++ dotBin, none, qid2, write_bin bf⟩ ++ [])) ++
      writeFileChunks [⟨base ++ dotDat, none, qid1, write_dat df⟩,
        ⟨base ++ dotBin, none, qid2, write_bin bf⟩]) =
      some ⟨bf.quest_id, bf.language, bf.quest_name, bf.short_description,
        bf.long_description, ep, parse_obj_data df.objs, parse_npc_data ep df.npcs,
        df.unknowns, bf.object_code, bf.shop_items, md⟩ := by
  have hcleanD : cleanName (base ++ dotDat) :=
    cleanName_append base dotDat hclean cleanName_dotDat
  have hcleanB : cleanName (base ++ dotBin) :=
    cleanName_append base dotBin hclean cleanName_dotBin
  have hne : base ++ dotDat ≠ base ++ dotBin := by
    intro h
    exact absurd (List.append_cancel_left h) (by decide)
  obtain ⟨w, hq⟩ := parse_qst_general
    ⟨base ++ dotDat, none, qid1, write_dat df⟩
    ⟨base ++ dotBin, none, qid2, write_bin bf⟩
    (by
      show (base ++ dotDat).length ≤ 16
      rw [List.length_append, show dotDat.length = 4 from rfl]
      omega)
    (fun b hb => (hcleanD b hb).1)
    (by
      rw [qstFileName2_base_dat _ base rfl rfl, List.length_append,
        List.length_append, show ([95, 106] : List Nat).length = 2 from rfl,
        show dotDat.length = 4 from rfl]
      omega)
    (by
      rw [qstFileName2_base_dat _ base rfl rfl]
      exact fun b hb => ((cleanName_append base ([95, 106] ++ dotDat) hclean
        (cleanName_append [95, 106] dotDat cleanName_uj cleanName_dotDat)) b hb).1)
    (by
      show (base ++ dotBin).length ≤ 16
      rw [List.length_append, show dotBin.length = 4 from rfl]
      omega)
    (fun b hb => (hcleanB b hb).1)
    (by
      rw [qstFileName2_base_bin _ base rfl rfl, List.length_append,
        List.length_append, show ([95, 106] : List Nat).length = 2 from rfl,
        show dotBin.length = 4 from rfl]
      omega)
    (by
      rw [qstFileName2_base_bin _ base rfl rfl]
      exact fun b hb => ((cleanName_append base ([95, 106] ++ dotBin) hclean
        (cleanName_append [95, 106] dotBin cleanName_uj cleanName_dotBin)) b hb).1)
    hne (write_dat_pos df) hdat (write_bin_pos bf) hbin
  simp only [parse_quest, Option.bind_eq_bind]
  rw [hq]
  simp only [Option.some_bind]
  rw [show ([⟨base ++ dotDat,
      some (qstFileName2 ⟨base ++ dotDat, none, qid1, write_dat df⟩),
      some (qid1.getD 0 % 65536), some (write_dat df).length, write_dat df⟩,
    ⟨base ++ dotBin,
      some (qstFileName2 ⟨base ++ dotBin, none, qid2, write_bin bf⟩),
      some (qid2.getD 0 % 65536), some (write_bin bf).length, write_bin bf⟩] :
      List QstContainedFile).foldl questFileStep (none, none) =
      (some ⟨base ++ dotDat,
        some (qstFileName2 ⟨base ++ dotDat, none, qid1, write_dat df⟩),
        some (qid1.getD 0 % 65536), some (write_dat df).length, write_dat df⟩,
       some ⟨base ++ dotBin,
        some (qstFileName2 ⟨base ++ dotBin, none, qid2, write_bin bf⟩),
        some (qid2.getD 0 % 65536), some (write_bin bf).length, write_bin bf⟩) from by
    rw [List.foldl_cons, List.foldl_cons, List.foldl_nil]
    rw [questFileStep_dat (none, none)
      ⟨base ++ dotDat,
        some (qstFileName2 ⟨base ++ dotDat, none, qid1, write_dat df⟩),
        some (qid1.getD 0 % 65536), some (write_dat df).length, write_dat df⟩
      base rfl hcleanD]
    rw [questFileStep_bin _ _ base rfl hcleanB]]
  show Option.bind (parse_dat (write_dat df)) _ = _
  rw [parse_dat_write_dat df]
  simp only [Option.some_bind]
  show Option.bind (parse_bin (write_bin bf)
    (extract_script_entry_points (parse_obj_data df.objs) df.npcs) false) _ = _
  rw [parse_bin_write_bin]
  simp only [Option.some_bind]
  show Option.bind (episode_extraction bf.object_code) _ = _
  rw [hep]
  simp only [Option.some_bind]

/-- **C1, amended**: for a quest whose NPC identities all have inverse
mappings, whose encoded dat and bin payloads each fit the container's 256
chunks (≤ 262144 bytes, the range of the u8 chunk-number field) and whose
episode and map designations derive from its own bytecode, encoding to any
archive name with a clean derived base name succeeds — the payloads
travelling through the round-robin chunk interleaving — and re-decoding
yields the same quest except that objects and NPCs are re-derived from
their encoded DAT form: NPC roaming values are rewritten to the inverse
table's value and `scale.y` bit 23 is forced to the regular flag, so the
NPC list (and hence the quest) is in general not preserved; unknown DAT
records, bytecode segments, episode, map designations, id (of any size),
language, name, descriptions and shop items are preserved exactly. -/
theorem c1_roundtrip_amended (q : Quest) (file_name : List Nat)
    (npcsDat : List DatNpc) (logs : List LogEntry)
    (hnpc : npcs_to_dat_data q.npcs = .ok npcsDat)
    (hclean : cleanName (questBaseName file_name))
    (hdat : (write_dat ⟨objects_to_dat_data q.objects, npcsDat,
      q.dat_unknowns⟩).length ≤ 262144)
    (hbin : (write_bin ⟨q.id, q.language, q.name, q.short_description,
      q.long_description, q.object_code, q.shop_items⟩).length ≤ 262144)
    (hep : episode_extraction q.object_code =
      some (q.episode, q.map_designations, logs)) :
    (write_quest_qst q file_name).map parse_quest =
      .ok (some { q with
        objects := parse_obj_data (objects_to_dat_data q.objects)
        npcs := parse_npc_data q.episode npcsDat }) := by
  rw [write_quest_qst_general q file_name npcsDat hnpc]
  show Except.ok (parse_quest
    ((headerBytes ⟨questBaseName file_name ++ dotDat, none, some q.id,
        write_dat ⟨objects_to_dat_data q.objects, npcsDat, q.dat_unknowns⟩⟩ ++
      (headerBytes ⟨questBaseName file_name ++ dotBin, none, some q.id,
        write_bin ⟨q.id, q.language, q.name, q.short_description,
          q.long_description, q.object_code, q.shop_items⟩⟩ ++ [])) ++
     writeFileChunks
       [⟨questBaseName file_name ++ dotDat, none, some q.id,
         write_dat ⟨objects_to_dat_data q.objects, npcsDat, q.dat_unknowns⟩⟩,
        ⟨questBaseName file_name ++ dotBin, none, some q.id,
         write_bin ⟨q.id, q.language, q.name, q.short_description,
           q.long_description, q.object_code, q.shop_items⟩⟩])) = _
  rw [parse_quest_general_core
    ⟨objects_to_dat_data q.objects, npcsDat, q.dat_unknowns⟩
    ⟨q.id, q.language, q.name, q.short_description, q.long_description,
      q.object_code, q.shop_items⟩
    (questBaseName file_name) (some q.id) (some q.id) hclean
    (questBaseName_length_le file_name) hdat hbin
    q.episode q.map_designations logs hep]

/-- Witness for C1 (amended): the normalized quest `c1q1` under archive
name `q.qst` satisfies the hypotheses, and its round trip is computed by
the theorem. -/
theorem c1_roundtrip_amended_witness :
    (write_quest_qst c1q1 c1QstName).map parse_quest =
      .ok (some { c1q1 with
        objects := parse_obj_data (objects_to_dat_data c1q1.objects)
        npcs := parse_npc_data c1q1.episode c1NpcsDat }) :=
  c1_roundtrip_amended c1q1 c1QstName c1NpcsDat [⟨.debug, .noSetEpisode⟩]
    rfl
    (by
      show ∀ b ∈ questBaseName c1QstName, 32 < b ∧ ¬(65 ≤ b ∧ b ≤ 90)
      decide)
    (by decide) (by decide) (by decide)

end PW
